import Mathlib

/-! # Scanline renderer of genemu (`src/gfx.cpp`)

A shallow embedding of the scanline renderer: the priority-gated pixel write,
the pattern decoder, the nametable row renderer, the two scrolling planes, the
window plane, the sprite renderer and the scanline orchestrator.

Conventions of the embedding.

* `int` values are `Int`; values the source keeps in unsigned storage
  (`uint8_t`, `uint16_t`) are `Nat`, reduced `% 2^w` wherever the source
  stores them.
* The `screen` pointer always points at a 4-byte cell, and every offset the
  source adds to it is a multiple of 4 bytes; a screen position is therefore
  the cell index `x : Int` relative to the pointer handed to `draw_scanline`
  (the buffer of `gfx_draw_scanline` is the range `-32 ≤ x < 352`).
* `line` is a `Nat`: the renderer is specified for lines `0 ≤ line`.
* `assert` is a fault that stops the render; the state reached at that point
  is kept in the result.
* The machine state carries a ghost `log` of the drawing calls made so far.
  The log never influences control flow or pixels.
-/

namespace Genemu

/-! ## Video memory -/

/-- Modelled from the spec: the field accessor `BITS(word, start, width)` of
`vdp.h` (not among the sources), "bitfield extraction via shift/mask". -/
def BITS (v start width : Nat) : Nat := (v >>> start) &&& ((1 <<< width) - 1)

/-- Modelled from the spec: the single-bit accessor `BIT(word, idx)` of
`vdp.h` (not among the sources). -/
def BIT (v idx : Nat) : Nat := (v >>> idx) &&& 1

/-- The video display processor state read by the renderer (`VDP` of `vdp.h`).
Memories are address-indexed; the accessors below reduce each read to the
width of the storage. `nametable_A/B/W` stand for the results of the accessors
`get_nametable_A/B/W()`, whose definitions are not among the sources. -/
structure VDP where
  VRAM : Nat → Nat
  CRAM : Nat → Nat
  VSRAM : Nat → Nat
  regs : Nat → Nat
  nametable_A : Nat
  nametable_B : Nat
  nametable_W : Nat

/-- One byte of video memory. -/
def VDP.vram (v : VDP) (a : Nat) : Nat := v.VRAM a % 256

/-- One 16-bit palette word. -/
def VDP.cram (v : VDP) (i : Nat) : Nat := v.CRAM i % 65536

/-- One 16-bit vertical scroll word. -/
def VDP.vsram (v : VDP) (i : Nat) : Nat := v.VSRAM i % 65536

/-- One 8-bit register. -/
def VDP.reg (v : VDP) (i : Nat) : Nat := v.regs i % 256

/-- Modelled from the spec: `FETCH16(p)` of `vdp.h` (not among the sources),
a 16-bit field of video memory, read high byte first like the nametable
entries of `draw_nametable`. -/
def FETCH16 (v : VDP) (a : Nat) : Nat := (v.vram a <<< 8) ||| v.vram (a + 1)

/-! ## Pixel cells and the screen -/

/-- `#define SCREEN_WIDTH 320`. -/
def SCREEN_WIDTH : Nat := 320

/-- A pixel cell: the four bytes `screen[0..3]`. -/
structure Cell where
  r : Nat
  g : Nat
  b : Nat
  pri : Nat
deriving DecidableEq, Repr

/-- The buffer of `gfx_draw_scanline`: `(SCREEN_WIDTH+32+32)` cells. The cell
at position `x` relative to the `screen` pointer (`buffer + 32*4`) is
`cells[x + 32]`, for `-32 ≤ x < 352`. -/
structure Screen where
  cells : List Cell
  size_eq : cells.length = 384
deriving DecidableEq

/-- The cell at `screen + 4*x`. -/
def Screen.read (s : Screen) (x : Int) : Cell :=
  if -32 ≤ x then s.cells.getD (x + 32).toNat ⟨0, 0, 0, 0⟩ else ⟨0, 0, 0, 0⟩

/-- Store a cell at `screen + 4*x`. A store outside the buffer is undefined
behaviour in the source; here it leaves the buffer as it is (the ghost log
below still records where every pattern is drawn). -/
def Screen.write (s : Screen) (x : Int) (c : Cell) : Screen :=
  if -32 ≤ x then ⟨s.cells.set (x + 32).toNat c, by simp [s.size_eq]⟩ else s

/-- A buffer holding the same cell everywhere. -/
def Screen.const (c : Cell) : Screen := ⟨List.replicate 384 c, List.length_replicate 384 c⟩

/-- `#define COLOR_3B_TO_8B(c)  (((c) << 5) | ((c) << 2) | ((c) >> 1))`. -/
def COLOR_3B_TO_8B (c : Nat) : Nat := (c <<< 5) ||| (c <<< 2) ||| (c >>> 1)

/-- `#define CRAM_R(c) COLOR_3B_TO_8B(BITS((c), 1, 3))`. -/
def CRAM_R (c : Nat) : Nat := COLOR_3B_TO_8B (BITS c 1 3)

/-- `#define CRAM_G(c) COLOR_3B_TO_8B(BITS((c), 5, 3))`. -/
def CRAM_G (c : Nat) : Nat := COLOR_3B_TO_8B (BITS c 5 3)

/-- `#define CRAM_B(c) COLOR_3B_TO_8B(BITS((c), 9, 3))`. -/
def CRAM_B (c : Nat) : Nat := COLOR_3B_TO_8B (BITS c 9 3)

/-- `GFX::draw_pixel` on the cell `screen` points at. The four stores go to
`uint8_t` slots, hence the reductions modulo 256. -/
def draw_pixel (cell : Cell) (rgb : Nat) (pri : Int) : Cell :=
  if pri ≥ (cell.pri : Int) then
    { r := CRAM_R rgb % 256
      g := CRAM_G rgb % 256
      b := CRAM_B rgb % 256
      pri := (pri % 256).toNat }
  else cell

/-- The call `draw_pixel(screen + 4*x, rgb, pri)`. -/
def draw_pixel_at (s : Screen) (x : Int) (rgb : Nat) (pri : Int) : Screen :=
  s.write x (draw_pixel (s.read x) rgb pri)

/-! ## Machine state, ghost log and faults -/

/-- The four renderers the orchestrator can call. -/
inductive Layer where
  | plane_b
  | plane_a
  | window
  | sprites
deriving DecidableEq, Repr

/-- Ghost events, in the order the calls are made.
* `enter l`: `draw_scanline` calls the renderer of layer `l`;
* `name_fetch a`: `draw_nametable` reads the nametable entry at `VRAM + a`;
* `sprite_cell slot p nv np`: `draw_sprites` is about to draw column `p` of the
  sprite recorded at `indices[slot]`, with `num_visible = nv` and
  `num_pixels = np` at that moment;
* `pattern x name paty`: the call `draw_pattern(screen + 4*x, name, paty)`. -/
inductive Event where
  | enter (l : Layer)
  | name_fetch (addr : Nat)
  | sprite_cell (slot p num_visible num_pixels : Nat)
  | pattern (x : Int) (name paty : Nat)
deriving DecidableEq, Repr

/-- The state one render call works on: the output row and the ghost log. -/
structure Gfx where
  screen : Screen
  log : List Event

/-- Append one ghost event. -/
def Gfx.emit (g : Gfx) (e : Event) : Gfx := { g with log := g.log ++ [e] }

/-- The `assert`s of `gfx.cpp`, named after their messages. -/
inductive Fault where
  | interlace_mode
  | vertical_scrolling_per_column
  | invalid_ntwidth
  | invalid_ntheight
  | col_out_of_range
  | winv_down_scroll
deriving DecidableEq, Repr

/-- Result of a call that may hit an `assert`: the state reached, and the
fault if one stopped the call. -/
structure Run where
  gfx : Gfx
  fault : Option Fault

/-! ## Pattern decoder -/

/-- `template <bool fliph> GFX::draw_pattern(screen, pattern, palette, pri)`:
the loop `for (x = 0; x < 4; ++x)`, by recursion on the iterations left.
`pattern` is the current byte address (`pattern += 3` has been applied by the
caller `draw_pattern_row` when `fliph`), `palette` the index of the palette
row in CRAM, `x` the current cell. -/
def draw_pattern_loop (v : VDP) (fliph : Bool) (palette : Nat) (pri : Int) :
    Nat → Nat → Int → Screen → Screen
  | 0, _, _, s => s
  | n + 1, pattern, x, s =>
    let pix := v.vram pattern
    let pix1 := if !fliph then pix >>> 4 else pix &&& 0xF
    let pix2 := if !fliph then pix &&& 0xF else pix >>> 4
    let s1 := if pix1 ≠ 0 then draw_pixel_at s x (v.cram (palette + pix1)) pri else s
    let s2 := if pix2 ≠ 0 then draw_pixel_at s1 (x + 1) (v.cram (palette + pix2)) pri else s1
    draw_pattern_loop v fliph palette pri n
      (if fliph then pattern - 1 else pattern + 1) (x + 2) s2

/-- `template <bool fliph> GFX::draw_pattern(screen, pattern, palette, pri)`. -/
def draw_pattern_row (v : VDP) (fliph : Bool) (s : Screen) (x : Int)
    (pattern palette : Nat) (pri : Int) : Screen :=
  draw_pattern_loop v fliph palette pri 4 (if fliph then pattern + 3 else pattern) x s

/-- `GFX::draw_pattern(screen, name, paty)`; `paty` is always in `0..7`. -/
def draw_pattern (v : VDP) (g : Gfx) (x : Int) (name paty : Nat) : Gfx :=
  let pat_idx := BITS name 0 11
  let pat_fliph := BITS name 11 1
  let pat_flipv := BITS name 12 1
  let pat_palette := BITS name 13 2
  let pat_pri := BITS name 15 1
  let pattern := pat_idx * 32
  let palette := pat_palette * 16
  let pattern := if pat_flipv = 0 then pattern + paty * 4 else pattern + (7 - paty) * 4
  { screen := draw_pattern_row v (pat_fliph ≠ 0) g.screen x pattern palette pat_pri
    log := g.log ++ [Event.pattern x name paty] }

/-! ## Nametable rows and planes -/

/-- `GFX::draw_nametable(screen, nt, numcols, paty)`, by recursion on the
columns left; `nt` is the byte address of the current entry. -/
def draw_nametable (v : VDP) (paty : Nat) : Nat → Int → Nat → Gfx → Gfx
  | 0, _, _, g => g
  | n + 1, x, nt, g =>
    let name := (v.vram nt <<< 8) ||| v.vram (nt + 1)
    draw_nametable v paty n (x + 8) (nt + 2)
      (draw_pattern v (g.emit (Event.name_fetch nt)) x name paty)

/-- `GFX::draw_plane_w(screen, y)`. -/
def draw_plane_w (v : VDP) (g : Gfx) (y : Nat) : Gfx :=
  let addr_w := v.nametable_W
  let row := y >>> 3
  let paty := y &&& 7
  draw_nametable v paty (SCREEN_WIDTH / 8) 0 (addr_w + row * (2 * 40)) g

/-- `GFX::draw_plane_ab(screen, line, ntaddr, scrollx, scrolly)`. The scroll
arguments are `Nat`: the only caller passes values masked to 10 bits. After
`scrollx -= ntwidth*8` the source only uses `-scrollx`, here `nscrollx`. -/
def draw_plane_ab (v : VDP) (g : Gfx) (line ntaddr scrollx scrolly : Nat) : Run :=
  let ntwidth := BITS (v.reg 16) 0 2
  let ntheight := BITS (v.reg 16) 4 2
  let screen_cols := SCREEN_WIDTH / 8
  if ntwidth = 2 then ⟨g, some Fault.invalid_ntwidth⟩ else
  if ntheight = 2 then ⟨g, some Fault.invalid_ntheight⟩ else
  let ntwidth := (ntwidth + 1) * 32
  let ntheight := (ntheight + 1) * 32
  let scrollx := scrollx % (ntwidth * 8)
  let scrolly := scrolly + line
  let scrolly := scrolly % (ntheight * 8)
  let row := scrolly >>> 3
  let paty := scrolly &&& 7
  let g1 :=
    if scrollx < SCREEN_WIDTH then
      let num_cols := (SCREEN_WIDTH - scrollx + 7) / 8
      draw_nametable v paty num_cols (scrollx : Int) (ntaddr + row * (2 * ntwidth)) g
    else g
  if scrollx > 0 then
    let nscrollx := ntwidth * 8 - scrollx
    let col := nscrollx / 8
    let patx := nscrollx &&& 7
    if ¬ col < ntwidth then ⟨g1, some Fault.col_out_of_range⟩ else
    let num_cols := min (ntwidth - col) screen_cols
    ⟨draw_nametable v paty num_cols (-(patx : Int))
        (ntaddr + row * (2 * ntwidth) + col * 2) g1, none⟩
  else ⟨g1, none⟩

/-! ## Sprites -/

/-- First loop of `GFX::draw_sprites`: `for (ns = 0; ns < 64; ++ns)`, by
recursion on the iterations left (`64 - ns`). `indices` holds the slots
`indices[0..ns-1]` written so far; the store `indices[ns] = sidx` appends.
Returns `ns` and the recorded slots. -/
def sprite_chain_loop (v : VDP) (start_table : Nat) :
    Nat → Nat → Nat → List Nat → Nat × List Nat
  | 0, ns, _, indices => (ns, indices)
  | k + 1, ns, sidx, indices =>
    let table := start_table + sidx * 8
    let link := BITS (v.vram (table + 3)) 0 7
    if link = 0 then (ns, indices)
    else sprite_chain_loop v start_table k (ns + 1) link (indices ++ [sidx])

/-- The sprite chain recorded by the first loop of `GFX::draw_sprites`. -/
def sprite_chain (v : VDP) (start_table : Nat) : Nat × List Nat :=
  sprite_chain_loop v start_table 64 0 0 []

/-- Local state of the second loop of `GFX::draw_sprites`; `returned` is set
by a `return` statement. -/
structure SpriteAcc where
  gfx : Gfx
  num_visible : Nat
  num_pixels : Nat
  returned : Bool

/-- The loop `for (p = 0; p < sw; p++)` of `GFX::draw_sprites`, by recursion
on the iterations left; `name` is a `uint16_t`. -/
def sprite_cells (v : VDP) (paty : Nat) (sx : Int) (sh fliph slot : Nat) :
    Nat → Nat → Nat → SpriteAcc → SpriteAcc
  | 0, _, _, a => a
  | k + 1, p, name, a =>
    let g := draw_pattern v
      (a.gfx.emit (Event.sprite_cell slot p a.num_visible a.num_pixels))
      (sx + (p : Int) * 8) name paty
    let num_pixels := a.num_pixels + 8
    if num_pixels ≥ 256 then
      { gfx := g, num_visible := a.num_visible, num_pixels := num_pixels, returned := true }
    else
      sprite_cells v paty sx sh fliph slot k (p + 1)
        (if fliph = 0 then (name + sh) % 65536 else (name + 65536 - sh) % 65536)
        { gfx := g, num_visible := a.num_visible, num_pixels := num_pixels, returned := false }

/-- Body of the loop `for (i = ns-1; i >= 0; i--)` of `GFX::draw_sprites` for
the sprite at table index `idx`, recorded at `indices[slot]`. -/
def draw_sprite (v : VDP) (line start_table idx slot : Nat) (a : SpriteAcc) : SpriteAcc :=
  let table := start_table + idx * 8
  let sy : Int := (((v.vram table &&& 0x3) <<< 8) ||| v.vram (table + 1) : Nat)
  let sh := BITS (v.vram (table + 2)) 0 2 + 1
  let name := (v.vram (table + 4) <<< 8) ||| v.vram (table + 5)
  let flipv := BITS name 12 1
  let fliph := BITS name 11 1
  let sw := BITS (v.vram (table + 2)) 2 2 + 1
  let sx : Int := (((v.vram (table + 6) &&& 0x3) <<< 8) ||| v.vram (table + 7) : Nat)
  let sy := sy - 128
  let sx := sx - 128
  if (line : Int) ≥ sy ∧ (line : Int) < sy + (sh : Int) * 8 then
    let row := ((line : Int) - sy).toNat >>> 3
    let paty := ((line : Int) - sy).toNat &&& 7
    let row := if flipv ≠ 0 then sh - row - 1 else row
    let a1 :=
      if sx > -((sw : Int) * 8) ∧ sx < (SCREEN_WIDTH : Int) then
        let name := (name + row) % 65536
        let name := if fliph ≠ 0 then (name + sh * (sw - 1)) % 65536 else name
        sprite_cells v paty sx sh fliph slot sw 0 name a
      else a
    if a1.returned then a1
    else if a1.num_visible + 1 ≥ 16 then
      { a1 with num_visible := a1.num_visible + 1, returned := true }
    else { a1 with num_visible := a1.num_visible + 1 }
  else a

/-- Second loop of `GFX::draw_sprites`: `for (i = ns-1; i >= 0; i--)`, by
recursion on `i + 1`; stops at the first `return`. -/
def sprite_loop (v : VDP) (line start_table : Nat) (indices : List Nat) :
    Nat → SpriteAcc → SpriteAcc
  | 0, a => a
  | i + 1, a =>
    let a1 := draw_sprite v line start_table (indices.getD i 0) i a
    if a1.returned then a1 else sprite_loop v line start_table indices i a1

/-- The address `start_table` of `GFX::draw_sprites`. -/
def sprite_table (v : VDP) : Nat := (v.reg 5 &&& 0x7F) <<< 9

/-- `GFX::draw_sprites(screen, line)`, with its final local state. -/
def draw_sprites (v : VDP) (g : Gfx) (line : Nat) : SpriteAcc :=
  let start_table := (v.reg 5 &&& 0x7F) <<< 9
  let chain := sprite_chain v start_table
  sprite_loop v line start_table chain.2 chain.1
    { gfx := g, num_visible := 0, num_pixels := 0, returned := false }

/-! ## Horizontal scroll and the scanline orchestrator -/

/-- `GFX::get_hscroll(line, &hscroll_a, &hscroll_b)`; `line & ~7` clears the
low three bits of a non-negative line. -/
def get_hscroll (v : VDP) (line : Nat) : Nat × Nat :=
  let table_offset := v.reg 13 &&& 0x3F
  let mode := v.reg 11 &&& 3
  let table := table_offset <<< 10
  let idx :=
    if mode = 0 then 0
    else if mode = 1 then line &&& 7
    else if mode = 2 then (line >>> 3) <<< 3
    else line
  (FETCH16 v (table + idx * 4 + 0) &&& 0x3FF, FETCH16 v (table + idx * 4 + 2) &&& 0x3FF)

/-- `memset(screen, 0, SCREEN_WIDTH*4)`. -/
def clear_row (s : Screen) : Screen :=
  (List.range SCREEN_WIDTH).foldl (fun s (x : Nat) => s.write (x : Int) ⟨0, 0, 0, 0⟩) s

/-- The loop `for (x = 0; x < SCREEN_WIDTH; x++) draw_pixel(screen + x*4, backdrop_color, 0)`. -/
def fill_backdrop (s : Screen) (backdrop_color : Nat) : Screen :=
  (List.range SCREEN_WIDTH).foldl (fun s (x : Nat) => draw_pixel_at s (x : Int) backdrop_color 0) s

/-- `GFX::draw_scanline(screen, line)` for a line `line ≥ 0`. A failed
`assert` ends the call with the state reached so far. `linew` is the flag of
the source; the unused locals `winh`, `winhright` are omitted. -/
def draw_scanline (v : VDP) (g : Gfx) (line : Nat) : Run :=
  let winv := v.reg 18 &&& 0x1F
  let winvdown := v.reg 18 >>> 7
  if BITS (v.reg 12) 1 2 ≠ 0 then ⟨g, some Fault.interlace_mode⟩ else
  if line ≥ 224 then ⟨g, none⟩ else
  -- Display enable
  let g : Gfx := { g with screen := clear_row g.screen }
  if BIT (v.reg 0) 0 ≠ 0 then ⟨g, none⟩ else
  let backdrop_color := v.cram (BITS (v.reg 7) 0 6)
  let g : Gfx := { g with screen := fill_backdrop g.screen backdrop_color }
  -- Plane/sprite disable, show only backdrop
  if BIT (v.reg 1) 6 = 0 then ⟨g, none⟩ else
  let hs := get_hscroll v line
  if BIT (v.reg 11) 2 ≠ 0 then ⟨g, some Fault.vertical_scrolling_per_column⟩ else
  let vsa := v.vsram 0 &&& 0x3FF
  let vsb := v.vsram 1 &&& 0x3FF
  -- Plane B
  let rb := draw_plane_ab v (g.emit (Event.enter Layer.plane_b)) line v.nametable_B hs.2 vsb
  match rb.fault with
  | some f => ⟨rb.gfx, some f⟩
  | none =>
    -- Plane A or W
    let g := rb.gfx
    let rw : Run × Bool :=
      if winv ≠ 0 then
        if winvdown ≠ 0 ∧ line ≥ winv * 8 then
          (⟨g, some Fault.winv_down_scroll⟩, true)
        else if ¬ winvdown ≠ 0 ∧ line ≤ winv * 8 then
          (⟨draw_plane_w v (g.emit (Event.enter Layer.window)) line, none⟩, true)
        else (⟨g, none⟩, false)
      else (⟨g, none⟩, false)
    match rw.1.fault with
    | some f => ⟨rw.1.gfx, some f⟩
    | none =>
      let linew := rw.2
      let ra : Run :=
        if ¬ linew then
          draw_plane_ab v (rw.1.gfx.emit (Event.enter Layer.plane_a)) line v.nametable_A hs.1 vsa
        else rw.1
      match ra.fault with
      | some f => ⟨ra.gfx, some f⟩
      | none =>
        -- Sprites
        ⟨(draw_sprites v (ra.gfx.emit (Event.enter Layer.sprites)) line).gfx, none⟩

/-- `gfx_draw_scanline(screen, line)`: `buffer` is the uninitialised local
buffer (cell `x` of it is `buffer[(x + 32) * 4 ..]`); the result is the row
copied out by `memcpy`, or the fault that stopped the render. -/
def gfx_draw_scanline (v : VDP) (buffer : Screen) (line : Nat) : Except Fault (List Cell) :=
  let r := draw_scanline v ⟨buffer, []⟩ line
  match r.fault with
  | some f => Except.error f
  | none => Except.ok ((List.range SCREEN_WIDTH).map (fun (x : Nat) => r.gfx.screen.read (x : Int)))

/-! ## The fields of a sprite entry

The values `draw_sprite` decodes from the entry at table index `idx`, as
functions of their own, for use in statements about sprites. -/

/-- `sy` after `sy -= 128`. -/
def sprite_y (v : VDP) (start_table idx : Nat) : Int :=
  (((v.vram (start_table + idx * 8) &&& 0x3) <<< 8 ||| v.vram (start_table + idx * 8 + 1) : Nat)
    : Int) - 128

/-- `sx` after `sx -= 128`. -/
def sprite_x (v : VDP) (start_table idx : Nat) : Int :=
  (((v.vram (start_table + idx * 8 + 6) &&& 0x3) <<< 8 ||| v.vram (start_table + idx * 8 + 7)
    : Nat) : Int) - 128

/-- `sh`, the height in cells. -/
def sprite_h (v : VDP) (start_table idx : Nat) : Nat :=
  BITS (v.vram (start_table + idx * 8 + 2)) 0 2 + 1

/-- `sw`, the width in cells. -/
def sprite_w (v : VDP) (start_table idx : Nat) : Nat :=
  BITS (v.vram (start_table + idx * 8 + 2)) 2 2 + 1

/-- `name`, the pattern reference stored in the entry. -/
def sprite_name (v : VDP) (start_table idx : Nat) : Nat :=
  (v.vram (start_table + idx * 8 + 4) <<< 8) ||| v.vram (start_table + idx * 8 + 5)

/-- The test `line >= sy && line < sy+sh*8`. -/
def sprite_on_line (v : VDP) (line start_table idx : Nat) : Prop :=
  (line : Int) ≥ sprite_y v start_table idx ∧
    (line : Int) < sprite_y v start_table idx + (sprite_h v start_table idx : Int) * 8

instance (v : VDP) (line start_table idx : Nat) :
    Decidable (sprite_on_line v line start_table idx) := by
  unfold sprite_on_line; infer_instance

/-- The test `sx > -sw*8 && sx < SCREEN_WIDTH`. -/
def sprite_in_clip (v : VDP) (start_table idx : Nat) : Prop :=
  sprite_x v start_table idx > -((sprite_w v start_table idx : Int) * 8) ∧
    sprite_x v start_table idx < (SCREEN_WIDTH : Int)

instance (v : VDP) (start_table idx : Nat) : Decidable (sprite_in_clip v start_table idx) := by
  unfold sprite_in_clip; infer_instance

/-- `paty` of a sprite on the line. -/
def sprite_paty (v : VDP) (line start_table idx : Nat) : Nat :=
  ((line : Int) - sprite_y v start_table idx).toNat &&& 7

/-- `row` of a sprite on the line, after the `flipv` adjustment. -/
def sprite_row (v : VDP) (line start_table idx : Nat) : Nat :=
  if BITS (sprite_name v start_table idx) 12 1 ≠ 0 then
    sprite_h v start_table idx - (((line : Int) - sprite_y v start_table idx).toNat >>> 3) - 1
  else ((line : Int) - sprite_y v start_table idx).toNat >>> 3

/-- The value of `name` on entry to the column loop. -/
def sprite_first_name (v : VDP) (line start_table idx : Nat) : Nat :=
  if BITS (sprite_name v start_table idx) 11 1 ≠ 0 then
    ((sprite_name v start_table idx + sprite_row v line start_table idx) % 65536 +
      sprite_h v start_table idx * (sprite_w v start_table idx - 1)) % 65536
  else (sprite_name v start_table idx + sprite_row v line start_table idx) % 65536

/-- The statement `if (++num_visible >= 16) return;`, skipped when the column
loop has already returned. -/
def sprite_count (a1 : SpriteAcc) : SpriteAcc :=
  if a1.returned then a1
  else if a1.num_visible + 1 ≥ 16 then
    { a1 with num_visible := a1.num_visible + 1, returned := true }
  else { a1 with num_visible := a1.num_visible + 1 }

/-! ## The stages of `draw_scanline`

The statements of `draw_scanline` after the plane gate, as functions of their
own, for use in proofs (`draw_scanline_eq` below relates them to
`draw_scanline`). -/

/-- The statement `if (winv) { … }`: the state it leaves, and `linew`. -/
def window_stage (v : VDP) (g : Gfx) (line : Nat) : Run × Bool :=
  if v.reg 18 &&& 0x1F ≠ 0 then
    if v.reg 18 >>> 7 ≠ 0 ∧ line ≥ (v.reg 18 &&& 0x1F) * 8 then
      (⟨g, some Fault.winv_down_scroll⟩, true)
    else if ¬ v.reg 18 >>> 7 ≠ 0 ∧ line ≤ (v.reg 18 &&& 0x1F) * 8 then
      (⟨draw_plane_w v (g.emit (Event.enter Layer.window)) line, none⟩, true)
    else (⟨g, none⟩, false)
  else (⟨g, none⟩, false)

/-- The statement `if (!linew) draw_plane_ab(…A…)` followed by
`draw_sprites(screen, line)`. -/
def plane_a_and_sprites (v : VDP) (line hsa vsa : Nat) (rw : Run × Bool) : Run :=
  let ra : Run :=
    if ¬ rw.2 then
      draw_plane_ab v (rw.1.gfx.emit (Event.enter Layer.plane_a)) line v.nametable_A hsa vsa
    else rw.1
  match ra.fault with
  | some f => ⟨ra.gfx, some f⟩
  | none => ⟨(draw_sprites v (ra.gfx.emit (Event.enter Layer.sprites)) line).gfx, none⟩

/-- Everything `draw_scanline` does after the test of register 11 bit 2,
started in the state `g` left by the backdrop loop. -/
def planes_stage (v : VDP) (g : Gfx) (line : Nat) : Run :=
  let rb := draw_plane_ab v (g.emit (Event.enter Layer.plane_b)) line v.nametable_B
    (get_hscroll v line).2 (v.vsram 1 &&& 0x3FF)
  match rb.fault with
  | some f => ⟨rb.gfx, some f⟩
  | none =>
    let rw := window_stage v rb.gfx line
    match rw.1.fault with
    | some f => ⟨rw.1.gfx, some f⟩
    | none =>
      plane_a_and_sprites v line (get_hscroll v line).1 (v.vsram 0 &&& 0x3FF) rw

/-! ## Reading the ghost log -/

/-- The event is a `draw_pattern` call. -/
def Event.isPattern : Event → Bool
  | Event.pattern _ _ _ => true
  | _ => false

/-- The event is a sprite column about to be drawn. -/
def Event.isSpriteCell : Event → Bool
  | Event.sprite_cell _ _ _ _ => true
  | _ => false

/-- The event is a call of a renderer by the orchestrator. -/
def Event.isEnter : Event → Bool
  | Event.enter _ => true
  | _ => false

/-- The sprite columns of a log, as pairs (slot in `indices`, column `p`), in
drawing order. -/
def drawn_cells (log : List Event) : List (Nat × Nat) :=
  log.filterMap fun e =>
    match e with
    | Event.sprite_cell slot p _ _ => some (slot, p)
    | _ => none

/-- The renderers called by the orchestrator, in call order. -/
def stages (log : List Event) : List Layer :=
  log.filterMap fun e =>
    match e with
    | Event.enter l => some l
    | _ => none

/-- The slots (positions in `indices`) of the sprite columns of a log. -/
def sprite_slots (log : List Event) : List Nat := (drawn_cells log).map Prod.fst

/-- Every column of the sprite recorded at `indices[j]` is among `cells`,
provided the sprite passes both tests of `draw_sprite` (it is on the line and
inside the horizontal clip). -/
def sprite_complete (v : VDP) (line start_table : Nat) (indices : List Nat)
    (cells : List (Nat × Nat)) (j : Nat) : Prop :=
  sprite_on_line v line start_table (indices.getD j 0) →
  sprite_in_clip v start_table (indices.getD j 0) →
  ∀ q, q < sprite_w v start_table (indices.getD j 0) → (j, q) ∈ cells

/-- Invariant of the second loop of `draw_sprites`: `evs` are the events logged
since the log `L0`, `S` a set of slots containing those of every sprite column
logged. -/
structure SpriteInv (L0 : List Event) (S : Finset Nat) (evs : List Event)
    (a : SpriteAcc) : Prop where
  log_eq : a.gfx.log = L0 ++ evs
  kinds : ∀ e ∈ evs, e.isPattern = true ∨ e.isSpriteCell = true
  pixels : a.num_pixels = 8 * evs.countP Event.isPattern
  paired : evs.countP Event.isSpriteCell = evs.countP Event.isPattern
  pixels_le : a.num_pixels ≤ 256
  below : ∀ slot p nv np, Event.sprite_cell slot p nv np ∈ evs → nv < 16 ∧ np < 256
  slots : ∀ slot p nv np, Event.sprite_cell slot p nv np ∈ evs → slot ∈ S
  live : a.returned = false → a.num_pixels < 256

/-- The events `draw_nametable` logs for `n` columns starting at cell `x` and
nametable address `nt`: per column the fetch of the entry and the
`draw_pattern` call. -/
def nametable_events (v : VDP) (paty : Nat) : Nat → Int → Nat → List Event
  | 0, _, _ => []
  | n + 1, x, nt =>
    Event.name_fetch nt ::
      Event.pattern x ((v.vram nt <<< 8) ||| v.vram (nt + 1)) paty ::
        nametable_events v paty n (x + 8) (nt + 2)

/-- The tile columns of a log: each nametable fetch paired with the screen
position of the pattern drawn from it, (entry address, cell `x`). -/
def tile_columns : List Event → List (Nat × Int)
  | Event.name_fetch a :: Event.pattern x _ _ :: rest => (a, x) :: tile_columns rest
  | _ :: rest => tile_columns rest
  | [] => []

/-- The cells a logged call may write: the eight cells `x … x+7` of a
`draw_pattern` call. -/
def Event.cells : Event → List Int
  | Event.pattern x _ _ => (List.range 8).map (fun (k : Nat) => x + (k : Int))
  | _ => []

/-- The call writes inside the buffer of `gfx_draw_scanline` only. -/
def Event.inside : Event → Prop
  | Event.pattern x _ _ => -32 ≤ x ∧ x + 8 ≤ 352
  | _ => True

/-- The events `draw_plane_ab` logs when both plane size codes are valid: the
columns of the first pass, then those of the second. -/
def plane_events (v : VDP) (line ntaddr scrollx scrolly : Nat) : List Event :=
  let ntwidth := (BITS (v.reg 16) 0 2 + 1) * 32
  let ntheight := (BITS (v.reg 16) 4 2 + 1) * 32
  let scrollx := scrollx % (ntwidth * 8)
  let scrolly := (scrolly + line) % (ntheight * 8)
  let row := scrolly >>> 3
  let paty := scrolly &&& 7
  (if scrollx < SCREEN_WIDTH then
      nametable_events v paty ((SCREEN_WIDTH - scrollx + 7) / 8) (scrollx : Int)
        (ntaddr + row * (2 * ntwidth))
    else []) ++
  (if scrollx > 0 then
      nametable_events v paty
        (min (ntwidth - (ntwidth * 8 - scrollx) / 8) (SCREEN_WIDTH / 8))
        (-(((ntwidth * 8 - scrollx) &&& 7 : Nat) : Int))
        (ntaddr + row * (2 * ntwidth) + (ntwidth * 8 - scrollx) / 8 * 2)
    else [])

/-- The link field of the sprite entry at table index `idx`, as read by the
first loop of `draw_sprites`. -/
def chain_link (v : VDP) (start_table idx : Nat) : Nat :=
  BITS (v.vram (start_table + idx * 8 + 3)) 0 7

/-- The visiting sequence in the words of the spec: `e(0) = 0`,
`e(k+1) = link(e(k))`. -/
def chain_entry (v : VDP) (start_table : Nat) : Nat → Nat
  | 0 => 0
  | k + 1 => chain_link v start_table (chain_entry v start_table k)

/-- The plane width in pixels, `ntwidth*8`, for a valid width code. -/
def plane_width_px (v : VDP) : Nat := (BITS (v.reg 16) 0 2 + 1) * 32 * 8

/-- The address of the nametable row `draw_plane_ab` selects,
`ntaddr + row*(2*ntwidth)`. -/
def plane_row_addr (v : VDP) (line ntaddr scrolly : Nat) : Nat :=
  ntaddr + (((scrolly + line) % ((BITS (v.reg 16) 4 2 + 1) * 32 * 8)) >>> 3) *
    (2 * ((BITS (v.reg 16) 0 2 + 1) * 32))

/-- The palette index `draw_pattern_loop` uses `d` cells after its first
cell, when started at the byte address `pattern`: byte `d/2` of the run
(downwards when `fliph`), first pixel of the byte for even `d`. -/
def loop_index (v : VDP) (fliph : Bool) (pattern d : Nat) : Nat :=
  if d % 2 = 0 then
    (if !fliph then v.vram (if fliph then pattern - d / 2 else pattern + d / 2) >>> 4
     else v.vram (if fliph then pattern - d / 2 else pattern + d / 2) &&& 0xF)
  else
    (if !fliph then v.vram (if fliph then pattern - d / 2 else pattern + d / 2) &&& 0xF
     else v.vram (if fliph then pattern - d / 2 else pattern + d / 2) >>> 4)

/-- The Pattern Decoder in the words of the spec: the index used `k` cells
after the screen position. With `r` the sub-row (`7 - paty` if the v-flip bit
is set) and `n(0..7)` the eight 4-bit indices of the 4-byte row `r` of the
tile, high nibble then low nibble, the index is `n(k)`, or `n(7-k)` if the
h-flip bit is set. -/
def decoder_index (v : VDP) (name paty k : Nat) : Nat :=
  let r := if BITS name 12 1 ≠ 0 then 7 - paty else paty
  let m := if BITS name 11 1 ≠ 0 then 7 - k else k
  let byte := v.vram (BITS name 0 11 * 32 + r * 4 + m / 2)
  if m % 2 = 0 then byte >>> 4 else byte &&& 0xF

/-- One sprite column drawn by `draw_sprites`: the slot in `indices` of its
sprite, the column `p`, the counters on entry, and the arguments of its
`draw_pattern` call. -/
structure Column where
  slot : Nat
  p : Nat
  nv : Nat
  np : Nat
  x : Int
  name : Nat
  paty : Nat

/-- The two events a sprite column leaves in the log. -/
def Column.events (c : Column) : List Event :=
  [Event.sprite_cell c.slot c.p c.nv c.np, Event.pattern c.x c.name c.paty]

/-- The `draw_pattern` call of a sprite column, on the buffer. -/
def Column.draw (v : VDP) (s : Screen) (c : Column) : Screen :=
  (draw_pattern v ⟨s, []⟩ c.x c.name c.paty).screen

/-- The priority bit of the pattern reference a column is drawn with. -/
def Column.pri (c : Column) : Nat := BITS c.name 15 1

/-- The column has an opaque pixel (a non-zero palette index) at cell `y`. -/
def Column.opaque_at (v : VDP) (c : Column) (y : Int) : Prop :=
  c.x ≤ y ∧ y < c.x + 8 ∧ decoder_index v c.name c.paty (y - c.x).toNat ≠ 0

instance (v : VDP) (c : Column) (y : Int) : Decidable (c.opaque_at v y) := by
  unfold Column.opaque_at; infer_instance

/-- The palette word of the column at cell `y`. -/
def Column.colour (v : VDP) (c : Column) (y : Int) : Nat :=
  v.cram (BITS c.name 13 2 * 16 + decoder_index v c.name c.paty (y - c.x).toNat)

/-- What `draw_pattern` for the column does to the cell `y`, given the cell. -/
def Column.draw_cell (v : VDP) (y : Int) (cell : Cell) (c : Column) : Cell :=
  if c.opaque_at v y then draw_pixel cell (c.colour v y) (c.pri : Nat) else cell

/-- Two states with the same log and the same contents of cell `y`. -/
def Gfx.agree_at (y : Int) (g1 g2 : Gfx) : Prop :=
  g1.log = g2.log ∧ g1.screen.read y = g2.screen.read y

/-- Two runs with the same outcome whose states agree at cell `y`. -/
def Run.agree_at (y : Int) (r1 r2 : Run) : Prop :=
  r1.fault = r2.fault ∧ r1.gfx.agree_at y r2.gfx

/-- Two states of the sprite loop with the same counters whose buffers agree
at cell `y`. -/
def SpriteAcc.agree_at (y : Int) (a1 a2 : SpriteAcc) : Prop :=
  a1.num_visible = a2.num_visible ∧ a1.num_pixels = a2.num_pixels ∧
    a1.returned = a2.returned ∧ a1.gfx.agree_at y a2.gfx

/-- The buffer after the `draw_pattern` calls of a list of events, made in the
order of the list. -/
def replay (v : VDP) : List Event → Screen → Screen
  | [], s => s
  | Event.pattern x name paty :: rest, s =>
    replay v rest (draw_pattern v ⟨s, []⟩ x name paty).screen
  | _ :: rest, s => replay v rest s

/-- The events of the Window plane on a line: the 40 entries of row
`line >> 3` of the window nametable (rows of 40 entries), drawn at
`x = 0, 8, …, 312`. -/
def window_events (v : VDP) (line : Nat) : List Event :=
  nametable_events v (line &&& 7) (SCREEN_WIDTH / 8) 0 (v.nametable_W + (line >>> 3) * (2 * 40))

/-- The events of Plane A on a line, scrolled by the plane A words of the
scroll tables. -/
def plane_a_events (v : VDP) (line : Nat) : List Event :=
  plane_events v line v.nametable_A (get_hscroll v line).1 (v.vsram 0 &&& 0x3FF)

/-- The events of Plane B on a line, scrolled by the plane B words of the
scroll tables. -/
def plane_b_events (v : VDP) (line : Nat) : List Event :=
  plane_events v line v.nametable_B (get_hscroll v line).2 (v.vsram 1 &&& 0x3FF)

/-- The events of the planes of a line: Plane B, then the Window plane
(`window = true`) or Plane A. -/
def planes_events (v : VDP) (line : Nat) (window : Bool) : List Event :=
  (Event.enter Layer.plane_b :: plane_b_events v line) ++
    (if window then Event.enter Layer.window :: window_events v line
      else Event.enter Layer.plane_a :: plane_a_events v line)

/-- The events of a line on which all renderers run: the planes, then the
sprite columns `cols`. -/
def line_events (v : VDP) (line : Nat) (window : Bool) (cols : List Column) : List Event :=
  planes_events v line window ++ (Event.enter Layer.sprites :: cols.flatMap Column.events)

/-- The addresses of the link bytes `table[3]` read by the first loop of
`GFX::draw_sprites`, in the order read: the loop of `sprite_chain_loop`, with
`k` iterations left and the current index `sidx`, keeping the address of each
read. -/
def sprite_chain_reads (v : VDP) (start_table : Nat) : Nat → Nat → List Nat
  | 0, _ => []
  | k + 1, sidx =>
    let table := start_table + sidx * 8
    let link := BITS (v.vram (table + 3)) 0 7
    (table + 3) :: (if link = 0 then [] else sprite_chain_reads v start_table k link)

/-- The state `g1` is reached from `g0` by logging the events `evs` and making
their `draw_pattern` calls on the buffer. -/
def Gfx.extends_by (v : VDP) (g0 : Gfx) (evs : List Event) (g1 : Gfx) : Prop :=
  g1.log = g0.log ++ evs ∧ g1.screen = replay v evs g0.screen

/-! ## Concrete inputs used by the witnesses -/

/-- All-zero video memory and registers, palette entry 0 set to `0x0E2C`. -/
def backdrop_vdp : VDP :=
  { VRAM := fun _ => 0
    CRAM := fun i => if i = 0 then 0x0E2C else 0
    VSRAM := fun _ => 0
    regs := fun _ => 0
    nametable_A := 0
    nametable_B := 0
    nametable_W := 0 }

/-- A sprite table (at address 0) whose link fields form a cycle: entry 0
links to entry 5, entry 5 to entry 2, entry 2 back to entry 5. -/
def cycle_vdp : VDP :=
  { backdrop_vdp with
    VRAM := fun a => if a = 0 * 8 + 3 then 5 else if a = 5 * 8 + 3 then 2
      else if a = 2 * 8 + 3 then 5 else 0 }

/-- A sprite table (at address 0) with the chain `0 → 1 → … → 39 → 40`, entry
40 ending it: the traversal records the 40 entries `0 … 39`. Every entry is a
sprite at `y = 0`, `x = 0`, one cell high and four cells wide, so all of them
are on line 0 and fully on screen. -/
def sprites40_vdp : VDP :=
  { backdrop_vdp with
    VRAM := fun a =>
      if a / 8 ≤ 40 then
        if a % 8 = 1 then 128
        else if a % 8 = 2 then 0x0C
        else if a % 8 = 3 then (if a / 8 < 40 then a / 8 + 1 else 0)
        else if a % 8 = 7 then 128
        else 0
      else 0 }

/-- Display and planes enabled (register 1 bit 6), everything else zero
except register 18, the window vertical position: `r18 = 10` is an up-trigger
with threshold 10, `r18 = 0x8A` a down-trigger with threshold 10. -/
def window_vdp (r18 : Nat) : VDP :=
  { backdrop_vdp with regs := fun i => if i = 1 then 0x40 else if i = 18 then r18 else 0 }

/-- Per-column vertical scroll requested (register 11 bit 2) and the reserved
plane width code 2 (register 16), with display enabled and planes disabled
(register 1 is zero). -/
def gated_vdp : VDP :=
  { backdrop_vdp with regs := fun i => if i = 11 then 0x04 else if i = 16 then 0x02 else 0 }

/-- Display and planes enabled, the reserved plane width code 2 in
register 16. -/
def reserved_width_vdp : VDP :=
  { backdrop_vdp with regs := fun i => if i = 1 then 0x40 else if i = 16 then 0x02 else 0 }

/-- A sprite table at the highest base address (register 5 = `0x7F`, table at
`0xFE00`) whose entry 0 links to entry 100; every other byte of the 64 KiB is
zero. -/
def far_link_vdp : VDP :=
  { backdrop_vdp with
    regs := fun i => if i = 5 then 0x7F else 0
    VRAM := fun a => if a = 0xFE00 + 0 * 8 + 3 then 100 else 0 }

/-- A sprite table at address 0 whose entry 0 links to entry 100, entry 100 to
entry 1, and entry 1 ends the chain. -/
def long_link_vdp : VDP :=
  { backdrop_vdp with
    VRAM := fun a => if a = 0 * 8 + 3 then 100 else if a = 100 * 8 + 3 then 1 else 0 }

/-- The registers of `window_vdp` with the three nametables at different
addresses (Plane A at `0xC000`, the Window plane at `0xD000`, Plane B at
`0xE000`) and a sprite table at `0x200` with one recorded sprite: entry 0, one
cell wide and two cells high at `x = 0`, `y = 72` (on the lines `72 … 87`),
linked to entry 1, which ends the chain. -/
def window_tables_vdp (r18 : Nat) : VDP :=
  { backdrop_vdp with
    regs := fun i => if i = 1 then 0x40 else if i = 5 then 0x01 else if i = 18 then r18 else 0
    VRAM := fun a =>
      if a = 0x200 + 1 then 200 else if a = 0x200 + 2 then 1 else if a = 0x200 + 3 then 1
      else if a = 0x200 + 7 then 128 else 0
    nametable_A := 0xC000
    nametable_B := 0xE000
    nametable_W := 0xD000 }

/-- A sprite table (at address 0) holding one sprite: entry 0, at `y = 0`,
`x = 0`, one cell, with link 0. -/
def lone_sprite_vdp : VDP :=
  { backdrop_vdp with
    VRAM := fun a => if a = 1 then 128 else if a = 7 then 128 else 0 }

/-- Display and planes enabled, plane width code 1 (64 tiles, 512 pixels) and
height code 0 in register 16, everything else zero. -/
def wide_plane_vdp : VDP :=
  { backdrop_vdp with regs := fun i => if i = 1 then 0x40 else if i = 16 then 0x01 else 0 }

/-- One tile row for the Pattern Decoder: row 2 of tile 1 (bytes 40..43) holds
the indices `1 2 3 0 0 4 5 6`, and palette entry 22 (row 1, index 6) is
`0x0E2C`. -/
def tile_vdp : VDP :=
  { backdrop_vdp with
    VRAM := fun a =>
      if a = 40 then 0x12 else if a = 41 then 0x30 else if a = 42 then 0x04
      else if a = 43 then 0x56 else 0
    CRAM := fun i => if i = 22 then 0x0E2C else 0 }

/-- A sprite table (at address 0) with one recorded sprite: entry 0 at
`y = 0`, `x = 0`, one cell high and two cells wide, pattern reference `0x07FF`
(tile 2047, no flip, palette row 0, priority 0), linked to entry 1, which
ends the chain. -/
def carry_sprite_vdp : VDP :=
  { backdrop_vdp with
    VRAM := fun a =>
      if a = 1 then 128 else if a = 2 then 4 else if a = 3 then 1
      else if a = 4 then 0x07 else if a = 5 then 0xFF else if a = 7 then 128 else 0 }

/-- Two one-cell sprites at `x = 0`, `y = 0` in a table at address 0: entry 0
(tile 8) links to entry 1 (tile 9), which links to entry 2, the end of the
chain. The first pixel of row 0 of tile 8 has index 1 (palette word `0x000E`),
that of tile 9 index 2 (palette word `0x0E00`). -/
def overlap_vdp : VDP :=
  { backdrop_vdp with
    VRAM := fun a =>
      if a = 1 then 128 else if a = 3 then 1 else if a = 5 then 8 else if a = 7 then 128
      else if a = 9 then 128 else if a = 11 then 2 else if a = 13 then 9
      else if a = 15 then 128 else if a = 256 then 0x10 else if a = 288 then 0x20 else 0
    CRAM := fun i => if i = 1 then 0x000E else if i = 2 then 0x0E00 else 0 }

/-- A buffer of stale cells. -/
def stale_buffer : Screen := Screen.const ⟨1, 2, 3, 4⟩

/-! ## Bit-field and colour lemmas -/

theorem BITS_lt (v start width : Nat) : BITS v start width < 2 ^ width := by
  unfold BITS
  rw [Nat.one_shiftLeft]
  have h : 0 < 2 ^ width := Nat.two_pow_pos width
  have := @Nat.and_le_right (v >>> start) (2 ^ width - 1)
  omega

theorem COLOR_3B_TO_8B_lt (c : Nat) (h : c < 8) : COLOR_3B_TO_8B c < 256 := by
  interval_cases c <;> decide

theorem CRAM_R_lt (rgb : Nat) : CRAM_R rgb < 256 :=
  COLOR_3B_TO_8B_lt _ (BITS_lt rgb 1 3)

theorem CRAM_G_lt (rgb : Nat) : CRAM_G rgb < 256 :=
  COLOR_3B_TO_8B_lt _ (BITS_lt rgb 5 3)

theorem CRAM_B_lt (rgb : Nat) : CRAM_B rgb < 256 :=
  COLOR_3B_TO_8B_lt _ (BITS_lt rgb 9 3)

/-- What `draw_pixel` stores when the priority test passes. -/
theorem draw_pixel_pass (cell : Cell) (rgb : Nat) (pri : Int)
    (h : (cell.pri : Int) ≤ pri) (h255 : pri ≤ 255) :
    draw_pixel cell rgb pri = ⟨CRAM_R rgb, CRAM_G rgb, CRAM_B rgb, pri.toNat⟩ := by
  have hr := CRAM_R_lt rgb
  have hg := CRAM_G_lt rgb
  have hb := CRAM_B_lt rgb
  have hp : (pri % 256).toNat = pri.toNat := by
    have : pri % 256 = pri := Int.emod_eq_of_lt (by omega) (by omega)
    rw [this]
  simp only [draw_pixel, ge_iff_le, h, if_true, Nat.mod_eq_of_lt hr, Nat.mod_eq_of_lt hg,
    Nat.mod_eq_of_lt hb, hp]

/-- The cell is untouched when the priority test fails. -/
theorem draw_pixel_skip (cell : Cell) (rgb : Nat) (pri : Int)
    (h : pri < (cell.pri : Int)) : draw_pixel cell rgb pri = cell := by
  simp only [draw_pixel, ge_iff_le, not_le.mpr h, if_false]

/-! ## C1 – C3: the pixel compositor -/

/-- C1: for every cell, colour word and priority `pri` in `0..255`,
`draw_pixel` stores the 8-bit expansions of the three 3-bit channels together
with `pri` when `pri >= cell.priority`, leaves the cell unchanged when
`pri < cell.priority`, and in both cases does not lower the cell priority. -/
theorem draw_pixel_contract (cell : Cell) (rgb : Nat) (pri : Int)
    (h0 : 0 ≤ pri) (h255 : pri ≤ 255) :
    ((cell.pri : Int) ≤ pri →
        draw_pixel cell rgb pri =
          { r := COLOR_3B_TO_8B (BITS rgb 1 3)
            g := COLOR_3B_TO_8B (BITS rgb 5 3)
            b := COLOR_3B_TO_8B (BITS rgb 9 3)
            pri := pri.toNat }) ∧
    (pri < (cell.pri : Int) → draw_pixel cell rgb pri = cell) ∧
    cell.pri ≤ (draw_pixel cell rgb pri).pri := by
  refine ⟨fun h => draw_pixel_pass cell rgb pri h h255, draw_pixel_skip cell rgb pri, ?_⟩
  by_cases h : (cell.pri : Int) ≤ pri
  · rw [draw_pixel_pass cell rgb pri h h255]
    show cell.pri ≤ pri.toNat
    omega
  · rw [draw_pixel_skip cell rgb pri (by omega)]

/-- Witness of C1: priority 1 over a priority-0 cell, and priority 0 under a
priority-1 cell. -/
theorem draw_pixel_contract_witness :
    ((0 : Int) ≤ 1 ∧ (1 : Int) ≤ 255) ∧
    draw_pixel ⟨9, 9, 9, 0⟩ 0x0E2C 1 = ⟨219, 36, 255, 1⟩ ∧
    draw_pixel ⟨9, 9, 9, 1⟩ 0x0E2C 0 = ⟨9, 9, 9, 1⟩ :=
  ⟨⟨by decide, by decide⟩,
   ((draw_pixel_contract ⟨9, 9, 9, 0⟩ 0x0E2C 1 (by decide) (by decide)).1 (by decide)).trans
     (by decide),
   (draw_pixel_contract ⟨9, 9, 9, 1⟩ 0x0E2C 0 (by decide) (by decide)).2.1 (by decide)⟩

/-- C2: on a cell whose priority is at most `p2`, for priorities `p1 < p2`
both drawing orders of `(c1, p1)` and `(c2, p2)` leave the colour of `c2`
(with priority `p2`); and two draws of the same priority `p`, at least the
priority of the cell, leave the colour of the second draw. -/
theorem draw_pixel_priority_wins (cell : Cell) (c1 c2 : Nat) (p1 p2 : Int)
    (h12 : p1 < p2) (h255 : p2 ≤ 255) (hc : (cell.pri : Int) ≤ p2) :
    draw_pixel (draw_pixel cell c1 p1) c2 p2 = ⟨CRAM_R c2, CRAM_G c2, CRAM_B c2, p2.toNat⟩ ∧
    draw_pixel (draw_pixel cell c2 p2) c1 p1 = ⟨CRAM_R c2, CRAM_G c2, CRAM_B c2, p2.toNat⟩ ∧
    ∀ p : Int, (cell.pri : Int) ≤ p → p ≤ 255 →
      draw_pixel (draw_pixel cell c1 p) c2 p = ⟨CRAM_R c2, CRAM_G c2, CRAM_B c2, p.toNat⟩ := by
  refine ⟨?_, ?_, ?_⟩
  · apply draw_pixel_pass _ _ _ _ h255
    by_cases h : (cell.pri : Int) ≤ p1
    · rw [draw_pixel_pass cell c1 p1 h (by omega)]
      show ((p1.toNat : Nat) : Int) ≤ p2
      omega
    · rw [draw_pixel_skip cell c1 p1 (by omega)]
      exact hc
  · rw [draw_pixel_pass cell c2 p2 hc h255]
    apply draw_pixel_skip
    show p1 < ((p2.toNat : Nat) : Int)
    omega
  · intro p hp hp255
    apply draw_pixel_pass _ _ _ _ hp255
    rw [draw_pixel_pass cell c1 p hp hp255]
    show ((p.toNat : Nat) : Int) ≤ p
    omega

/-- Witness of C2: priorities 0 and 1 on a priority-0 cell. -/
theorem draw_pixel_priority_wins_witness :
    draw_pixel (draw_pixel ⟨9, 9, 9, 0⟩ 0x000E 0) 0x0E2C 1 = ⟨219, 36, 255, 1⟩ ∧
    draw_pixel (draw_pixel ⟨9, 9, 9, 0⟩ 0x0E2C 1) 0x000E 0 = ⟨219, 36, 255, 1⟩ ∧
    draw_pixel (draw_pixel ⟨9, 9, 9, 0⟩ 0x000E 1) 0x0E2C 1 = ⟨219, 36, 255, 1⟩ :=
  have h := draw_pixel_priority_wins ⟨9, 9, 9, 0⟩ 0x000E 0x0E2C 0 1
    (by decide) (by decide) (by decide)
  ⟨h.1.trans (by decide), h.2.1.trans (by decide),
   (h.2.2 1 (by decide) (by decide)).trans (by decide)⟩

/-- C3: the expansion `(v3<<5)|(v3<<2)|(v3>>1)` maps `0..7` to
`0, 36, 73, 109, 146, 182, 219, 255` in this order, a strictly increasing
sequence from black to 255 whose members all fit in 8 bits. -/
theorem COLOR_3B_TO_8B_table :
    (List.range 8).map COLOR_3B_TO_8B = [0, 36, 73, 109, 146, 182, 219, 255] ∧
    ((List.range 8).map COLOR_3B_TO_8B).Pairwise (· < ·) ∧
    ∀ c : Fin 8, COLOR_3B_TO_8B c.val < 256 := by
  refine ⟨by decide, by decide, by decide⟩

/-! ## Reading the buffer back -/

theorem Screen.read_write (s : Screen) (x y : Int) (c : Cell) :
    (s.write x c).read y = if y = x ∧ -32 ≤ x ∧ x < 352 then c else s.read y := by
  have hlen := s.size_eq
  unfold Screen.read Screen.write
  by_cases hx : -32 ≤ x
  · by_cases hy : -32 ≤ y
    · simp only [hx, hy, if_true, List.getD_eq_getElem?_getD, List.getElem?_set, true_and]
      by_cases hxy : y = x
      · subst hxy
        by_cases hlt : y < 352
        · have : (y + 32).toNat < s.cells.length := by omega
          simp [hlt, this]
        · have h1 : ¬ (y + 32).toNat < s.cells.length := by omega
          have h2 : s.cells.length ≤ (y + 32).toNat := by omega
          simp [hlt, h1, List.getElem?_eq_none h2]
      · have : (x + 32).toNat ≠ (y + 32).toNat := by omega
        simp [hxy, this]
    · have hxy : ¬ y = x := by omega
      simp [hx, hy, hxy]
  · simp [hx]

/-- A loop over the positions `0..n-1` does not touch position `n`. -/
theorem Screen.read_foldl_write_aux (f : Cell → Cell) (n : Nat) (s : Screen) :
    ((List.range n).foldl (fun s (x : Nat) => s.write (x : Int) (f (s.read (x : Int)))) s).read (n : Int)
      = s.read (n : Int) := by
  suffices h : ∀ m : Nat, m ≤ n →
      ((List.range m).foldl (fun s (x : Nat) => s.write (x : Int) (f (s.read (x : Int)))) s).read
        (n : Int) = s.read (n : Int) from h n (Nat.le_refl n)
  intro m
  induction m with
  | zero => intro _; rfl
  | succ m ih =>
    intro hm
    rw [List.range_succ, List.foldl_append]
    simp only [List.foldl_cons, List.foldl_nil]
    have h3 : ¬ ((n : Int) = (m : Int) ∧ (-32 : Int) ≤ (m : Int) ∧ (m : Int) < 352) := by omega
    rw [Screen.read_write, if_neg h3]
    exact ih (by omega)

/-- A loop writing `f (old cell)` at the positions `0..n-1`. -/
theorem Screen.read_foldl_write (f : Cell → Cell) (n : Nat) (hn : n ≤ 352) (s : Screen)
    (y : Int) :
    ((List.range n).foldl (fun s (x : Nat) => s.write (x : Int) (f (s.read (x : Int)))) s).read y =
      if 0 ≤ y ∧ y < (n : Int) then f (s.read y) else s.read y := by
  induction n with
  | zero =>
    have : ¬ (0 ≤ y ∧ y < ((0 : Nat) : Int)) := by omega
    rw [if_neg this]
    rfl
  | succ n ih =>
    have ih := ih (by omega)
    rw [List.range_succ, List.foldl_append]
    simp only [List.foldl_cons, List.foldl_nil]
    rw [Screen.read_write, ih]
    by_cases hy : y = (n : Int)
    · subst hy
      have h1 : ¬ (0 ≤ (n : Int) ∧ (n : Int) < (n : Int)) := by omega
      have h2 : (0 : Int) ≤ (n : Int) ∧ (n : Int) < ((n + 1 : Nat) : Int) := by omega
      have h3 : (n : Int) = (n : Int) ∧ (-32 : Int) ≤ (n : Int) ∧ (n : Int) < 352 := by omega
      rw [Screen.read_foldl_write_aux f n s, if_pos h3, if_pos h2]
    · have h3 : ¬ (y = (n : Int) ∧ (-32 : Int) ≤ (n : Int) ∧ (n : Int) < 352) := by omega
      rw [if_neg h3]
      by_cases h0 : 0 ≤ y ∧ y < (n : Int)
      · have h2 : 0 ≤ y ∧ y < ((n + 1 : Nat) : Int) := by omega
        rw [if_pos h0, if_pos h2]
      · have h2 : ¬ (0 ≤ y ∧ y < ((n + 1 : Nat) : Int)) := by omega
        rw [if_neg h0, if_neg h2]

theorem read_clear_row (s : Screen) (y : Int) :
    (clear_row s).read y = if 0 ≤ y ∧ y < 320 then ⟨0, 0, 0, 0⟩ else s.read y := by
  have h := Screen.read_foldl_write (fun _ => ⟨0, 0, 0, 0⟩) 320 (by decide) s y
  rw [Nat.cast_ofNat] at h
  unfold clear_row SCREEN_WIDTH
  exact h

theorem read_fill_backdrop (s : Screen) (rgb : Nat) (y : Int) :
    (fill_backdrop s rgb).read y =
      if 0 ≤ y ∧ y < 320 then draw_pixel (s.read y) rgb 0 else s.read y := by
  have h := Screen.read_foldl_write (fun c => draw_pixel c rgb 0) 320 (by decide) s y
  rw [Nat.cast_ofNat] at h
  unfold fill_backdrop SCREEN_WIDTH draw_pixel_at
  exact h

/-- After `memset` and the backdrop loop every visible cell holds the backdrop
colour at priority 0. -/
theorem read_backdrop (s : Screen) (rgb : Nat) (y : Int) (h0 : 0 ≤ y) (h1 : y < 320) :
    (fill_backdrop (clear_row s) rgb).read y = ⟨CRAM_R rgb, CRAM_G rgb, CRAM_B rgb, 0⟩ := by
  rw [read_fill_backdrop, read_clear_row]
  simp only [h0, h1, and_self, if_true]
  exact draw_pixel_pass ⟨0, 0, 0, 0⟩ rgb 0 (by decide) (by decide)

/-- With display enabled and planes disabled, `draw_scanline` stops after the
backdrop loop. -/
theorem draw_scanline_backdrop (v : VDP) (g : Gfx) (line : Nat) (hline : line < 224)
    (hinterlace : BITS (v.reg 12) 1 2 = 0) (hdisplay : BIT (v.reg 0) 0 = 0)
    (hplanes : BIT (v.reg 1) 6 = 0) :
    draw_scanline v g line =
      ⟨⟨fill_backdrop (clear_row g.screen) (v.cram (BITS (v.reg 7) 0 6)), g.log⟩, none⟩ := by
  have hl : ¬ line ≥ 224 := by omega
  unfold draw_scanline
  dsimp only
  rw [if_neg (by rw [hinterlace]; decide), if_neg hl, if_neg (by rw [hdisplay]; decide),
    if_pos hplanes]

/-! ## C4: backdrop-only lines -/

/-- C4: for every line in `[0, 224)`, every video memory in which interlace is
not requested, the display-disable bit (register 0 bit 0) is clear and the
plane/sprite-enable bit (register 1 bit 6) is clear, and every stale buffer,
the render returns 320 pixels, each the 8-bit expansion of the palette entry
selected by the low 6 bits of register 7 (at priority 0). -/
theorem backdrop_only_line (v : VDP) (buffer : Screen) (line : Nat) (hline : line < 224)
    (hinterlace : BITS (v.reg 12) 1 2 = 0) (hdisplay : BIT (v.reg 0) 0 = 0)
    (hplanes : BIT (v.reg 1) 6 = 0) :
    gfx_draw_scanline v buffer line =
      Except.ok (List.replicate 320
        { r := COLOR_3B_TO_8B (BITS (v.cram (BITS (v.reg 7) 0 6)) 1 3)
          g := COLOR_3B_TO_8B (BITS (v.cram (BITS (v.reg 7) 0 6)) 5 3)
          b := COLOR_3B_TO_8B (BITS (v.cram (BITS (v.reg 7) 0 6)) 9 3)
          pri := 0 }) := by
  unfold gfx_draw_scanline
  rw [draw_scanline_backdrop v ⟨buffer, []⟩ line hline hinterlace hdisplay hplanes]
  dsimp only
  refine congrArg Except.ok ?_
  rw [List.eq_replicate_iff]
  refine ⟨by rw [List.length_map, List.length_range]; rfl, ?_⟩
  intro c hc
  rw [List.mem_map] at hc
  obtain ⟨x, hx, rfl⟩ := hc
  rw [List.mem_range] at hx
  exact read_backdrop buffer _ (x : Int) (by omega) (by simp only [SCREEN_WIDTH] at hx; omega)

/-- Witness of C4: all-zero memory, palette entry 0 set to `0x0E2C`, line 10. -/
theorem backdrop_only_line_witness :
    (10 < 224 ∧ BITS (backdrop_vdp.reg 12) 1 2 = 0 ∧ BIT (backdrop_vdp.reg 0) 0 = 0 ∧
      BIT (backdrop_vdp.reg 1) 6 = 0) ∧
    gfx_draw_scanline backdrop_vdp stale_buffer 10 =
      Except.ok (List.replicate 320 ⟨219, 36, 255, 0⟩) :=
  ⟨⟨by decide, by decide, by decide, by decide⟩,
   (backdrop_only_line backdrop_vdp stale_buffer 10 (by decide) (by decide) (by decide)
      (by decide)).trans rfl⟩

/-! ## C5: sprite-chain traversal -/

/-- The traversal loop started at `ns` with `k` iterations left stops with at
most `ns + k` recorded entries, and the recorded list has one element per
store `indices[ns] = sidx`. -/
theorem sprite_chain_loop_bound (v : VDP) (start_table : Nat) :
    ∀ (k ns sidx : Nat) (indices : List Nat), indices.length = ns →
      (sprite_chain_loop v start_table k ns sidx indices).1 ≤ ns + k ∧
      (sprite_chain_loop v start_table k ns sidx indices).2.length =
        (sprite_chain_loop v start_table k ns sidx indices).1 := by
  intro k
  induction k with
  | zero => intro ns sidx indices h; exact ⟨Nat.le_refl _, h⟩
  | succ k ih =>
    intro ns sidx indices h
    unfold sprite_chain_loop
    dsimp only
    split
    · exact ⟨by omega, h⟩
    · have := ih (ns + 1) (BITS (v.vram (start_table + sidx * 8 + 3)) 0 7) (indices ++ [sidx])
        (by rw [List.length_append, h]; rfl)
      exact ⟨by omega, this.2⟩

/-- C5: for every sprite table the traversal is a total function that records
at most 64 entries, all of them inside the 64-slot staging array (the list of
recorded entries has exactly `ns ≤ 64` elements); on the cyclic table
`0 → 5 → 2 → 5 → …` it stops after exactly 64 entries. -/
theorem sprite_chain_at_most_64 :
    (∀ (v : VDP) (start_table : Nat),
      (sprite_chain v start_table).1 ≤ 64 ∧
      (sprite_chain v start_table).2.length = (sprite_chain v start_table).1 ∧
      (sprite_chain v start_table).2.length ≤ 64) ∧
    (sprite_chain cycle_vdp 0).1 = 64 ∧
    (sprite_chain cycle_vdp 0).2.take 6 = [0, 5, 2, 5, 2, 5] := by
  refine ⟨fun v start_table => ?_, by decide, by decide⟩
  have h := sprite_chain_loop_bound v start_table 64 0 0 [] rfl
  unfold sprite_chain
  exact ⟨by omega, h.2, by omega⟩

/-! ## C6: per-line sprite limits -/

theorem draw_pattern_log (v : VDP) (g : Gfx) (x : Int) (name paty : Nat) :
    (draw_pattern v g x name paty).log = g.log ++ [Event.pattern x name paty] := rfl

theorem SpriteInv.mono {L0 : List Event} {S T : Finset Nat} {evs : List Event}
    {a : SpriteAcc} (h : SpriteInv L0 S evs a) (hST : S ⊆ T) : SpriteInv L0 T evs a :=
  { h with slots := fun slot p nv np hm => hST (h.slots slot p nv np hm) }

/-- The column loop keeps the invariant and does not touch `num_visible`. -/
theorem sprite_cells_inv (v : VDP) (paty : Nat) (sx : Int) (sh fliph slot : Nat)
    (L0 : List Event) (S : Finset Nat) (hS : slot ∈ S) :
    ∀ (k p name : Nat) (a : SpriteAcc) (evs : List Event),
      SpriteInv L0 S evs a → a.returned = false → a.num_visible < 16 →
      ∃ evs2, SpriteInv L0 S evs2 (sprite_cells v paty sx sh fliph slot k p name a) ∧
        (sprite_cells v paty sx sh fliph slot k p name a).num_visible = a.num_visible := by
  intro k
  induction k with
  | zero => intro p name a evs h _ _; exact ⟨evs, h, rfl⟩
  | succ k ih =>
    intro p name a evs h hret hvis
    have hlive := h.live hret
    have hpix := h.pixels
    -- the two events of this iteration
    let e1 := Event.sprite_cell slot p a.num_visible a.num_pixels
    let e2 := Event.pattern (sx + (p : Int) * 8) name paty
    have hkinds : ∀ e ∈ evs ++ [e1, e2], e.isPattern = true ∨ e.isSpriteCell = true := by
      intro e he
      rcases List.mem_append.mp he with he | he
      · exact h.kinds e he
      · simp only [List.mem_cons, List.mem_singleton, List.not_mem_nil, or_false] at he
        rcases he with rfl | rfl
        · exact Or.inr rfl
        · exact Or.inl rfl
    have hcp : (evs ++ [e1, e2]).countP Event.isPattern = evs.countP Event.isPattern + 1 := by
      rw [List.countP_append]; rfl
    have hcs : (evs ++ [e1, e2]).countP Event.isSpriteCell =
        evs.countP Event.isSpriteCell + 1 := by
      rw [List.countP_append]; rfl
    have hmem : ∀ s q nv np, Event.sprite_cell s q nv np ∈ evs ++ [e1, e2] →
        Event.sprite_cell s q nv np ∈ evs ∨
          (s = slot ∧ q = p ∧ nv = a.num_visible ∧ np = a.num_pixels) := by
      intro s q nv np hm
      rcases List.mem_append.mp hm with hm | hm
      · exact Or.inl hm
      · simp only [List.mem_cons, List.mem_singleton, List.not_mem_nil, or_false] at hm
        rcases hm with hm | hm
        · injection hm with h1 h2 h3 h4
          exact Or.inr ⟨h1, h2, h3, h4⟩
        · exact Event.noConfusion hm
    have hbelow : ∀ s q nv np, Event.sprite_cell s q nv np ∈ evs ++ [e1, e2] →
        nv < 16 ∧ np < 256 := by
      intro s q nv np hm
      rcases hmem s q nv np hm with hm | ⟨_, _, h3, h4⟩
      · exact h.below s q nv np hm
      · subst h3; subst h4; exact ⟨hvis, hlive⟩
    have hslots : ∀ s q nv np, Event.sprite_cell s q nv np ∈ evs ++ [e1, e2] → s ∈ S := by
      intro s q nv np hm
      rcases hmem s q nv np hm with hm | ⟨h1, _, _, _⟩
      · exact h.slots s q nv np hm
      · subst h1; exact hS
    have hlog : (draw_pattern v
        (a.gfx.emit (Event.sprite_cell slot p a.num_visible a.num_pixels))
        (sx + (p : Int) * 8) name paty).log = L0 ++ (evs ++ [e1, e2]) := by
      rw [draw_pattern_log]
      show (a.gfx.log ++ [e1]) ++ [e2] = _
      rw [h.log_eq]
      simp only [List.append_assoc, List.singleton_append]
    unfold sprite_cells
    dsimp only
    by_cases hge : a.num_pixels + 8 ≥ 256
    · rw [if_pos hge]
      refine ⟨evs ++ [e1, e2], ?_, rfl⟩
      exact
        { log_eq := hlog
          kinds := hkinds
          pixels := by show a.num_pixels + 8 = _; rw [hcp]; omega
          paired := by rw [hcp, hcs, h.paired]
          pixels_le := by show a.num_pixels + 8 ≤ 256; omega
          below := hbelow
          slots := hslots
          live := fun hc => by cases hc }
    · rw [if_neg hge]
      exact ih _ _ _ (evs ++ [e1, e2])
        { log_eq := hlog
          kinds := hkinds
          pixels := by show a.num_pixels + 8 = _; rw [hcp]; omega
          paired := by rw [hcp, hcs, h.paired]
          pixels_le := by show a.num_pixels + 8 ≤ 256; omega
          below := hbelow
          slots := hslots
          live := fun _ => by show a.num_pixels + 8 < 256; omega }
        rfl hvis

/-- `draw_sprite` in terms of the decoded fields. -/
theorem draw_sprite_eq (v : VDP) (line start_table idx slot : Nat) (a : SpriteAcc) :
    draw_sprite v line start_table idx slot a =
      if sprite_on_line v line start_table idx then
        sprite_count
          (if sprite_in_clip v start_table idx then
            sprite_cells v (sprite_paty v line start_table idx) (sprite_x v start_table idx)
              (sprite_h v start_table idx) (BITS (sprite_name v start_table idx) 11 1) slot
              (sprite_w v start_table idx) 0 (sprite_first_name v line start_table idx) a
          else a)
      else a := rfl

/-- One sprite keeps the invariant; the set of slots grows by at most the
slot of this sprite, and only together with `num_visible`. -/
theorem draw_sprite_inv (v : VDP) (line start_table idx slot : Nat) (L0 : List Event)
    (a : SpriteAcc) (evs : List Event) (S : Finset Nat) (h : SpriteInv L0 S evs a)
    (hret : a.returned = false) (hvis : a.num_visible < 16) (hcard : S.card ≤ a.num_visible) :
    ∃ evs2 S2, SpriteInv L0 S2 evs2 (draw_sprite v line start_table idx slot a) ∧
      S2.card ≤ 16 ∧
      ((draw_sprite v line start_table idx slot a).returned = false →
        (draw_sprite v line start_table idx slot a).num_visible < 16 ∧
        S2.card ≤ (draw_sprite v line start_table idx slot a).num_visible) := by
  rw [draw_sprite_eq]
  by_cases hline : sprite_on_line v line start_table idx
  · rw [if_pos hline]
    have hS2 : (insert slot S).card ≤ a.num_visible + 1 :=
      (Finset.card_insert_le slot S).trans (by omega)
    have h2 : SpriteInv L0 (insert slot S) evs a := h.mono (Finset.subset_insert slot S)
    -- the state after the column loop
    obtain ⟨a1, ha1⟩ : ∃ a1, a1 = (if sprite_in_clip v start_table idx then
        sprite_cells v (sprite_paty v line start_table idx) (sprite_x v start_table idx)
          (sprite_h v start_table idx) (BITS (sprite_name v start_table idx) 11 1) slot
          (sprite_w v start_table idx) 0 (sprite_first_name v line start_table idx) a
        else a) := ⟨_, rfl⟩
    have h1 : ∃ evs1, SpriteInv L0 (insert slot S) evs1 a1 ∧ a1.num_visible = a.num_visible := by
      rw [ha1]
      by_cases hclip : sprite_in_clip v start_table idx
      · rw [if_pos hclip]
        exact sprite_cells_inv v _ _ _ _ slot L0 (insert slot S) (Finset.mem_insert_self slot S)
          _ _ _ a evs h2 hret hvis
      · rw [if_neg hclip]
        exact ⟨evs, h2, rfl⟩
    rw [← ha1]
    obtain ⟨evs1, hinv1, hnv1⟩ := h1
    refine ⟨evs1, insert slot S, ?_, by omega, ?_⟩
    · unfold sprite_count
      split
      · exact hinv1
      · split
        · exact { hinv1 with live := fun hc => by cases hc }
        · exact { hinv1 with live := fun _ => hinv1.live (by simpa using ‹¬ a1.returned = true›) }
    · unfold sprite_count
      split
      · intro hc
        rw [‹a1.returned = true›] at hc
        cases hc
      · split
        · intro hc; cases hc
        · intro _
          show a1.num_visible + 1 < 16 ∧ (insert slot S).card ≤ a1.num_visible + 1
          omega
  · rw [if_neg hline]
    exact ⟨evs, S, h, by omega, fun _ => ⟨hvis, hcard⟩⟩

/-- The sprite loop keeps the invariant. -/
theorem sprite_loop_inv (v : VDP) (line start_table : Nat) (indices : List Nat)
    (L0 : List Event) :
    ∀ (i : Nat) (a : SpriteAcc) (evs : List Event) (S : Finset Nat),
      SpriteInv L0 S evs a → a.returned = false → a.num_visible < 16 →
      S.card ≤ a.num_visible →
      ∃ evs2 S2, SpriteInv L0 S2 evs2 (sprite_loop v line start_table indices i a) ∧
        S2.card ≤ 16 := by
  intro i
  induction i with
  | zero => intro a evs S h _ _ hcard; exact ⟨evs, S, h, by omega⟩
  | succ i ih =>
    intro a evs S h hret hvis hcard
    obtain ⟨evs1, S1, h1, hc1, hlive1⟩ :=
      draw_sprite_inv v line start_table (indices.getD i 0) i L0 a evs S h hret hvis hcard
    unfold sprite_loop
    dsimp only
    split
    · exact ⟨evs1, S1, h1, hc1⟩
    · have hr : (draw_sprite v line start_table (indices.getD i 0) i a).returned = false := by
        simpa using ‹¬ (draw_sprite v line start_table (indices.getD i 0) i a).returned = true›
      exact ih _ evs1 S1 h1 hr (hlive1 hr).1 (hlive1 hr).2

theorem mem_sprite_slots {log : List Event} {slot : Nat} (h : slot ∈ sprite_slots log) :
    ∃ p nv np, Event.sprite_cell slot p nv np ∈ log := by
  unfold sprite_slots drawn_cells at h
  rw [List.mem_map] at h
  obtain ⟨⟨s, p⟩, hm, rfl⟩ := h
  rw [List.mem_filterMap] at hm
  obtain ⟨e, he, hsome⟩ := hm
  cases e with
  | sprite_cell s2 p2 nv np =>
    simp only [Option.some.injEq, Prod.mk.injEq] at hsome
    obtain ⟨rfl, rfl⟩ := hsome
    exact ⟨_, _, _, he⟩
  | enter l => simp at hsome
  | name_fetch a => simp at hsome
  | pattern x n q => simp at hsome

/-- The events logged by `draw_sprites`, with the loop invariant. -/
theorem draw_sprites_inv (v : VDP) (g : Gfx) (line : Nat) :
    ∃ (evs : List Event) (S : Finset Nat),
      SpriteInv g.log S evs (draw_sprites v g line) ∧ S.card ≤ 16 := by
  have h0 : SpriteInv g.log ∅ []
      { gfx := g, num_visible := 0, num_pixels := 0, returned := false } :=
    { log_eq := (List.append_nil _).symm
      kinds := fun e he => absurd he (List.not_mem_nil e)
      pixels := rfl
      paired := rfl
      pixels_le := Nat.zero_le 256
      below := fun _ _ _ _ he => absurd he (List.not_mem_nil _)
      slots := fun _ _ _ _ he => absurd he (List.not_mem_nil _)
      live := fun _ => Nat.zero_lt_succ 255 }
  exact sprite_loop_inv v line ((v.reg 5 &&& 0x7F) <<< 9)
    (sprite_chain v ((v.reg 5 &&& 0x7F) <<< 9)).2 g.log
    (sprite_chain v ((v.reg 5 &&& 0x7F) <<< 9)).1 _ [] ∅ h0 rfl (Nat.zero_lt_succ 15) (by simp)

/-- C6: for every line and sprite table, the events `evs` logged by
`draw_sprites` are sprite columns, each followed by its `draw_pattern` call;
there are at most 32 such calls (`num_pixels` is 8 per call, at most 256),
the columns belong to at most 16 different sprites, and every column was drawn
while `num_visible < 16` and `num_pixels < 256`: once either limit is reached
nothing more is drawn, also in the middle of a sprite. -/
theorem sprite_line_limits (v : VDP) (g : Gfx) (line : Nat) :
    ∃ evs : List Event,
      (draw_sprites v g line).gfx.log = g.log ++ evs ∧
      (∀ e ∈ evs, e.isPattern = true ∨ e.isSpriteCell = true) ∧
      evs.countP Event.isSpriteCell = evs.countP Event.isPattern ∧
      evs.countP Event.isPattern ≤ 32 ∧
      (draw_sprites v g line).num_pixels = 8 * evs.countP Event.isPattern ∧
      (draw_sprites v g line).num_pixels ≤ 256 ∧
      (sprite_slots evs).toFinset.card ≤ 16 ∧
      ∀ slot p nv np, Event.sprite_cell slot p nv np ∈ evs → nv < 16 ∧ np < 256 := by
  obtain ⟨evs, S, h, hcard⟩ := draw_sprites_inv v g line
  refine ⟨evs, h.log_eq, h.kinds, h.paired, ?_, h.pixels, h.pixels_le, ?_, h.below⟩
  · have := h.pixels; have := h.pixels_le
    show List.countP Event.isPattern evs ≤ 32
    omega
  · refine (Finset.card_le_card ?_).trans hcard
    intro slot hs
    rw [List.mem_toFinset] at hs
    obtain ⟨p, nv, np, hm⟩ := mem_sprite_slots hs
    exact h.slots slot p nv np hm

/-! ## How the sprite loop runs -/

theorem drawn_cells_append (l1 l2 : List Event) :
    drawn_cells (l1 ++ l2) = drawn_cells l1 ++ drawn_cells l2 := by
  unfold drawn_cells
  exact List.filterMap_append l1 l2 _

theorem sprite_slots_append (l1 l2 : List Event) :
    sprite_slots (l1 ++ l2) = sprite_slots l1 ++ sprite_slots l2 := by
  unfold sprite_slots
  rw [drawn_cells_append, List.map_append]

/-- What the column loop does, started with `num_pixels < 256`: it logs the
columns `p, p+1, …, p+m-1` of the sprite, 8 pixels each; it runs through all
`k` columns unless it returns, which it does exactly when `num_pixels`
reaches 256. -/
theorem sprite_cells_run (v : VDP) (paty : Nat) (sx : Int) (sh fliph slot : Nat) :
    ∀ (k p name : Nat) (a : SpriteAcc), a.returned = false → a.num_pixels < 256 →
      ∃ (new : List Event) (m : Nat),
        (sprite_cells v paty sx sh fliph slot k p name a).gfx.log = a.gfx.log ++ new ∧
        drawn_cells new = (List.range m).map (fun q => (slot, p + q)) ∧
        m ≤ k ∧
        (sprite_cells v paty sx sh fliph slot k p name a).num_pixels = a.num_pixels + 8 * m ∧
        (sprite_cells v paty sx sh fliph slot k p name a).num_visible = a.num_visible ∧
        ((sprite_cells v paty sx sh fliph slot k p name a).returned = false →
          m = k ∧ (sprite_cells v paty sx sh fliph slot k p name a).num_pixels < 256) ∧
        ((sprite_cells v paty sx sh fliph slot k p name a).returned = true →
          256 ≤ (sprite_cells v paty sx sh fliph slot k p name a).num_pixels) := by
  intro k
  induction k with
  | zero =>
    intro p name a hret hpix
    refine ⟨[], 0, (List.append_nil _).symm, rfl, Nat.le_refl 0, rfl, rfl, ?_, ?_⟩
    · intro _; exact ⟨rfl, hpix⟩
    · intro hc
      have : a.returned = true := hc
      rw [hret] at this
      cases this
  | succ k ih =>
    intro p name a hret hpix
    have hcells : ∀ (rest : List Event) (m : Nat),
        drawn_cells rest = (List.range m).map (fun q => (slot, p + 1 + q)) →
        drawn_cells ([Event.sprite_cell slot p a.num_visible a.num_pixels,
          Event.pattern (sx + (p : Int) * 8) name paty] ++ rest) =
          (List.range (m + 1)).map (fun q => (slot, p + q)) := by
      intro rest m hrest
      rw [drawn_cells_append, hrest, List.range_succ_eq_map, List.map_cons, List.map_map]
      show (slot, p) :: _ = (slot, p + 0) :: _
      refine congrArg₂ _ rfl (List.map_congr_left ?_)
      intro q _
      show (slot, p + 1 + q) = (slot, p + (q + 1))
      rw [Nat.add_assoc, Nat.add_comm 1 q]
    unfold sprite_cells
    dsimp only
    by_cases hge : a.num_pixels + 8 ≥ 256
    · rw [if_pos hge]
      refine ⟨[Event.sprite_cell slot p a.num_visible a.num_pixels,
        Event.pattern (sx + (p : Int) * 8) name paty], 1, ?_, ?_, by omega, rfl, rfl, ?_, ?_⟩
      · rw [draw_pattern_log]
        show (a.gfx.log ++ [_]) ++ [_] = _
        rw [List.append_assoc]; rfl
      · exact hcells [] 0 rfl
      · intro hc; cases hc
      · intro _; exact hge
    · rw [if_neg hge]
      obtain ⟨rest, m, hlog, hrest, hm, hnp, hnv, hlive, hdone⟩ :=
        ih (p + 1)
          (if fliph = 0 then (name + sh) % 65536 else (name + 65536 - sh) % 65536)
          { gfx := draw_pattern v
              (a.gfx.emit (Event.sprite_cell slot p a.num_visible a.num_pixels))
              (sx + (p : Int) * 8) name paty
            num_visible := a.num_visible
            num_pixels := a.num_pixels + 8
            returned := false } rfl (by show a.num_pixels + 8 < 256; omega)
      refine ⟨[Event.sprite_cell slot p a.num_visible a.num_pixels,
        Event.pattern (sx + (p : Int) * 8) name paty] ++ rest, m + 1, ?_, hcells rest m hrest,
        by omega, ?_, hnv, ?_, hdone⟩
      · rw [hlog, draw_pattern_log]
        show ((a.gfx.log ++ [_]) ++ [_]) ++ rest = _
        simp only [List.append_assoc, List.singleton_append, List.cons_append, List.nil_append]
      · rw [hnp]
        show a.num_pixels + 8 + 8 * m = a.num_pixels + 8 * (m + 1)
        omega
      · intro hr
        exact ⟨by have := (hlive hr).1; omega, (hlive hr).2⟩


theorem sprite_count_gfx (a : SpriteAcc) : (sprite_count a).gfx = a.gfx := by
  unfold sprite_count; split
  · rfl
  · split <;> rfl

theorem sprite_count_num_pixels (a : SpriteAcc) : (sprite_count a).num_pixels = a.num_pixels := by
  unfold sprite_count; split
  · rfl
  · split <;> rfl

theorem sprite_count_live (a : SpriteAcc) (h : (sprite_count a).returned = false) :
    a.returned = false ∧ (sprite_count a).num_visible = a.num_visible + 1 ∧
      a.num_visible + 1 < 16 := by
  unfold sprite_count at h ⊢
  split at h
  · rename_i h1; rw [h1] at h; cases h
  · rename_i h1
    split at h
    · cases h
    · rename_i h2
      rw [if_neg h1, if_neg h2]
      exact ⟨by simpa using h1, rfl, by omega⟩

theorem sprite_count_of_live (a : SpriteAcc) (h : a.returned = false) :
    (sprite_count a).num_visible = a.num_visible + 1 ∧
      ((sprite_count a).returned = true ↔ 16 ≤ a.num_visible + 1) := by
  unfold sprite_count
  rw [if_neg (by rw [h]; exact Bool.false_ne_true)]
  split
  · rename_i h2; exact ⟨rfl, ⟨fun _ => h2, fun _ => rfl⟩⟩
  · rename_i h2
    refine ⟨rfl, ⟨fun hc => ?_, fun hc => absurd hc h2⟩⟩
    have : a.returned = true := hc
    rw [h] at this; cases this

theorem sprite_count_of_returned (a : SpriteAcc) (h : a.returned = true) :
    sprite_count a = a := by
  unfold sprite_count
  rw [if_pos h]

/-- What one iteration of the sprite loop does, started with
`num_pixels < 256`: it logs the columns `0 … m-1` of the sprite in this
order; all `sw` columns unless it returns. -/
theorem draw_sprite_run (v : VDP) (line start_table idx slot : Nat) (a : SpriteAcc)
    (hret : a.returned = false) (hpix : a.num_pixels < 256) :
    ∃ (new : List Event) (m : Nat),
      (draw_sprite v line start_table idx slot a).gfx.log = a.gfx.log ++ new ∧
      drawn_cells new = (List.range m).map (fun q => (slot, q)) ∧
      ((draw_sprite v line start_table idx slot a).returned = false →
        (draw_sprite v line start_table idx slot a).num_pixels < 256 ∧
        (sprite_on_line v line start_table idx → sprite_in_clip v start_table idx →
          m = sprite_w v start_table idx)) ∧
      (sprite_on_line v line start_table idx → sprite_in_clip v start_table idx →
        (draw_sprite v line start_table idx slot a).num_pixels = a.num_pixels + 8 * m ∧
        (a.num_pixels + 8 * sprite_w v start_table idx < 256 →
          m = sprite_w v start_table idx ∧
          (draw_sprite v line start_table idx slot a).num_visible = a.num_visible + 1 ∧
          (a.num_visible + 1 < 16 →
            (draw_sprite v line start_table idx slot a).returned = false)) ∧
        (a.num_pixels + 8 * sprite_w v start_table idx = 256 →
          m = sprite_w v start_table idx ∧
          (draw_sprite v line start_table idx slot a).returned = true)) := by
  rw [draw_sprite_eq]
  by_cases hline : sprite_on_line v line start_table idx
  · rw [if_pos hline]
    by_cases hclip : sprite_in_clip v start_table idx
    · rw [if_pos hclip]
      obtain ⟨new, m, hlog, hcells, hm, hnp, hnv, hlive, hdone⟩ :=
        sprite_cells_run v (sprite_paty v line start_table idx) (sprite_x v start_table idx)
          (sprite_h v start_table idx) (BITS (sprite_name v start_table idx) 11 1) slot
          (sprite_w v start_table idx) 0 (sprite_first_name v line start_table idx) a hret hpix
      generalize sprite_cells v (sprite_paty v line start_table idx) (sprite_x v start_table idx)
          (sprite_h v start_table idx) (BITS (sprite_name v start_table idx) 11 1) slot
          (sprite_w v start_table idx) 0 (sprite_first_name v line start_table idx) a = a1 at *
      have hcells2 : drawn_cells new = (List.range m).map (fun q => (slot, q)) := by
        rw [hcells]
        refine List.map_congr_left ?_
        intro q _
        show (slot, 0 + q) = (slot, q)
        rw [Nat.zero_add]
      refine ⟨new, m, ?_, hcells2, ?_, ?_⟩
      · rw [sprite_count_gfx]; exact hlog
      · intro hr
        have h1 := sprite_count_live a1 hr
        rw [sprite_count_num_pixels]
        exact ⟨(hlive h1.1).2, fun _ _ => (hlive h1.1).1⟩
      · intro _ _
        rw [sprite_count_num_pixels]
        refine ⟨hnp, ?_, ?_⟩
        · intro hlt
          have hr1 : a1.returned = false := by
            cases hr : a1.returned with
            | false => rfl
            | true => have := hdone hr; omega
          have h2 := sprite_count_of_live a1 hr1
          refine ⟨(hlive hr1).1, by rw [h2.1, hnv], ?_⟩
          intro hnv16
          cases hr : (sprite_count a1).returned with
          | false => rfl
          | true => have := h2.2.mp hr; omega
        · intro heq
          have hr1 : a1.returned = true := by
            cases hr : a1.returned with
            | true => rfl
            | false => have := hlive hr; omega
          rw [sprite_count_of_returned a1 hr1]
          have := hdone hr1
          exact ⟨by omega, hr1⟩
    · rw [if_neg hclip]
      refine ⟨[], 0, ?_, rfl, ?_, fun _ h => absurd h hclip⟩
      · rw [sprite_count_gfx]; exact (List.append_nil _).symm
      · intro hr
        rw [sprite_count_num_pixels]
        exact ⟨hpix, fun _ h => absurd h hclip⟩
  · rw [if_neg hline]
    exact ⟨[], 0, (List.append_nil _).symm, rfl, fun _ => ⟨hpix, fun h => absurd h hline⟩,
      fun h => absurd h hline⟩


theorem sprite_complete_mono (v : VDP) (line start_table : Nat) (indices : List Nat)
    (c1 c2 : List (Nat × Nat)) (j : Nat)
    (h : sprite_complete v line start_table indices c1 j) :
    sprite_complete v line start_table indices (c1 ++ c2) j :=
  fun h1 h2 q hq => List.mem_append_left c2 (h h1 h2 q hq)

/-- The sprite loop draws in decreasing slot order, and a sprite gets a column
only when every sprite recorded after it has been drawn in full. -/
theorem sprite_loop_tail (v : VDP) (line start_table : Nat) (indices : List Nat)
    (L0 : List Event) (ns : Nat) :
    ∀ (i : Nat) (a : SpriteAcc) (evs : List Event),
      a.gfx.log = L0 ++ evs → a.returned = false → a.num_pixels < 256 →
      (∀ c ∈ drawn_cells evs, i ≤ c.1) →
      (sprite_slots evs).Pairwise (· ≥ ·) →
      (∀ c ∈ drawn_cells evs, ∀ j, c.1 < j → j < ns →
        sprite_complete v line start_table indices (drawn_cells evs) j) →
      (∀ j, i ≤ j → j < ns →
        sprite_complete v line start_table indices (drawn_cells evs) j) →
      ∃ evs2, (sprite_loop v line start_table indices i a).gfx.log = L0 ++ evs2 ∧
        (sprite_slots evs2).Pairwise (· ≥ ·) ∧
        ∀ c ∈ drawn_cells evs2, ∀ j, c.1 < j → j < ns →
          sprite_complete v line start_table indices (drawn_cells evs2) j := by
  intro i
  induction i with
  | zero => intro a evs hlog _ _ _ hsorted hclosed _; exact ⟨evs, hlog, hsorted, hclosed⟩
  | succ i ih =>
    intro a evs hlog hret hpix hge hsorted hclosed hdone
    obtain ⟨new, m, hlog1, hcells, hlive, _⟩ :=
      draw_sprite_run v line start_table (indices.getD i 0) i a hret hpix
    have hlog2 : (draw_sprite v line start_table (indices.getD i 0) i a).gfx.log =
        L0 ++ (evs ++ new) := by rw [hlog1, hlog, List.append_assoc]
    have hnew : ∀ c ∈ drawn_cells new, c.1 = i := by
      intro c hc
      rw [hcells, List.mem_map] at hc
      obtain ⟨q, _, rfl⟩ := hc
      rfl
    have hge2 : ∀ c ∈ drawn_cells (evs ++ new), i ≤ c.1 := by
      intro c hc
      rw [drawn_cells_append] at hc
      rcases List.mem_append.mp hc with hc | hc
      · exact Nat.le_of_succ_le (hge c hc)
      · exact Nat.le_of_eq (hnew c hc).symm
    have hsorted2 : (sprite_slots (evs ++ new)).Pairwise (· ≥ ·) := by
      rw [sprite_slots_append, List.pairwise_append]
      refine ⟨hsorted, ?_, ?_⟩
      · apply List.pairwise_of_forall_mem_list
        intro x hx y hy
        unfold sprite_slots at hx hy
        rw [List.mem_map] at hx hy
        obtain ⟨cx, hcx, rfl⟩ := hx
        obtain ⟨cy, hcy, rfl⟩ := hy
        rw [hnew cx hcx, hnew cy hcy]
      · intro x hx y hy
        unfold sprite_slots at hx hy
        rw [List.mem_map] at hx hy
        obtain ⟨cx, hcx, rfl⟩ := hx
        obtain ⟨cy, hcy, rfl⟩ := hy
        rw [hnew cy hcy]
        exact Nat.le_of_succ_le (hge cx hcx)
    have hclosed2 : ∀ c ∈ drawn_cells (evs ++ new), ∀ j, c.1 < j → j < ns →
        sprite_complete v line start_table indices (drawn_cells (evs ++ new)) j := by
      intro c hc j hcj hj
      rw [drawn_cells_append] at hc ⊢
      apply sprite_complete_mono
      rcases List.mem_append.mp hc with hc | hc
      · exact hclosed c hc j hcj hj
      · rw [hnew c hc] at hcj
        exact hdone j hcj hj
    unfold sprite_loop
    dsimp only
    split
    · exact ⟨evs ++ new, hlog2, hsorted2, hclosed2⟩
    · have hr : (draw_sprite v line start_table (indices.getD i 0) i a).returned = false := by
        simpa using ‹¬ (draw_sprite v line start_table (indices.getD i 0) i a).returned = true›
      refine ih _ (evs ++ new) hlog2 hr (hlive hr).1 hge2 hsorted2 hclosed2 ?_
      intro j hij hj
      rw [drawn_cells_append]
      rcases Nat.eq_or_lt_of_le hij with rfl | hlt
      · intro h1 h2 q hq
        apply List.mem_append_right
        rw [hcells, List.mem_map]
        refine ⟨q, ?_, rfl⟩
        rw [List.mem_range, (hlive hr).2 h1 h2]
        exact hq
      · exact sprite_complete_mono _ _ _ _ _ _ _ (hdone j hlt hj)

/-- A run of sprites that are all on the line, fully on screen and 4 cells
wide, entered after `t ≤ 7` such sprites: the loop draws the next `8 - t`
sprites in full, in decreasing slot order, and returns at 256 pixels. -/
theorem sprite_loop_full (v : VDP) (line start_table : Nat) (indices : List Nat) :
    ∀ (i t : Nat) (a : SpriteAcc), t ≤ 7 → 8 ≤ i + t →
      (∀ j, j < i → sprite_on_line v line start_table (indices.getD j 0) ∧
        0 ≤ sprite_x v start_table (indices.getD j 0) ∧
        sprite_x v start_table (indices.getD j 0) + 32 ≤ 320 ∧
        sprite_w v start_table (indices.getD j 0) = 4) →
      a.returned = false → a.num_pixels = 32 * t → a.num_visible = t →
      ∃ new, (sprite_loop v line start_table indices i a).gfx.log = a.gfx.log ++ new ∧
        (sprite_loop v line start_table indices i a).num_pixels = 256 ∧
        drawn_cells new = (List.range (4 * (8 - t))).map (fun n => (i - 1 - n / 4, n % 4)) := by
  intro i
  induction i with
  | zero => intro t a ht h8 _ _ _ _; omega
  | succ i ih =>
    intro t a ht h8 hgood hret hpix hvis
    obtain ⟨hline, hx0, hx1, hw⟩ := hgood i (Nat.lt_succ_self i)
    have hclip : sprite_in_clip v start_table (indices.getD i 0) := by
      unfold sprite_in_clip SCREEN_WIDTH
      rw [hw]
      constructor
      · show sprite_x v start_table (indices.getD i 0) > -(((4 : Nat) : Int) * 8)
        omega
      · show sprite_x v start_table (indices.getD i 0) < ((320 : Nat) : Int)
        omega
    obtain ⟨new, m, hlog1, hcells, hlive, hexact⟩ :=
      draw_sprite_run v line start_table (indices.getD i 0) i a hret (by omega)
    obtain ⟨hnp, hlt, heq⟩ := hexact hline hclip
    rw [hw] at hlt heq
    have hfirst : ∀ M, (List.range (4 + M)).map (fun n => (i + 1 - 1 - n / 4, n % 4)) =
        (List.range 4).map (fun q => (i, q)) ++
          (List.range M).map (fun n => (i - 1 - n / 4, n % 4)) := by
      intro M
      rw [List.range_add, List.map_append, List.map_map]
      refine congrArg₂ _ (List.map_congr_left ?_) (List.map_congr_left ?_)
      · intro n hn
        rw [List.mem_range] at hn
        show (i + 1 - 1 - n / 4, n % 4) = (i, n)
        rw [Nat.div_eq_of_lt hn, Nat.mod_eq_of_lt hn]
        rfl
      · intro n _
        show (i + 1 - 1 - (4 + n) / 4, (4 + n) % 4) = (i - 1 - n / 4, n % 4)
        have h1 : (4 + n) / 4 = n / 4 + 1 := by omega
        have h2 : (4 + n) % 4 = n % 4 := by omega
        rw [h1, h2]
        congr 1
        omega
    unfold sprite_loop
    dsimp only
    by_cases h7 : t = 7
    · -- the eighth sprite: the pixel limit is reached in its last column
      subst h7
      obtain ⟨hm, hr⟩ := heq (by omega)
      rw [if_pos hr]
      refine ⟨new, hlog1, by rw [hnp, hm, hpix], ?_⟩
      rw [hcells, hm]
      exact (hfirst 0).symm
    · obtain ⟨hm, hnv, hr⟩ := hlt (by omega)
      have hr2 := hr (by omega)
      rw [if_neg (by rw [hr2]; exact Bool.false_ne_true)]
      obtain ⟨new2, hlog2, hpix2, hcells2⟩ :=
        ih (t + 1) _ (by omega) (by omega) (fun j hj => hgood j (Nat.lt_succ_of_lt hj)) hr2
          (by rw [hnp, hm, hpix]; omega) (by rw [hnv, hvis])
      refine ⟨new ++ new2, by rw [hlog2, hlog1, List.append_assoc], hpix2, ?_⟩
      rw [drawn_cells_append, hcells, hm, hcells2]
      have hM : 4 * (8 - t) = 4 + 4 * (8 - (t + 1)) := by omega
      rw [hM]
      exact (hfirst _).symm


/-! ## C7: which sprites survive the per-line limits -/

/-- C7, as stated, fails on the table `sprites40_vdp` at line 0: the recorded
chain is `0, 1, …, 39`, all forty sprites are on the line, at `x = 0` and 4
cells wide; rendering stops at 256 pixels, but the sprites drawn are the slots
`39, 38, …, 32`, the last eight of the chain, while the chain head (slot 0,
table index 0) gets no cell. The drawn sprites are not an initial segment of
the chain. -/
theorem sprite_dropout_drops_chain_head :
    sprite_chain sprites40_vdp (sprite_table sprites40_vdp) = (40, List.range 40) ∧
    (∀ i, i < 40 →
      sprite_on_line sprites40_vdp 0 (sprite_table sprites40_vdp) i ∧
      sprite_x sprites40_vdp (sprite_table sprites40_vdp) i = 0 ∧
      sprite_w sprites40_vdp (sprite_table sprites40_vdp) i = 4) ∧
    (draw_sprites sprites40_vdp ⟨stale_buffer, []⟩ 0).num_pixels = 256 ∧
    sprite_slots (draw_sprites sprites40_vdp ⟨stale_buffer, []⟩ 0).gfx.log =
      (List.range 32).map (fun n => 39 - n / 4) ∧
    0 ∉ sprite_slots (draw_sprites sprites40_vdp ⟨stale_buffer, []⟩ 0).gfx.log ∧
    ¬ (∀ i j, j < i →
        i ∈ sprite_slots (draw_sprites sprites40_vdp ⟨stale_buffer, []⟩ 0).gfx.log →
        j ∈ sprite_slots (draw_sprites sprites40_vdp ⟨stale_buffer, []⟩ 0).gfx.log) := by
  have hslots : sprite_slots (draw_sprites sprites40_vdp ⟨stale_buffer, []⟩ 0).gfx.log =
      (List.range 32).map (fun n => 39 - n / 4) := by decide
  refine ⟨by decide, by decide, by decide, hslots, ?_, ?_⟩
  · rw [hslots]; decide
  · intro h
    have h0 := h 39 0 (by decide) (by rw [hslots]; decide)
    rw [hslots] at h0
    revert h0
    decide

/-- C7 (amended): when the recorded chain has 40 sprites, all on the line,
fully on screen and 4 cells wide, sprite rendering stops at exactly 256 pixels
and draws exactly the four columns of each of the slots `39, 38, …, 32`, the
last eight sprites of the chain, in this order. In general the sprite columns
are drawn in decreasing slot order, and a sprite gets a column only if every
sprite recorded after it in the chain (on the line and inside the clip) has
all its columns drawn: the sprites drawn form a tail of the chain. -/
theorem sprite_dropout_keeps_chain_tail (v : VDP) (g : Gfx) (line : Nat) :
    ∃ evs : List Event,
      (draw_sprites v g line).gfx.log = g.log ++ evs ∧
      ((sprite_chain v (sprite_table v)).1 = 40 →
        (∀ i, i < 40 →
          sprite_on_line v line (sprite_table v) ((sprite_chain v (sprite_table v)).2.getD i 0) ∧
          0 ≤ sprite_x v (sprite_table v) ((sprite_chain v (sprite_table v)).2.getD i 0) ∧
          sprite_x v (sprite_table v) ((sprite_chain v (sprite_table v)).2.getD i 0) + 32 ≤ 320 ∧
          sprite_w v (sprite_table v) ((sprite_chain v (sprite_table v)).2.getD i 0) = 4) →
        (draw_sprites v g line).num_pixels = 256 ∧
        drawn_cells evs = (List.range 32).map (fun n => (39 - n / 4, n % 4))) ∧
      (sprite_slots evs).Pairwise (· ≥ ·) ∧
      ∀ c ∈ drawn_cells evs, ∀ j, c.1 < j → j < (sprite_chain v (sprite_table v)).1 →
        sprite_complete v line (sprite_table v) (sprite_chain v (sprite_table v)).2
          (drawn_cells evs) j := by
  have hnil : ∀ c ∈ drawn_cells ([] : List Event), False := fun c hc => List.not_mem_nil c hc
  obtain ⟨evs, hlog, hsorted, hclosed⟩ :=
    sprite_loop_tail v line (sprite_table v) (sprite_chain v (sprite_table v)).2 g.log
      (sprite_chain v (sprite_table v)).1 (sprite_chain v (sprite_table v)).1
      { gfx := g, num_visible := 0, num_pixels := 0, returned := false } []
      (List.append_nil _).symm rfl (Nat.zero_lt_succ 255)
      (fun c hc => (hnil c hc).elim) List.Pairwise.nil
      (fun c hc => (hnil c hc).elim)
      (fun j h1 h2 => absurd h2 (Nat.not_lt.mpr h1))
  refine ⟨evs, hlog, ?_, hsorted, hclosed⟩
  intro h40 hgood
  obtain ⟨new, hlog2, hpix, hcells⟩ :=
    sprite_loop_full v line (sprite_table v) (sprite_chain v (sprite_table v)).2
      (sprite_chain v (sprite_table v)).1 0
      { gfx := g, num_visible := 0, num_pixels := 0, returned := false } (by omega)
      (by omega) (by rw [h40]; exact hgood) rfl rfl rfl
  have hsame : evs = new := by
    have h1 : g.log ++ evs = g.log ++ new := hlog.symm.trans hlog2
    exact List.append_cancel_left h1
  refine ⟨hpix, ?_⟩
  rw [hsame, hcells, h40]

/-- Witness of C7 (amended): the table `sprites40_vdp` at line 0. -/
theorem sprite_dropout_keeps_chain_tail_witness :
    (sprite_chain sprites40_vdp (sprite_table sprites40_vdp)).1 = 40 ∧
    (draw_sprites sprites40_vdp ⟨stale_buffer, []⟩ 0).num_pixels = 256 ∧
    drawn_cells (draw_sprites sprites40_vdp ⟨stale_buffer, []⟩ 0).gfx.log =
      (List.range 32).map (fun n => (39 - n / 4, n % 4)) := by
  obtain ⟨evs, hlog, h40, _, _⟩ :=
    sprite_dropout_keeps_chain_tail sprites40_vdp ⟨stale_buffer, []⟩ 0
  have h := h40 (by decide) (by decide)
  refine ⟨by decide, h.1, ?_⟩
  rw [hlog]
  exact h.2


/-! ## The orchestrator: stages and faults -/

theorem stages_append (l1 l2 : List Event) : stages (l1 ++ l2) = stages l1 ++ stages l2 := by
  unfold stages
  exact List.filterMap_append l1 l2 _

theorem stages_draw_pattern (v : VDP) (g : Gfx) (x : Int) (name paty : Nat) :
    stages (draw_pattern v g x name paty).log = stages g.log := by
  rw [draw_pattern_log, stages_append]
  exact List.append_nil _

theorem stages_draw_nametable (v : VDP) (paty : Nat) :
    ∀ (n : Nat) (x : Int) (nt : Nat) (g : Gfx),
      stages (draw_nametable v paty n x nt g).log = stages g.log := by
  intro n
  induction n with
  | zero => intro x nt g; rfl
  | succ n ih =>
    intro x nt g
    unfold draw_nametable
    dsimp only
    rw [ih, stages_draw_pattern]
    show stages (g.log ++ [Event.name_fetch nt]) = _
    rw [stages_append]
    exact List.append_nil _

theorem stages_draw_plane_w (v : VDP) (g : Gfx) (y : Nat) :
    stages (draw_plane_w v g y).log = stages g.log := by
  unfold draw_plane_w
  exact stages_draw_nametable v _ _ _ _ g

/-- The only asserts `draw_plane_ab` can fail are the two on the plane size
codes: the one on `col` always holds. -/
theorem draw_plane_ab_fault (v : VDP) (g : Gfx) (line ntaddr scrollx scrolly : Nat) :
    (draw_plane_ab v g line ntaddr scrollx scrolly).fault =
      if BITS (v.reg 16) 0 2 = 2 then some Fault.invalid_ntwidth
      else if BITS (v.reg 16) 4 2 = 2 then some Fault.invalid_ntheight
      else none := by
  unfold draw_plane_ab
  dsimp only
  by_cases hw : BITS (v.reg 16) 0 2 = 2
  · rw [if_pos hw, if_pos hw]
  · rw [if_neg hw, if_neg hw]
    by_cases hh : BITS (v.reg 16) 4 2 = 2
    · rw [if_pos hh, if_pos hh]
    · rw [if_neg hh, if_neg hh]
      split
      · split
        · rename_i h1 h2
          exfalso
          apply h2
          have := Nat.mod_lt scrollx
            (show (BITS (v.reg 16) 0 2 + 1) * 32 * 8 > 0 by omega)
          omega
        · rfl
      · rfl

/-- A failed assert of `draw_plane_ab` comes before any drawing. -/
theorem draw_plane_ab_faulty (v : VDP) (g : Gfx) (line ntaddr scrollx scrolly : Nat)
    (h : BITS (v.reg 16) 0 2 = 2 ∨ BITS (v.reg 16) 4 2 = 2) :
    (draw_plane_ab v g line ntaddr scrollx scrolly).gfx = g := by
  unfold draw_plane_ab
  dsimp only
  by_cases hw : BITS (v.reg 16) 0 2 = 2
  · rw [if_pos hw]
  · rw [if_neg hw]
    rcases h with h | h
    · exact absurd h hw
    · rw [if_pos h]

theorem stages_draw_plane_ab (v : VDP) (g : Gfx) (line ntaddr scrollx scrolly : Nat) :
    stages (draw_plane_ab v g line ntaddr scrollx scrolly).gfx.log = stages g.log := by
  unfold draw_plane_ab
  dsimp only
  split
  · rfl
  · split
    · rfl
    · split
      · split
        · split
          · rw [stages_draw_nametable]
          · rfl
        · rw [stages_draw_nametable]
          split
          · rw [stages_draw_nametable]
          · rfl
      · split
        · rw [stages_draw_nametable]
        · rfl

theorem stages_draw_sprites (v : VDP) (g : Gfx) (line : Nat) :
    stages (draw_sprites v g line).gfx.log = stages g.log := by
  obtain ⟨evs, S, h, _⟩ := draw_sprites_inv v g line
  rw [h.log_eq, stages_append]
  have : stages evs = [] := by
    unfold stages
    rw [List.filterMap_eq_nil_iff]
    intro e he
    rcases h.kinds e he with hk | hk
    · cases e <;> first | rfl | cases hk
    · cases e <;> first | rfl | cases hk
  rw [this]
  exact List.append_nil _


set_option maxRecDepth 20000 in
/-- `draw_scanline` in terms of its stages. -/
theorem draw_scanline_eq (v : VDP) (g : Gfx) (line : Nat) :
    draw_scanline v g line =
      if BITS (v.reg 12) 1 2 ≠ 0 then ⟨g, some Fault.interlace_mode⟩
      else if line ≥ 224 then ⟨g, none⟩
      else if BIT (v.reg 0) 0 ≠ 0 then ⟨⟨clear_row g.screen, g.log⟩, none⟩
      else if BIT (v.reg 1) 6 = 0 then
        ⟨⟨fill_backdrop (clear_row g.screen) (v.cram (BITS (v.reg 7) 0 6)), g.log⟩, none⟩
      else if BIT (v.reg 11) 2 ≠ 0 then
        ⟨⟨fill_backdrop (clear_row g.screen) (v.cram (BITS (v.reg 7) 0 6)), g.log⟩,
          some Fault.vertical_scrolling_per_column⟩
      else
        planes_stage v ⟨fill_backdrop (clear_row g.screen) (v.cram (BITS (v.reg 7) 0 6)), g.log⟩
          line := by
  unfold draw_scanline
  by_cases h1 : BITS (v.reg 12) 1 2 ≠ 0
  · rw [if_pos h1, if_pos h1]
  · rw [if_neg h1, if_neg h1]
    by_cases h2 : line ≥ 224
    · rw [if_pos h2, if_pos h2]
    · rw [if_neg h2, if_neg h2]
      by_cases h3 : BIT (v.reg 0) 0 ≠ 0
      · rw [if_pos h3, if_pos h3]
      · rw [if_neg h3, if_neg h3]
        by_cases h4 : BIT (v.reg 1) 6 = 0
        · rw [if_pos h4, if_pos h4]
        · rw [if_neg h4, if_neg h4]
          by_cases h5 : BIT (v.reg 11) 2 ≠ 0
          · rw [if_pos h5, if_pos h5]
          · rw [if_neg h5, if_neg h5]
            rfl

theorem reg_shift7 (v : VDP) (i : Nat) : v.reg i >>> 7 = BIT (v.reg i) 7 := by
  have h : v.reg i < 256 := Nat.mod_lt _ (by decide)
  unfold BIT
  rw [Nat.shiftRight_eq_div_pow]
  have h2 : v.reg i / 2 ^ 7 < 2 := by omega
  interval_cases (v.reg i / 2 ^ 7) <;> rfl

/-- The window statement for an up-trigger with a non-zero threshold. -/
theorem window_stage_up (v : VDP) (g : Gfx) (line : Nat) (ht : v.reg 18 &&& 0x1F ≠ 0)
    (hup : BIT (v.reg 18) 7 = 0) :
    window_stage v g line =
      if line ≤ (v.reg 18 &&& 0x1F) * 8 then
        (⟨draw_plane_w v (g.emit (Event.enter Layer.window)) line, none⟩, true)
      else (⟨g, none⟩, false) := by
  unfold window_stage
  rw [if_pos ht, reg_shift7, hup]
  by_cases hle : line ≤ (v.reg 18 &&& 0x1F) * 8
  · rw [if_neg (fun h => h.1 rfl), if_pos ⟨fun h => h rfl, hle⟩, if_pos hle]
  · rw [if_neg (fun h => h.1 rfl), if_neg (fun h => hle h.2), if_neg hle]

/-- The window statement for a down-trigger with a non-zero threshold. -/
theorem window_stage_down (v : VDP) (g : Gfx) (line : Nat) (ht : v.reg 18 &&& 0x1F ≠ 0)
    (hdown : BIT (v.reg 18) 7 ≠ 0) :
    window_stage v g line =
      if line ≥ (v.reg 18 &&& 0x1F) * 8 then (⟨g, some Fault.winv_down_scroll⟩, true)
      else (⟨g, none⟩, false) := by
  unfold window_stage
  rw [if_pos ht, reg_shift7]
  by_cases hge : line ≥ (v.reg 18 &&& 0x1F) * 8
  · rw [if_pos ⟨hdown, hge⟩, if_pos hge]
  · rw [if_neg (fun h => hge h.2), if_neg (fun h => h.1 hdown), if_neg hge]

/-- Plane A and the sprites, when the window has not been drawn and the plane
size codes are valid. -/
theorem plane_a_and_sprites_plane (v : VDP) (g : Gfx) (line hsa vsa : Nat)
    (hwidth : BITS (v.reg 16) 0 2 ≠ 2) (hheight : BITS (v.reg 16) 4 2 ≠ 2) :
    (plane_a_and_sprites v line hsa vsa (⟨g, none⟩, false)).fault = none ∧
    stages (plane_a_and_sprites v line hsa vsa (⟨g, none⟩, false)).gfx.log =
      stages g.log ++ [Layer.plane_a, Layer.sprites] := by
  have hfault : (draw_plane_ab v (g.emit (Event.enter Layer.plane_a)) line v.nametable_A
      hsa vsa).fault = none := by
    rw [draw_plane_ab_fault, if_neg hwidth, if_neg hheight]
  unfold plane_a_and_sprites
  dsimp only
  rw [if_pos (by decide)]
  split
  · rename_i f hf
    rw [hfault] at hf
    cases hf
  · refine ⟨rfl, ?_⟩
    show stages (draw_sprites v _ line).gfx.log = _
    rw [stages_draw_sprites]
    show stages (_ ++ [Event.enter Layer.sprites]) = _
    rw [stages_append, stages_draw_plane_ab]
    show stages (g.log ++ [Event.enter Layer.plane_a]) ++ _ = _
    rw [stages_append, List.append_assoc]
    rfl

/-- The sprites alone, when the window has been drawn. -/
theorem plane_a_and_sprites_window (v : VDP) (g : Gfx) (line hsa vsa : Nat) :
    (plane_a_and_sprites v line hsa vsa (⟨g, none⟩, true)).fault = none ∧
    stages (plane_a_and_sprites v line hsa vsa (⟨g, none⟩, true)).gfx.log =
      stages g.log ++ [Layer.sprites] := by
  unfold plane_a_and_sprites
  dsimp only
  rw [if_neg (by decide)]
  refine ⟨rfl, ?_⟩
  show stages (draw_sprites v _ line).gfx.log = _
  rw [stages_draw_sprites]
  show stages (g.log ++ [Event.enter Layer.sprites]) = _
  rw [stages_append]
  rfl

/-- With all gates open and no fault configuration, `draw_scanline` is
`planes_stage` after the backdrop loop. -/
theorem draw_scanline_planes (v : VDP) (g : Gfx) (line : Nat) (hline : line < 224)
    (hinterlace : BITS (v.reg 12) 1 2 = 0) (hdisplay : BIT (v.reg 0) 0 = 0)
    (hplanes : BIT (v.reg 1) 6 ≠ 0) (hvscroll : BIT (v.reg 11) 2 = 0) :
    draw_scanline v g line =
      planes_stage v
        ⟨fill_backdrop (clear_row g.screen) (v.cram (BITS (v.reg 7) 0 6)), g.log⟩ line := by
  have hl : ¬ line ≥ 224 := by omega
  rw [draw_scanline_eq, if_neg (by rw [hinterlace]; decide), if_neg hl,
    if_neg (by rw [hdisplay]; decide), if_neg hplanes, if_neg (by rw [hvscroll]; decide)]

/-! ## The renderers called on a line with a window threshold -/

/-- The renderers called on a line with an up-triggered window, by their
labels in the log: Plane B, then the Window plane if `line ≤ t*8` and Plane A
otherwise, then the sprites; no assert fails. -/
theorem draw_scanline_up_stages (v : VDP) (g : Gfx) (line : Nat) (hline : line < 224)
    (hinterlace : BITS (v.reg 12) 1 2 = 0) (hdisplay : BIT (v.reg 0) 0 = 0)
    (hplanes : BIT (v.reg 1) 6 ≠ 0) (hvscroll : BIT (v.reg 11) 2 = 0)
    (hwidth : BITS (v.reg 16) 0 2 ≠ 2) (hheight : BITS (v.reg 16) 4 2 ≠ 2)
    (ht : v.reg 18 &&& 0x1F ≠ 0) (hup : BIT (v.reg 18) 7 = 0) :
    (draw_scanline v g line).fault = none ∧
    stages (draw_scanline v g line).gfx.log =
      stages g.log ++
        (if line ≤ (v.reg 18 &&& 0x1F) * 8 then [Layer.plane_b, Layer.window, Layer.sprites]
         else [Layer.plane_b, Layer.plane_a, Layer.sprites]) := by
  rw [draw_scanline_planes v g line hline hinterlace hdisplay hplanes hvscroll]
  unfold planes_stage
  dsimp only
  have hfault : ∀ g2 a b c, (draw_plane_ab v g2 line a b c).fault = none := by
    intro g2 a b c
    rw [draw_plane_ab_fault, if_neg hwidth, if_neg hheight]
  have hB : ∀ g2 a b c, stages (draw_plane_ab v (Gfx.emit ⟨g2, g.log⟩
      (Event.enter Layer.plane_b)) line a b c).gfx.log = stages g.log ++ [Layer.plane_b] := by
    intro g2 a b c
    rw [stages_draw_plane_ab]
    show stages (g.log ++ [Event.enter Layer.plane_b]) = _
    rw [stages_append]
    rfl
  split
  · rename_i f hf
    rw [hfault] at hf
    cases hf
  · rw [window_stage_up v _ line ht hup]
    by_cases hle : line ≤ (v.reg 18 &&& 0x1F) * 8
    · rw [if_pos hle, if_pos hle]
      dsimp only
      obtain ⟨h1, h2⟩ := plane_a_and_sprites_window v
        (draw_plane_w v (Gfx.emit (draw_plane_ab v (Gfx.emit
          ⟨fill_backdrop (clear_row g.screen) (v.cram (BITS (v.reg 7) 0 6)), g.log⟩
          (Event.enter Layer.plane_b)) line v.nametable_B (get_hscroll v line).2
          (v.vsram 1 &&& 0x3FF)).gfx (Event.enter Layer.window)) line)
        line (get_hscroll v line).1 (v.vsram 0 &&& 0x3FF)
      refine ⟨h1, ?_⟩
      rw [h2, stages_draw_plane_w]
      show stages (_ ++ [Event.enter Layer.window]) ++ _ = _
      rw [stages_append, hB, List.append_assoc, List.append_assoc]
      rfl
    · rw [if_neg hle, if_neg hle]
      dsimp only
      obtain ⟨h1, h2⟩ := plane_a_and_sprites_plane v
        (draw_plane_ab v (Gfx.emit
          ⟨fill_backdrop (clear_row g.screen) (v.cram (BITS (v.reg 7) 0 6)), g.log⟩
          (Event.enter Layer.plane_b)) line v.nametable_B (get_hscroll v line).2
          (v.vsram 1 &&& 0x3FF)).gfx
        line (get_hscroll v line).1 (v.vsram 0 &&& 0x3FF) hwidth hheight
      refine ⟨h1, ?_⟩
      rw [h2, hB, List.append_assoc]
      rfl

/-! ## C9: down-triggered window -/

/-- C9, as stated, fails: with display and planes enabled, threshold 10 and
down-trigger (register 18 = `0x8A`), rendering line 80 (`80 ≥ 10*8`) raises
the fault `winv down scroll` instead of completing. -/
theorem window_down_trigger_faults :
    ((window_vdp 0x8A).reg 18 &&& 0x1F = 10 ∧ BIT ((window_vdp 0x8A).reg 18) 7 = 1 ∧
      BIT ((window_vdp 0x8A).reg 0) 0 = 0 ∧ BIT ((window_vdp 0x8A).reg 1) 6 = 1) ∧
    (draw_scanline (window_vdp 0x8A) ⟨stale_buffer, []⟩ 80).fault =
      some Fault.winv_down_scroll ∧
    gfx_draw_scanline (window_vdp 0x8A) stale_buffer 80 = Except.error Fault.winv_down_scroll := by
  have h : (draw_scanline (window_vdp 0x8A) ⟨stale_buffer, []⟩ 80).fault =
      some Fault.winv_down_scroll := by decide
  refine ⟨by decide, h, ?_⟩
  unfold gfx_draw_scanline
  dsimp only
  rw [h]

/-- The renderers called on a line with a down-triggered window, by their
labels in the log: for `line ≥ t*8` Plane B, then the fault `winv down
scroll`; for `line < t*8` Plane B, Plane A and the sprites, without a fault. -/
theorem draw_scanline_down_stages (v : VDP) (g : Gfx) (line : Nat) (hline : line < 224)
    (hinterlace : BITS (v.reg 12) 1 2 = 0) (hdisplay : BIT (v.reg 0) 0 = 0)
    (hplanes : BIT (v.reg 1) 6 ≠ 0) (hvscroll : BIT (v.reg 11) 2 = 0)
    (hwidth : BITS (v.reg 16) 0 2 ≠ 2) (hheight : BITS (v.reg 16) 4 2 ≠ 2)
    (ht : v.reg 18 &&& 0x1F ≠ 0) (hdown : BIT (v.reg 18) 7 ≠ 0) :
    (line ≥ (v.reg 18 &&& 0x1F) * 8 →
      (draw_scanline v g line).fault = some Fault.winv_down_scroll ∧
      stages (draw_scanline v g line).gfx.log = stages g.log ++ [Layer.plane_b]) ∧
    (line < (v.reg 18 &&& 0x1F) * 8 →
      (draw_scanline v g line).fault = none ∧
      stages (draw_scanline v g line).gfx.log =
        stages g.log ++ [Layer.plane_b, Layer.plane_a, Layer.sprites]) := by
  rw [draw_scanline_planes v g line hline hinterlace hdisplay hplanes hvscroll]
  unfold planes_stage
  dsimp only
  have hfault : ∀ g2 a b c, (draw_plane_ab v g2 line a b c).fault = none := by
    intro g2 a b c
    rw [draw_plane_ab_fault, if_neg hwidth, if_neg hheight]
  have hB : ∀ g2 a b c, stages (draw_plane_ab v (Gfx.emit ⟨g2, g.log⟩
      (Event.enter Layer.plane_b)) line a b c).gfx.log = stages g.log ++ [Layer.plane_b] := by
    intro g2 a b c
    rw [stages_draw_plane_ab]
    show stages (g.log ++ [Event.enter Layer.plane_b]) = _
    rw [stages_append]
    rfl
  split
  · rename_i f hf
    rw [hfault] at hf
    cases hf
  · rw [window_stage_down v _ line ht hdown]
    constructor
    · intro hge
      rw [if_pos hge]
      dsimp only
      exact ⟨rfl, hB _ _ _ _⟩
    · intro hlt
      rw [if_neg (by omega)]
      dsimp only
      obtain ⟨h1, h2⟩ := plane_a_and_sprites_plane v
        (draw_plane_ab v (Gfx.emit
          ⟨fill_backdrop (clear_row g.screen) (v.cram (BITS (v.reg 7) 0 6)), g.log⟩
          (Event.enter Layer.plane_b)) line v.nametable_B (get_hscroll v line).2
          (v.vsram 1 &&& 0x3FF)).gfx
        line (get_hscroll v line).1 (v.vsram 0 &&& 0x3FF) hwidth hheight
      refine ⟨h1, ?_⟩
      rw [h2, hB, List.append_assoc]
      rfl

/-! ## C10: fault configurations -/

/-- C10, as stated, fails: in `gated_vdp` per-column vertical scroll is
requested and the plane width code is the reserved value 2, but planes are
disabled (register 1 bit 6 clear); rendering line 10 raises no fault and
returns the backdrop row. -/
theorem gated_configuration_raises_no_fault :
    (BIT (gated_vdp.reg 11) 2 = 1 ∧ BITS (gated_vdp.reg 16) 0 2 = 2 ∧
      BITS (gated_vdp.reg 12) 1 2 = 0 ∧ BIT (gated_vdp.reg 1) 6 = 0) ∧
    (draw_scanline gated_vdp ⟨stale_buffer, []⟩ 10).fault = none ∧
    gfx_draw_scanline gated_vdp stale_buffer 10 =
      Except.ok (List.replicate 320 ⟨219, 36, 255, 0⟩) := by
  have h : (draw_scanline gated_vdp ⟨stale_buffer, []⟩ 10).fault = none := by decide
  refine ⟨by decide, h, ?_⟩
  unfold gfx_draw_scanline
  rw [draw_scanline_backdrop gated_vdp ⟨stale_buffer, []⟩ 10 (by decide) (by decide)
    (by decide) (by decide)]
  dsimp only
  refine congrArg Except.ok ?_
  rw [List.eq_replicate_iff]
  refine ⟨by rw [List.length_map, List.length_range]; rfl, ?_⟩
  intro c hc
  rw [List.mem_map] at hc
  obtain ⟨x, hx, rfl⟩ := hc
  rw [List.mem_range] at hx
  exact (read_backdrop stale_buffer _ (x : Int) (by omega)
    (by simp only [SCREEN_WIDTH] at hx; omega)).trans rfl

/-- A failed assert of the Plane B call ends `planes_stage` in the state in
which Plane B was called. -/
theorem planes_stage_faulty (v : VDP) (g : Gfx) (line : Nat) (f : Fault)
    (hf : (draw_plane_ab v (g.emit (Event.enter Layer.plane_b)) line v.nametable_B
      (get_hscroll v line).2 (v.vsram 1 &&& 0x3FF)).fault = some f)
    (hcode : BITS (v.reg 16) 0 2 = 2 ∨ BITS (v.reg 16) 4 2 = 2) :
    planes_stage v g line = ⟨⟨g.screen, g.log ++ [Event.enter Layer.plane_b]⟩, some f⟩ := by
  unfold planes_stage
  dsimp only
  split
  · rename_i f2 hf2
    rw [hf] at hf2
    injection hf2 with hf2
    rw [draw_plane_ab_faulty _ _ _ _ _ _ hcode, hf2]
    rfl
  · rename_i hf2
    rw [hf] at hf2
    cases hf2

/-- C10 (amended): for every line in `[0, 224)`: if interlace is requested
(register 12 bits 1-2 non-zero) the render raises a fault before touching the
row; if interlace is not requested, the display is enabled and planes are
enabled, then a request for per-column vertical scroll (register 11 bit 2)
raises a fault right after the backdrop loop, and otherwise a plane width
code 2, or else a plane height code 2, raises a fault inside the call of the
Plane B renderer before it draws anything: in each case the row holds the
backdrop only and no pattern has been drawn. With the display disabled or
planes disabled (and no interlace) no fault is raised. -/
theorem faults_before_planes (v : VDP) (g : Gfx) (line : Nat) (hline : line < 224) :
    (BITS (v.reg 12) 1 2 ≠ 0 →
      draw_scanline v g line = ⟨g, some Fault.interlace_mode⟩) ∧
    (BITS (v.reg 12) 1 2 = 0 → BIT (v.reg 0) 0 = 0 → BIT (v.reg 1) 6 ≠ 0 →
      (BIT (v.reg 11) 2 ≠ 0 →
        draw_scanline v g line =
          ⟨⟨fill_backdrop (clear_row g.screen) (v.cram (BITS (v.reg 7) 0 6)), g.log⟩,
            some Fault.vertical_scrolling_per_column⟩) ∧
      (BIT (v.reg 11) 2 = 0 → BITS (v.reg 16) 0 2 = 2 →
        draw_scanline v g line =
          ⟨⟨fill_backdrop (clear_row g.screen) (v.cram (BITS (v.reg 7) 0 6)),
            g.log ++ [Event.enter Layer.plane_b]⟩, some Fault.invalid_ntwidth⟩) ∧
      (BIT (v.reg 11) 2 = 0 → BITS (v.reg 16) 0 2 ≠ 2 → BITS (v.reg 16) 4 2 = 2 →
        draw_scanline v g line =
          ⟨⟨fill_backdrop (clear_row g.screen) (v.cram (BITS (v.reg 7) 0 6)),
            g.log ++ [Event.enter Layer.plane_b]⟩, some Fault.invalid_ntheight⟩)) ∧
    (BITS (v.reg 12) 1 2 = 0 → BIT (v.reg 0) 0 ≠ 0 ∨ BIT (v.reg 1) 6 = 0 →
      (draw_scanline v g line).fault = none) := by
  have hl : ¬ line ≥ 224 := by omega
  refine ⟨?_, ?_, ?_⟩
  · intro hi
    rw [draw_scanline_eq, if_pos hi]
  · intro hi hd hp
    have hplane : ∀ (f : Fault),
        (draw_plane_ab v
          (Gfx.emit ⟨fill_backdrop (clear_row g.screen) (v.cram (BITS (v.reg 7) 0 6)), g.log⟩
            (Event.enter Layer.plane_b)) line v.nametable_B (get_hscroll v line).2
          (v.vsram 1 &&& 0x3FF)).fault = some f →
        BITS (v.reg 16) 0 2 = 2 ∨ BITS (v.reg 16) 4 2 = 2 →
        planes_stage v
          ⟨fill_backdrop (clear_row g.screen) (v.cram (BITS (v.reg 7) 0 6)), g.log⟩ line =
          ⟨⟨fill_backdrop (clear_row g.screen) (v.cram (BITS (v.reg 7) 0 6)),
            g.log ++ [Event.enter Layer.plane_b]⟩, some f⟩ := by
      intro f hf hcode
      have h := planes_stage_faulty v
        ⟨fill_backdrop (clear_row g.screen) (v.cram (BITS (v.reg 7) 0 6)), g.log⟩ line f hf hcode
      dsimp only at h
      exact h
    refine ⟨?_, ?_, ?_⟩
    · intro hv
      rw [draw_scanline_eq, if_neg (by rw [hi]; decide), if_neg hl,
        if_neg (by rw [hd]; decide), if_neg hp, if_pos hv]
    · intro hv hw
      rw [draw_scanline_planes v g line hline hi hd hp hv]
      exact hplane _ (by rw [draw_plane_ab_fault, if_pos hw]) (Or.inl hw)
    · intro hv hw hh
      rw [draw_scanline_planes v g line hline hi hd hp hv]
      exact hplane _ (by rw [draw_plane_ab_fault, if_neg hw, if_pos hh]) (Or.inr hh)
  · intro hi hgate
    rw [draw_scanline_eq, if_neg (by rw [hi]; decide), if_neg hl]
    by_cases hd : BIT (v.reg 0) 0 ≠ 0
    · rw [if_pos hd]
    · rw [if_neg hd]
      rcases hgate with h | h
      · exact absurd h hd
      · rw [if_pos h]

/-- Witness of C10 (amended): the reserved width code with planes enabled
faults inside the Plane B call, before any pattern is drawn; the same code
behind the plane gate does not fault. -/
theorem faults_before_planes_witness :
    (BITS (reserved_width_vdp.reg 16) 0 2 = 2 ∧ BIT (reserved_width_vdp.reg 1) 6 ≠ 0) ∧
    (draw_scanline reserved_width_vdp ⟨stale_buffer, []⟩ 10).fault =
      some Fault.invalid_ntwidth ∧
    (draw_scanline reserved_width_vdp ⟨stale_buffer, []⟩ 10).gfx.log =
      [Event.enter Layer.plane_b] ∧
    (draw_scanline gated_vdp ⟨stale_buffer, []⟩ 10).fault = none :=
  have h := ((faults_before_planes reserved_width_vdp ⟨stale_buffer, []⟩ 10 (by decide)).2.1
    (by decide) (by decide) (by decide)).2.1 (by decide) (by decide)
  ⟨by decide, congrArg Run.fault h, congrArg (fun r => r.gfx.log) h,
   (faults_before_planes gated_vdp ⟨stale_buffer, []⟩ 10 (by decide)).2.2 (by decide)
     (Or.inr (by decide))⟩


/-! ## What the nametable and plane renderers log -/

theorem draw_nametable_log (v : VDP) (paty : Nat) :
    ∀ (n : Nat) (x : Int) (nt : Nat) (g : Gfx),
      (draw_nametable v paty n x nt g).log = g.log ++ nametable_events v paty n x nt := by
  intro n
  induction n with
  | zero => intro x nt g; exact (List.append_nil _).symm
  | succ n ih =>
    intro x nt g
    unfold draw_nametable nametable_events
    dsimp only
    rw [ih, draw_pattern_log]
    show ((g.log ++ [Event.name_fetch nt]) ++ [_]) ++ _ = _
    simp only [List.append_assoc, List.singleton_append]
    rfl

theorem and_seven (x : Nat) : x &&& 7 = x % 8 :=
  Nat.and_pow_two_sub_one_eq_mod x 3

theorem shift_three (x : Nat) : x >>> 3 = x / 8 :=
  Nat.shiftRight_eq_div_pow x 3

/-- The log of `draw_plane_ab` when no assert fails. -/
theorem draw_plane_ab_log (v : VDP) (g : Gfx) (line ntaddr scrollx scrolly : Nat)
    (hw : BITS (v.reg 16) 0 2 ≠ 2) (hh : BITS (v.reg 16) 4 2 ≠ 2) :
    (draw_plane_ab v g line ntaddr scrollx scrolly).gfx.log =
      g.log ++ plane_events v line ntaddr scrollx scrolly := by
  have hlt : scrollx % ((BITS (v.reg 16) 0 2 + 1) * 32 * 8) <
      (BITS (v.reg 16) 0 2 + 1) * 32 * 8 := Nat.mod_lt _ (by omega)
  unfold draw_plane_ab plane_events
  dsimp only
  rw [if_neg hw, if_neg hh]
  by_cases h1 : scrollx % ((BITS (v.reg 16) 0 2 + 1) * 32 * 8) < SCREEN_WIDTH
  · rw [if_pos h1, if_pos h1]
    by_cases h2 : scrollx % ((BITS (v.reg 16) 0 2 + 1) * 32 * 8) > 0
    · rw [if_pos h2, if_pos h2, if_neg (by omega)]
      dsimp only
      rw [draw_nametable_log, draw_nametable_log, List.append_assoc]
    · rw [if_neg h2, if_neg h2]
      dsimp only
      rw [draw_nametable_log, List.append_nil]
  · rw [if_neg h1, if_neg h1]
    by_cases h2 : scrollx % ((BITS (v.reg 16) 0 2 + 1) * 32 * 8) > 0
    · rw [if_pos h2, if_pos h2, if_neg (by omega)]
      dsimp only
      rw [draw_nametable_log, List.nil_append]
    · rw [if_neg h2, if_neg h2]
      dsimp only
      rw [List.append_nil, List.append_nil]


/-! ## C11: every write lands inside the padded buffer -/

theorem nametable_events_inside (v : VDP) (paty : Nat) :
    ∀ (n : Nat) (x : Int) (nt : Nat), -32 ≤ x → x + 8 * (n : Int) ≤ 352 →
      ∀ e ∈ nametable_events v paty n x nt, e.inside := by
  intro n
  induction n with
  | zero => intro x nt _ _ e he; exact absurd he (List.not_mem_nil e)
  | succ n ih =>
    intro x nt h0 h1 e he
    unfold nametable_events at he
    rcases List.mem_cons.mp he with rfl | he
    · exact True.intro
    · rcases List.mem_cons.mp he with rfl | he
      · exact ⟨h0, by push_cast at h1; omega⟩
      · exact ih (x + 8) (nt + 2) (by omega) (by push_cast at h1; omega) e he

theorem plane_events_inside (v : VDP) (line ntaddr scrollx scrolly : Nat) :
    ∀ e ∈ plane_events v line ntaddr scrollx scrolly, e.inside := by
  intro e he
  unfold plane_events at he
  dsimp only at he
  rcases List.mem_append.mp he with he | he
  · split at he
    · rename_i h1
      unfold SCREEN_WIDTH at h1 he
      exact nametable_events_inside v _ _ _ _ (by omega) (by omega) e he
    · exact absurd he (List.not_mem_nil e)
  · split at he
    · simp only [and_seven] at he
      unfold SCREEN_WIDTH at he
      exact nametable_events_inside v _ _ _ _ (by omega) (by omega) e he
    · exact absurd he (List.not_mem_nil e)

theorem inside_emit_enter (g : Gfx) (l : Layer) (h : ∀ e ∈ g.log, e.inside) :
    ∀ e ∈ (g.emit (Event.enter l)).log, e.inside := by
  intro e he
  rcases List.mem_append.mp he with he | he
  · exact h e he
  · rw [List.mem_singleton] at he
    rw [he]
    exact True.intro

theorem draw_plane_ab_inside (v : VDP) (g : Gfx) (line ntaddr scrollx scrolly : Nat)
    (h : ∀ e ∈ g.log, e.inside) :
    ∀ e ∈ (draw_plane_ab v g line ntaddr scrollx scrolly).gfx.log, e.inside := by
  by_cases hcode : BITS (v.reg 16) 0 2 = 2 ∨ BITS (v.reg 16) 4 2 = 2
  · rw [draw_plane_ab_faulty v g line ntaddr scrollx scrolly hcode]
    exact h
  · rw [draw_plane_ab_log v g line ntaddr scrollx scrolly (fun hc => hcode (Or.inl hc))
      (fun hc => hcode (Or.inr hc))]
    intro e he
    rcases List.mem_append.mp he with he | he
    · exact h e he
    · exact plane_events_inside v line ntaddr scrollx scrolly e he

theorem draw_plane_w_inside (v : VDP) (g : Gfx) (y : Nat) (h : ∀ e ∈ g.log, e.inside) :
    ∀ e ∈ (draw_plane_w v g y).log, e.inside := by
  unfold draw_plane_w
  dsimp only
  rw [draw_nametable_log]
  intro e he
  rcases List.mem_append.mp he with he | he
  · exact h e he
  · exact nametable_events_inside v _ _ _ _ (by decide) (by decide) e he

theorem sprite_w_le (v : VDP) (start_table idx : Nat) : sprite_w v start_table idx ≤ 4 := by
  unfold sprite_w
  have := BITS_lt (v.vram (start_table + idx * 8 + 2)) 2 2
  omega

theorem sprite_cells_inside (v : VDP) (paty : Nat) (sx : Int) (sh fliph slot : Nat) :
    ∀ (k p name : Nat) (a : SpriteAcc), (∀ e ∈ a.gfx.log, e.inside) →
      -32 ≤ sx + (p : Int) * 8 → sx + ((p : Int) + (k : Int)) * 8 ≤ 352 →
      ∀ e ∈ (sprite_cells v paty sx sh fliph slot k p name a).gfx.log, e.inside := by
  intro k
  induction k with
  | zero => intro p name a h _ _; exact h
  | succ k ih =>
    intro p name a h h0 h1
    have hlog : ∀ e ∈ (draw_pattern v
        (a.gfx.emit (Event.sprite_cell slot p a.num_visible a.num_pixels))
        (sx + (p : Int) * 8) name paty).log, e.inside := by
      intro e he
      rw [draw_pattern_log] at he
      rcases List.mem_append.mp he with he | he
      · rcases List.mem_append.mp he with he | he
        · exact h e he
        · rw [List.mem_singleton] at he
          rw [he]
          exact True.intro
      · rw [List.mem_singleton] at he
        rw [he]
        exact ⟨h0, by push_cast at h1; omega⟩
    unfold sprite_cells
    dsimp only
    split
    · exact hlog
    · exact ih _ _ _ hlog (by push_cast; omega) (by push_cast at h1 ⊢; omega)

theorem draw_sprite_inside (v : VDP) (line start_table idx slot : Nat) (a : SpriteAcc)
    (h : ∀ e ∈ a.gfx.log, e.inside) :
    ∀ e ∈ (draw_sprite v line start_table idx slot a).gfx.log, e.inside := by
  rw [draw_sprite_eq]
  split
  · rw [sprite_count_gfx]
    split
    · rename_i hclip
      have hw := sprite_w_le v start_table idx
      unfold sprite_in_clip SCREEN_WIDTH at hclip
      exact sprite_cells_inside v _ _ _ _ slot _ 0 _ a h (by push_cast; omega)
        (by push_cast at hclip ⊢; omega)
    · exact h
  · exact h

theorem sprite_loop_inside (v : VDP) (line start_table : Nat) (indices : List Nat) :
    ∀ (i : Nat) (a : SpriteAcc), (∀ e ∈ a.gfx.log, e.inside) →
      ∀ e ∈ (sprite_loop v line start_table indices i a).gfx.log, e.inside := by
  intro i
  induction i with
  | zero => intro a h; exact h
  | succ i ih =>
    intro a h
    unfold sprite_loop
    dsimp only
    split
    · exact draw_sprite_inside v line start_table _ i a h
    · exact ih _ (draw_sprite_inside v line start_table _ i a h)

theorem draw_sprites_inside (v : VDP) (g : Gfx) (line : Nat) (h : ∀ e ∈ g.log, e.inside) :
    ∀ e ∈ (draw_sprites v g line).gfx.log, e.inside := by
  unfold draw_sprites
  exact sprite_loop_inside v line _ _ _ _ h

theorem planes_stage_inside (v : VDP) (g : Gfx) (line : Nat) (h : ∀ e ∈ g.log, e.inside) :
    ∀ e ∈ (planes_stage v g line).gfx.log, e.inside := by
  have hb := draw_plane_ab_inside v (g.emit (Event.enter Layer.plane_b)) line v.nametable_B
    (get_hscroll v line).2 (v.vsram 1 &&& 0x3FF) (inside_emit_enter g _ h)
  unfold planes_stage
  dsimp only
  split
  · exact hb
  · have hwin : ∀ e ∈ (window_stage v (draw_plane_ab v (g.emit (Event.enter Layer.plane_b))
        line v.nametable_B (get_hscroll v line).2 (v.vsram 1 &&& 0x3FF)).gfx line).1.gfx.log,
        e.inside := by
      unfold window_stage
      split
      · split
        · exact hb
        · split
          · exact draw_plane_w_inside v _ line (inside_emit_enter _ _ hb)
          · exact hb
      · exact hb
    split
    · exact hwin
    · unfold plane_a_and_sprites
      dsimp only
      have hra : ∀ e ∈ (if ¬ (window_stage v (draw_plane_ab v
          (g.emit (Event.enter Layer.plane_b)) line v.nametable_B (get_hscroll v line).2
          (v.vsram 1 &&& 0x3FF)).gfx line).2 = true then
            draw_plane_ab v ((window_stage v (draw_plane_ab v
              (g.emit (Event.enter Layer.plane_b)) line v.nametable_B (get_hscroll v line).2
              (v.vsram 1 &&& 0x3FF)).gfx line).1.gfx.emit (Event.enter Layer.plane_a)) line
              v.nametable_A (get_hscroll v line).1 (v.vsram 0 &&& 0x3FF)
          else (window_stage v (draw_plane_ab v (g.emit (Event.enter Layer.plane_b))
            line v.nametable_B (get_hscroll v line).2 (v.vsram 1 &&& 0x3FF)).gfx line).1).gfx.log,
          e.inside := by
        split
        · exact draw_plane_ab_inside v _ line _ _ _ (inside_emit_enter _ _ hwin)
        · exact hwin
      split
      · exact hra
      · exact draw_sprites_inside v _ line (inside_emit_enter _ _ hra)

theorem draw_scanline_inside (v : VDP) (g : Gfx) (line : Nat) (h : ∀ e ∈ g.log, e.inside) :
    ∀ e ∈ (draw_scanline v g line).gfx.log, e.inside := by
  rw [draw_scanline_eq]
  split
  · exact h
  · split
    · exact h
    · split
      · exact h
      · split
        · exact h
        · split
          · exact h
          · exact planes_stage_inside v _ line h

/-- C11: every `draw_pattern` call made while rendering a line (planes B, A,
Window and sprites, for every scroll value and every sprite x, y, size and
link) writes only cells `x … x+7` with `-32 ≤ x` and `x + 7 < 352`: all
inside the buffer with its 32 cells of padding on each side. The only other
writes, `memset` and the backdrop loop, go to the cells `0 … 319`. -/
theorem writes_inside_buffer (v : VDP) (buffer : Screen) (line : Nat) :
    ∀ e ∈ (draw_scanline v ⟨buffer, []⟩ line).gfx.log,
      ∀ y ∈ e.cells, -32 ≤ y ∧ y < 352 := by
  intro e he y hy
  have hin := draw_scanline_inside v ⟨buffer, []⟩ line
    (fun e he => absurd he (List.not_mem_nil e)) e he
  cases e with
  | pattern x name paty =>
    unfold Event.cells at hy
    rw [List.mem_map] at hy
    obtain ⟨k, hk, rfl⟩ := hy
    rw [List.mem_range] at hk
    have h1 : -32 ≤ x ∧ x + 8 ≤ 352 := hin
    constructor <;> omega
  | enter l => exact absurd hy (List.not_mem_nil y)
  | name_fetch a => exact absurd hy (List.not_mem_nil y)
  | sprite_cell s p nv np => exact absurd hy (List.not_mem_nil y)

set_option maxRecDepth 100000 in
/-- Witness of C11: on line 0 of `wide_plane_vdp` the first tile of plane B is
drawn at `x = 0`, and its last cell, 7, is inside the buffer. -/
theorem writes_inside_buffer_witness :
    (Event.pattern 0 0 0 ∈ (draw_scanline wide_plane_vdp ⟨stale_buffer, []⟩ 0).gfx.log ∧
      (7 : Int) ∈ (Event.pattern 0 0 0).cells) ∧
    ((-32 : Int) ≤ 7 ∧ (7 : Int) < 352) :=
  ⟨⟨by decide, by decide⟩,
   writes_inside_buffer wide_plane_vdp stale_buffer 0 (Event.pattern 0 0 0) (by decide) 7
     (by decide)⟩

/-! ## C12, C15: which entries the traversal visits and records -/

theorem chain_entry_lt (v : VDP) (start_table : Nat) : ∀ k, chain_entry v start_table k < 128 := by
  intro k
  cases k with
  | zero => exact Nat.zero_lt_succ 127
  | succ k => exact BITS_lt _ 0 7

/-- The traversal loop records the visiting sequence `e(0), e(1), …` as long
as the link of the entry visited is not 0: an entry is recorded only if its
link is non-zero, and the entry at which the loop breaks is not recorded. -/
theorem sprite_chain_loop_spec (v : VDP) (start_table : Nat) :
    ∀ (k ns sidx : Nat) (indices : List Nat),
      sidx = chain_entry v start_table ns →
      indices = (List.range ns).map (chain_entry v start_table) →
      (∀ j, j < ns → chain_link v start_table (chain_entry v start_table j) ≠ 0) →
      (sprite_chain_loop v start_table k ns sidx indices).2 =
        (List.range (sprite_chain_loop v start_table k ns sidx indices).1).map
          (chain_entry v start_table) ∧
      (sprite_chain_loop v start_table k ns sidx indices).1 ≤ ns + k ∧
      (∀ j, j < (sprite_chain_loop v start_table k ns sidx indices).1 →
        chain_link v start_table (chain_entry v start_table j) ≠ 0) ∧
      ((sprite_chain_loop v start_table k ns sidx indices).1 < ns + k →
        chain_link v start_table (chain_entry v start_table
          (sprite_chain_loop v start_table k ns sidx indices).1) = 0) := by
  intro k
  induction k with
  | zero =>
    intro ns sidx indices _ hind hlinks
    exact ⟨hind, Nat.le_refl _, hlinks, fun h => absurd h (Nat.lt_irrefl _)⟩
  | succ k ih =>
    intro ns sidx indices hs hind hlinks
    unfold sprite_chain_loop
    dsimp only
    by_cases hl : BITS (v.vram (start_table + sidx * 8 + 3)) 0 7 = 0
    · rw [if_pos hl]
      refine ⟨hind, by omega, hlinks, fun _ => ?_⟩
      show chain_link v start_table (chain_entry v start_table ns) = 0
      rw [← hs]
      exact hl
    · rw [if_neg hl]
      have h := ih (ns + 1) (BITS (v.vram (start_table + sidx * 8 + 3)) 0 7)
        (indices ++ [sidx])
        (by show _ = chain_link v start_table (chain_entry v start_table ns); rw [← hs]; rfl)
        (by rw [List.range_succ, List.map_append, hind, hs]; rfl)
        (by
          intro j hj
          rcases Nat.lt_succ_iff_lt_or_eq.mp hj with hj | rfl
          · exact hlinks j hj
          · rw [← hs]; exact hl)
      refine ⟨h.1, by have := h.2.1; omega, h.2.2.1, fun hlt => h.2.2.2 (by omega)⟩

theorem sprite_chain_spec (v : VDP) (start_table : Nat) :
    (sprite_chain v start_table).2 =
      (List.range (sprite_chain v start_table).1).map (chain_entry v start_table) ∧
    (sprite_chain v start_table).1 ≤ 64 ∧
    (∀ j, j < (sprite_chain v start_table).1 →
      chain_link v start_table (chain_entry v start_table j) ≠ 0) ∧
    ((sprite_chain v start_table).1 < 64 →
      chain_link v start_table (chain_entry v start_table (sprite_chain v start_table).1) = 0) := by
  have h := sprite_chain_loop_spec v start_table 64 0 0 [] rfl rfl
    (fun j hj => absurd hj (Nat.not_lt_zero j))
  unfold sprite_chain
  exact ⟨h.1, by have := h.2.1; omega, h.2.2.1, fun hlt => h.2.2.2 (by omega)⟩

theorem sprite_table_eq_mul (v : VDP) : sprite_table v = (v.reg 5 &&& 0x7F) * 512 := by
  unfold sprite_table
  rw [Nat.shiftLeft_eq]

/-- Every index the traversal records comes from a link byte it has read: the
recorded indices are, in order, the entries whose link byte was read and found
non-zero. -/
theorem sprite_chain_reads_recorded (v : VDP) (start_table : Nat) :
    ∀ (k ns sidx : Nat) (indices : List Nat),
      (sprite_chain_loop v start_table k ns sidx indices).2 =
        indices ++
          ((sprite_chain_reads v start_table k sidx).filter
            (fun a => decide (BITS (v.vram a) 0 7 ≠ 0))).map
            (fun a => (a - 3 - start_table) / 8) := by
  intro k
  induction k with
  | zero => intro ns sidx indices; exact (List.append_nil _).symm
  | succ k ih =>
    intro ns sidx indices
    unfold sprite_chain_loop sprite_chain_reads
    dsimp only
    by_cases hl : BITS (v.vram (start_table + sidx * 8 + 3)) 0 7 = 0
    · rw [if_pos hl, if_pos hl, List.filter_cons_of_neg (by simp [hl])]
      exact (List.append_nil _).symm
    · rw [if_neg hl, if_neg hl, List.filter_cons_of_pos (by simp [hl]), ih, List.map_cons,
        List.append_assoc]
      have : (start_table + sidx * 8 + 3 - 3 - start_table) / 8 = sidx := by omega
      rw [this]
      rfl

/-- The second read of the traversal, when the link of entry 0 is not zero:
the link byte of the entry that link names, whatever it holds. -/
theorem sprite_chain_reads_second (v : VDP) (start_table : Nat)
    (h : BITS (v.vram (start_table + 3)) 0 7 ≠ 0) :
    start_table + BITS (v.vram (start_table + 3)) 0 7 * 8 + 3 ∈
      sprite_chain_reads v start_table 64 0 := by
  have h0 : start_table + 0 * 8 + 3 = start_table + 3 := by omega
  unfold sprite_chain_reads
  dsimp only
  rw [h0, if_neg h]
  unfold sprite_chain_reads
  dsimp only
  exact List.mem_cons_of_mem _ (List.mem_cons_self _ _)

/-- C12: the claim fails on the code, which follows the 7-bit link field
without comparing it with the table capacity. Every recorded index comes from
a link byte read by the traversal and is below 128, not 64, and the bytes of a
visited entry lie in the 1024 bytes, not the 512, that start at the table
base. On `long_link_vdp` (table at address 0) the entries recorded and then
decoded are 0 and 100, and entry 100 lies at the bytes `800 … 807`, outside
the 512-byte table. With the table at the highest base `0xFE00` and the link
of entry 0 equal to 100, the second read of the traversal is at address
`0xFE00 + 803 = 65827`, beyond the 64 KiB of video memory, whatever the
memory holds; so on `far_link_vdp`, where only byte `0xFE03` is set. -/
theorem sprite_link_not_bounded :
    (∀ (v : VDP),
      (sprite_chain v (sprite_table v)).2 =
        ((sprite_chain_reads v (sprite_table v) 64 0).filter
          (fun a => decide (BITS (v.vram a) 0 7 ≠ 0))).map
          (fun a => (a - 3 - sprite_table v) / 8) ∧
      (∀ idx ∈ (sprite_chain v (sprite_table v)).2, idx < 128) ∧
      (∀ k f, f < 8 →
        sprite_table v + chain_entry v (sprite_table v) k * 8 + f < sprite_table v + 1024)) ∧
    (sprite_table long_link_vdp = 0 ∧
      sprite_chain long_link_vdp (sprite_table long_link_vdp) = (2, [0, 100]) ∧
      ¬ (∀ idx ∈ (sprite_chain long_link_vdp (sprite_table long_link_vdp)).2, idx < 64) ∧
      512 ≤ sprite_table long_link_vdp + 100 * 8 ∧
      sprite_table long_link_vdp + 100 * 8 + 7 < 65536) ∧
    (∀ (v : VDP), v.reg 5 &&& 0x7F = 0x7F → BITS (v.vram (0xFE00 + 3)) 0 7 = 100 →
      65827 ∈ sprite_chain_reads v (sprite_table v) 64 0) ∧
    (sprite_chain_reads far_link_vdp (sprite_table far_link_vdp) 64 0 = [0xFE03, 65827] ∧
      (∀ a, 65536 ≤ a → far_link_vdp.VRAM a = 0) ∧
      (65536 : Nat) ≤ 65827) := by
  refine ⟨fun v => ⟨?_, ?_, ?_⟩, ⟨by decide, by decide, ?_, by decide, by decide⟩, ?_,
    ⟨by decide, ?_, by decide⟩⟩
  · have h := sprite_chain_reads_recorded v (sprite_table v) 64 0 0 []
    rw [List.nil_append] at h
    exact h
  · intro idx hidx
    rw [(sprite_chain_spec v (sprite_table v)).1, List.mem_map] at hidx
    obtain ⟨k, _, rfl⟩ := hidx
    exact chain_entry_lt v (sprite_table v) k
  · intro k f hf
    have := chain_entry_lt v (sprite_table v) k
    omega
  · have h : (sprite_chain long_link_vdp (sprite_table long_link_vdp)).2 = [0, 100] := by
      decide
    rw [h]
    decide
  · intro v hbase hlink
    have hst : sprite_table v = 0xFE00 := by
      rw [sprite_table_eq_mul, hbase]
    have h := sprite_chain_reads_second v (sprite_table v)
      (by rw [hst, hlink]; decide)
    rw [hst, hlink] at h
    rw [hst]
    exact h
  · intro a ha
    show (if a = 0xFE00 + 0 * 8 + 3 then 100 else 0) = 0
    rw [if_neg (by omega)]

/-- C15: the claim fails on the code. In general the recorded list is
`e(0), …, e(ns-1)` with `e(0) = 0`, `e(k+1) = link(e(k))`, every recorded
entry has a non-zero link, and when the traversal stops before 64 entries the
entry `e(ns)` whose link is 0 is left out. On `lone_sprite_vdp`, whose entry
0 is a sprite on line 0 with link 0, nothing is recorded and nothing is
drawn. -/
theorem chain_terminator_not_recorded :
    (∀ (v : VDP) (start_table : Nat),
      (sprite_chain v start_table).2 =
        (List.range (sprite_chain v start_table).1).map (chain_entry v start_table) ∧
      (∀ j, j < (sprite_chain v start_table).1 →
        chain_link v start_table (chain_entry v start_table j) ≠ 0) ∧
      ((sprite_chain v start_table).1 < 64 →
        chain_link v start_table
          (chain_entry v start_table (sprite_chain v start_table).1) = 0)) ∧
    (chain_link lone_sprite_vdp (sprite_table lone_sprite_vdp) 0 = 0 ∧
      sprite_on_line lone_sprite_vdp 0 (sprite_table lone_sprite_vdp) 0 ∧
      sprite_in_clip lone_sprite_vdp (sprite_table lone_sprite_vdp) 0 ∧
      sprite_chain lone_sprite_vdp (sprite_table lone_sprite_vdp) = (0, []) ∧
      (draw_sprites lone_sprite_vdp ⟨stale_buffer, []⟩ 0).gfx.log = []) := by
  refine ⟨fun v start_table => ?_, by decide, by decide, by decide, by decide, by decide⟩
  have h := sprite_chain_spec v start_table
  exact ⟨h.1, h.2.2.1, h.2.2.2⟩


/-! ## C13, C17, C18: the two passes of the plane renderer -/

theorem tile_columns_cons (a : Nat) (x : Int) (name paty : Nat) (rest : List Event) :
    tile_columns (Event.name_fetch a :: Event.pattern x name paty :: rest) =
      (a, x) :: tile_columns rest := by
  rw [tile_columns]

theorem tile_columns_nametable (v : VDP) (paty : Nat) (rest : List Event) :
    ∀ (n : Nat) (x : Int) (nt : Nat),
      tile_columns (nametable_events v paty n x nt ++ rest) =
        (List.range n).map (fun (i : Nat) => (nt + 2 * i, x + 8 * (i : Int))) ++
          tile_columns rest := by
  intro n
  induction n with
  | zero => intro x nt; rfl
  | succ n ih =>
    intro x nt
    unfold nametable_events
    rw [List.cons_append, List.cons_append, tile_columns_cons]
    rw [ih, List.range_succ_eq_map, List.map_cons, List.map_map, List.cons_append]
    refine congrArg₂ _ ?_ (congrArg₂ _ (List.map_congr_left ?_) rfl)
    · show (nt, x) = (nt + 2 * 0, x + 8 * ((0 : Nat) : Int))
      rw [Nat.mul_zero, Nat.add_zero, Nat.cast_zero, Int.mul_zero, Int.add_zero]
    · intro i _
      show (nt + 2 + 2 * i, x + 8 + 8 * (i : Int)) = (nt + 2 * (i + 1), x + 8 * ((i + 1 : Nat) : Int))
      refine congrArg₂ _ (by omega) (by push_cast; omega)


theorem tile_columns_nil : tile_columns [] = [] := by
  rw [tile_columns]

/-- The tile columns of the two passes: the first pass draws the columns
`0, 1, …` of the row from cell `s` on, the second pass the columns from
`col = (W - s)/8` on, starting at cell `-((W - s) % 8)`. -/
theorem tile_columns_plane_events (v : VDP) (line ntaddr scrollx scrolly : Nat) :
    tile_columns (plane_events v line ntaddr scrollx scrolly) =
      (if scrollx % plane_width_px v < 320 then
        (List.range ((320 - scrollx % plane_width_px v + 7) / 8)).map
          (fun (i : Nat) => (plane_row_addr v line ntaddr scrolly + 2 * i,
            ((scrollx % plane_width_px v : Nat) : Int) + 8 * (i : Int)))
      else []) ++
      (if scrollx % plane_width_px v > 0 then
        (List.range (min ((BITS (v.reg 16) 0 2 + 1) * 32 -
            (plane_width_px v - scrollx % plane_width_px v) / 8) 40)).map
          (fun (i : Nat) => (plane_row_addr v line ntaddr scrolly +
              (plane_width_px v - scrollx % plane_width_px v) / 8 * 2 + 2 * i,
            -(((plane_width_px v - scrollx % plane_width_px v) % 8 : Nat) : Int) +
              8 * (i : Int)))
      else []) := by
  unfold plane_events plane_width_px plane_row_addr SCREEN_WIDTH
  dsimp only
  simp only [and_seven]
  split
  · rw [tile_columns_nametable]
    split
    · rw [← List.append_nil (nametable_events _ _ _ _ _), tile_columns_nametable,
        tile_columns_nil, List.append_nil]
    · rw [tile_columns_nil]
  · split
    · rw [List.nil_append, ← List.append_nil (nametable_events _ _ _ _ _),
        tile_columns_nametable, tile_columns_nil, List.append_nil, List.nil_append]
    · rw [List.nil_append, tile_columns_nil, List.nil_append]

/-! ## C13: where the scrolled plane lands on the screen -/

/-- C13, as stated, fails: for a plane 64 tiles wide and horizontal scroll
637 (effective scroll 125) the tile column that covers screen `x = 0` is the
entry at offset `2*48` of the row, drawn from cell `-3`: the tile lying
`512 - 125 = 387` pixels into the plane. The tile lying 125 pixels into the
plane (entry `2*15`) is drawn at cell 245. -/
theorem scroll_637_column_at_zero :
    637 % plane_width_px wide_plane_vdp = 125 ∧
    (2 * 48, (-3 : Int)) ∈
      tile_columns (draw_plane_ab wide_plane_vdp ⟨stale_buffer, []⟩ 0 0 637 0).gfx.log ∧
    (2 * (125 / 8), (245 : Int)) ∈
      tile_columns (draw_plane_ab wide_plane_vdp ⟨stale_buffer, []⟩ 0 0 637 0).gfx.log ∧
    ¬ (∀ c ∈ tile_columns (draw_plane_ab wide_plane_vdp ⟨stale_buffer, []⟩ 0 0 637 0).gfx.log,
        c.2 ≤ 0 ∧ 0 < c.2 + 8 → c.1 = 2 * (125 / 8)) := by
  refine ⟨by decide, by decide, by decide, by decide⟩

/-- C13 (amended): a plane 64 tiles wide with horizontal scroll 637 has
effective scroll `637 mod 512 = 125`, and the tile column drawn over screen
`x = 0` is the one lying `512 - 125 = 387` pixels into the wrapped plane. In
general, for plane width `W` pixels, every horizontal scroll `h` and
`s = h mod W`: every tile column `c` of the row is drawn at cell `s + 8c` or
`s + 8c - W` (the plane is shifted right by `s`), and the tile column drawn
over screen `x = 0` is the one lying `(W - s) mod W` pixels into the plane. -/
theorem plane_scroll_shifts_right (v : VDP) (g : Gfx) (line ntaddr h vs : Nat)
    (hw : BITS (v.reg 16) 0 2 ≠ 2) (hh : BITS (v.reg 16) 4 2 ≠ 2) :
    ∃ evs : List Event,
      (draw_plane_ab v g line ntaddr h vs).gfx.log = g.log ++ evs ∧
      (∀ c ∈ tile_columns evs, ∃ col : Nat,
        c.1 = plane_row_addr v line ntaddr vs + 2 * col ∧
        (c.2 = ((h % plane_width_px v : Nat) : Int) + 8 * (col : Int) ∨
         c.2 = ((h % plane_width_px v : Nat) : Int) + 8 * (col : Int) -
           (plane_width_px v : Int))) ∧
      (plane_row_addr v line ntaddr vs +
          2 * ((plane_width_px v - h % plane_width_px v) % plane_width_px v / 8),
        -(((plane_width_px v - h % plane_width_px v) % plane_width_px v % 8 : Nat) : Int)) ∈
        tile_columns evs := by
  have hWpos : 0 < plane_width_px v := by unfold plane_width_px; omega
  have hW : plane_width_px v = (BITS (v.reg 16) 0 2 + 1) * 32 * 8 := rfl
  have hs : h % plane_width_px v < plane_width_px v := Nat.mod_lt _ hWpos
  refine ⟨plane_events v line ntaddr h vs, draw_plane_ab_log v g line ntaddr h vs hw hh, ?_, ?_⟩
  · intro c hc
    rw [tile_columns_plane_events] at hc
    rcases List.mem_append.mp hc with hc | hc
    · split at hc
      · rw [List.mem_map] at hc
        obtain ⟨i, _, rfl⟩ := hc
        exact ⟨i, rfl, Or.inl rfl⟩
      · exact absurd hc (List.not_mem_nil c)
    · split at hc
      · rw [List.mem_map] at hc
        obtain ⟨i, _, rfl⟩ := hc
        refine ⟨(plane_width_px v - h % plane_width_px v) / 8 + i, ?_, Or.inr ?_⟩
        · show _ + _ * 2 + 2 * i = _
          omega
        · show -((((plane_width_px v - h % plane_width_px v) % 8 : Nat)) : Int) + 8 * (i : Int) = _
          push_cast
          omega
      · exact absurd hc (List.not_mem_nil c)
  · rw [tile_columns_plane_events]
    by_cases h0 : h % plane_width_px v = 0
    · have hq : (plane_width_px v - h % plane_width_px v) % plane_width_px v = 0 := by
        rw [h0, Nat.sub_zero, Nat.mod_self]
      rw [hq]
      apply List.mem_append_left
      rw [if_pos (by omega), List.mem_map]
      refine ⟨0, List.mem_range.mpr (by omega), ?_⟩
      rw [h0]
      rfl
    · have hq : (plane_width_px v - h % plane_width_px v) % plane_width_px v =
          plane_width_px v - h % plane_width_px v := Nat.mod_eq_of_lt (by omega)
      rw [hq]
      apply List.mem_append_right
      rw [if_pos (by omega), List.mem_map]
      refine ⟨0, List.mem_range.mpr ?_, ?_⟩
      · have hWeq : plane_width_px v = (BITS (v.reg 16) 0 2 + 1) * 256 := by
          rw [hW]; omega
        omega
      · refine congrArg₂ _ (by omega) ?_
        rw [Nat.cast_zero, Int.mul_zero, Int.add_zero]

/-- Witness of C13 (amended): width 64 tiles, scroll 637. -/
theorem plane_scroll_shifts_right_witness :
    (BITS (wide_plane_vdp.reg 16) 0 2 ≠ 2 ∧ BITS (wide_plane_vdp.reg 16) 4 2 ≠ 2) ∧
    (2 * 48, (-3 : Int)) ∈
      tile_columns (draw_plane_ab wide_plane_vdp ⟨stale_buffer, []⟩ 0 0 637 0).gfx.log := by
  obtain ⟨evs, hlog, _, hzero⟩ :=
    plane_scroll_shifts_right wide_plane_vdp ⟨stale_buffer, []⟩ 0 0 637 0 (by decide) (by decide)
  refine ⟨by decide, ?_⟩
  rw [hlog]
  exact hzero

/-! ## C17: coverage of the visible columns -/

/-- C17: the claim fails on the code. For a plane 64 tiles wide and horizontal
scroll 325 the first pass does not run (`325 ≥ 320`) and the second pass
draws 40 tile columns from cell `-3` on, the cells `-3 … 316`: no
`draw_pattern` call of the plane covers the visible columns 317, 318, 319. -/
theorem scroll_325_leaves_columns_undrawn :
    325 % plane_width_px wide_plane_vdp = 325 ∧
    (tile_columns (draw_plane_ab wide_plane_vdp ⟨stale_buffer, []⟩ 0 0 325 0).gfx.log).map
        Prod.snd = (List.range 40).map (fun (i : Nat) => (-3 : Int) + 8 * (i : Int)) ∧
    (∀ e ∈ (draw_plane_ab wide_plane_vdp ⟨stale_buffer, []⟩ 0 0 325 0).gfx.log,
      (317 : Int) ∉ e.cells ∧ (318 : Int) ∉ e.cells ∧ (319 : Int) ∉ e.cells) := by
  refine ⟨by decide, by decide, by decide⟩

/-! ## C18: the nametable entries a plane reads -/

/-- C18: the claim fails on the code. For a plane 32 tiles wide (width code
0) and horizontal scroll 0 the first pass reads 40 consecutive entries of the
row starting at offset 0, the last at offset `2*39`: the entries `32 … 39`
lie beyond the 32 entries (64 bytes) of the selected row, in the next row. -/
theorem narrow_plane_reads_next_row :
    BITS ((window_vdp 0).reg 16) 0 2 = 0 ∧
    plane_row_addr (window_vdp 0) 0 0 0 = 0 ∧
    Event.name_fetch (2 * 39) ∈
      (draw_plane_ab (window_vdp 0) ⟨stale_buffer, []⟩ 0 0 0 0).gfx.log ∧
    ¬ (∀ a, Event.name_fetch a ∈
          (draw_plane_ab (window_vdp 0) ⟨stale_buffer, []⟩ 0 0 0 0).gfx.log →
        ∃ c, c < 32 ∧ a = plane_row_addr (window_vdp 0) 0 0 0 + 2 * c) := by
  have hrow : plane_row_addr (window_vdp 0) 0 0 0 = 0 := by decide
  have hmem : Event.name_fetch (2 * 39) ∈
      (draw_plane_ab (window_vdp 0) ⟨stale_buffer, []⟩ 0 0 0 0).gfx.log := by decide
  refine ⟨by decide, hrow, hmem, ?_⟩
  intro hall
  obtain ⟨c, hc, heq⟩ := hall (2 * 39) hmem
  rw [hrow] at heq
  omega


/-! ## C19: the pattern decoder -/

theorem read_draw_pixel_at (s : Screen) (x y : Int) (rgb : Nat) (pri : Int) :
    (draw_pixel_at s x rgb pri).read y =
      if y = x ∧ -32 ≤ x ∧ x < 352 then draw_pixel (s.read x) rgb pri else s.read y := by
  unfold draw_pixel_at
  exact Screen.read_write s x y _

theorem loop_index_step (v : VDP) (fliph : Bool) (pattern d : Nat) :
    loop_index v fliph (if fliph then pattern - 1 else pattern + 1) d =
      loop_index v fliph pattern (d + 2) := by
  have h1 : (d + 2) / 2 = d / 2 + 1 := by omega
  have h2 : (d + 2) % 2 = d % 2 := by omega
  unfold loop_index
  rw [h1, h2]
  cases fliph with
  | true =>
    have : pattern - 1 - d / 2 = pattern - (d / 2 + 1) := by omega
    simp only [if_true, this]
  | false =>
    have : pattern + 1 + d / 2 = pattern + (d / 2 + 1) := by omega
    simp only [Bool.false_eq_true, if_false, this]

set_option linter.unnecessarySeqFocus false in
/-- The two stores of one iteration of the pattern loop. -/
theorem two_writes_read (s : Screen) (x y : Int) (pri : Int) (p1 p2 c1 c2 : Nat) :
    (if p2 ≠ 0 then
        draw_pixel_at (if p1 ≠ 0 then draw_pixel_at s x c1 pri else s) (x + 1) c2 pri
      else (if p1 ≠ 0 then draw_pixel_at s x c1 pri else s)).read y =
      if y = x ∧ (-32 ≤ x ∧ x < 352) ∧ p1 ≠ 0 then draw_pixel (s.read x) c1 pri
      else if y = x + 1 ∧ (-32 ≤ x + 1 ∧ x + 1 < 352) ∧ p2 ≠ 0 then
        draw_pixel (s.read (x + 1)) c2 pri
      else s.read y := by
  by_cases hp1 : p1 = 0 <;> by_cases hp2 : p2 = 0 <;>
    simp only [hp1, hp2, ne_eq, not_true_eq_false, not_false_eq_true, if_true, if_false,
      and_true, and_false, read_draw_pixel_at] <;>
    split_ifs <;> first | rfl | (exfalso; omega)

/-- One cell after `draw_pattern_loop`: a cell of the run inside the buffer
gets one `draw_pixel` when its index is not 0; every other cell is kept. -/
theorem draw_pattern_loop_read (v : VDP) (fliph : Bool) (palette : Nat) (pri : Int) :
    ∀ (n pattern : Nat) (x : Int) (s : Screen) (y : Int),
      (draw_pattern_loop v fliph palette pri n pattern x s).read y =
        if x ≤ y ∧ y < x + 2 * (n : Int) ∧ -32 ≤ y ∧ y < 352 then
          (if loop_index v fliph pattern (y - x).toNat ≠ 0 then
            draw_pixel (s.read y)
              (v.cram (palette + loop_index v fliph pattern (y - x).toNat)) pri
           else s.read y)
        else s.read y := by
  intro n
  induction n with
  | zero =>
    intro pattern x s y
    rw [if_neg (by omega)]
    rfl
  | succ n ih =>
    intro pattern x s y
    have hidx0 : loop_index v fliph pattern 0 =
        (if !fliph then v.vram pattern >>> 4 else v.vram pattern &&& 0xF) := by
      unfold loop_index
      cases fliph <;> simp
    have hidx1 : loop_index v fliph pattern 1 =
        (if !fliph then v.vram pattern &&& 0xF else v.vram pattern >>> 4) := by
      unfold loop_index
      cases fliph <;> simp
    unfold draw_pattern_loop
    dsimp only
    rw [ih, two_writes_read, ← hidx0, ← hidx1]
    by_cases hy2 : x + 2 ≤ y
    · have e1 : ¬ (y = x ∧ (-32 ≤ x ∧ x < 352) ∧ loop_index v fliph pattern 0 ≠ 0) :=
        fun h => by omega
      have e2 : ¬ (y = x + 1 ∧ (-32 ≤ x + 1 ∧ x + 1 < 352) ∧
          loop_index v fliph pattern 1 ≠ 0) := fun h => by omega
      have hd : (y - (x + 2)).toNat + 2 = (y - x).toNat := by omega
      rw [if_neg e1, if_neg e2]
      rw [loop_index_step, hd]
      by_cases hin : x ≤ y ∧ y < x + 2 * ((n + 1 : Nat) : Int) ∧ -32 ≤ y ∧ y < 352
      · rw [if_pos hin, if_pos ⟨hy2, by push_cast at hin; omega, hin.2.2.1, hin.2.2.2⟩]
      · rw [if_neg hin, if_neg (fun h => hin ⟨by omega, by push_cast; omega, h.2.2.1, h.2.2.2⟩)]
    · have e0 : ¬ (x + 2 ≤ y ∧ y < x + 2 + 2 * (n : Int) ∧ -32 ≤ y ∧ y < 352) :=
        fun h => hy2 h.1
      rw [if_neg e0]
      by_cases hx : y = x
      · subst hx
        have hd : (y - y).toNat = 0 := by omega
        have e2 : ¬ (y = y + 1 ∧ (-32 ≤ y + 1 ∧ y + 1 < 352) ∧
            loop_index v fliph pattern 1 ≠ 0) := fun h => by omega
        rw [if_neg e2]
        rw [hd]
        by_cases hin : -32 ≤ y ∧ y < 352
        · rw [if_pos (show y ≤ y ∧ y < y + 2 * ((n + 1 : Nat) : Int) ∧ -32 ≤ y ∧ y < 352 from
            ⟨Int.le_refl y, by push_cast; omega, hin.1, hin.2⟩)]
          by_cases hp : loop_index v fliph pattern 0 ≠ 0
          · rw [if_pos hp, if_pos ⟨rfl, hin, hp⟩]
          · rw [if_neg hp, if_neg (fun h => hp h.2.2)]
        · rw [if_neg (fun h => hin h.2.1),
            if_neg (fun (h : y ≤ y ∧ y < y + 2 * ((n + 1 : Nat) : Int) ∧ -32 ≤ y ∧ y < 352) =>
              hin ⟨h.2.2.1, h.2.2.2⟩)]
      · have e1 : ¬ (y = x ∧ (-32 ≤ x ∧ x < 352) ∧ loop_index v fliph pattern 0 ≠ 0) :=
          fun h => hx h.1
        rw [if_neg e1]
        by_cases hx1 : y = x + 1
        · subst hx1
          have hd : (x + 1 - x).toNat = 1 := by omega
          rw [hd]
          by_cases hin : -32 ≤ x + 1 ∧ x + 1 < 352
          · rw [if_pos (show x ≤ x + 1 ∧ x + 1 < x + 2 * ((n + 1 : Nat) : Int) ∧
                -32 ≤ x + 1 ∧ x + 1 < 352 from
              ⟨by omega, by push_cast; omega, hin.1, hin.2⟩)]
            by_cases hp : loop_index v fliph pattern 1 ≠ 0
            · rw [if_pos hp, if_pos ⟨rfl, hin, hp⟩]
            · rw [if_neg hp, if_neg (fun h => hp h.2.2)]
          · rw [if_neg (fun h => hin h.2.1),
              if_neg (fun (h : x ≤ x + 1 ∧ x + 1 < x + 2 * ((n + 1 : Nat) : Int) ∧
                -32 ≤ x + 1 ∧ x + 1 < 352) => hin ⟨h.2.2.1, h.2.2.2⟩)]
        · have e2 : ¬ (y = x + 1 ∧ (-32 ≤ x + 1 ∧ x + 1 < 352) ∧
              loop_index v fliph pattern 1 ≠ 0) := fun h => hx1 h.1
          have e3 : ¬ (x ≤ y ∧ y < x + 2 * ((n + 1 : Nat) : Int) ∧ -32 ≤ y ∧ y < 352) :=
            fun h => by omega
          rw [if_neg e2, if_neg e3]

/-- The loop of `draw_pattern`, started at the row selected by the v-flip bit
(from its last byte when h-flipped), uses the indices of the spec. -/
theorem loop_index_eq_decoder (v : VDP) (name paty d : Nat) (hd : d < 8) :
    loop_index v (decide (BITS name 11 1 ≠ 0))
      (if decide (BITS name 11 1 ≠ 0) = true then
        (if BITS name 12 1 = 0 then BITS name 0 11 * 32 + paty * 4
          else BITS name 0 11 * 32 + (7 - paty) * 4) + 3
      else
        (if BITS name 12 1 = 0 then BITS name 0 11 * 32 + paty * 4
          else BITS name 0 11 * 32 + (7 - paty) * 4)) d =
      decoder_index v name paty d := by
  unfold loop_index decoder_index
  dsimp only
  by_cases hv : BITS name 12 1 = 0
  · by_cases hf : BITS name 11 1 = 0
    · simp only [hv, hf, ne_eq, not_true_eq_false, decide_False, Bool.false_eq_true,
        if_false, if_true, Bool.not_false]
    · have ha : BITS name 0 11 * 32 + paty * 4 + 3 - d / 2 =
          BITS name 0 11 * 32 + paty * 4 + (7 - d) / 2 := by omega
      simp only [hv, hf, ne_eq, not_true_eq_false, not_false_eq_true, decide_True,
        if_false, if_true, Bool.not_true, Bool.false_eq_true, ha]
      by_cases he : d % 2 = 0
      · rw [if_pos he, if_neg (by omega)]
      · rw [if_neg he, if_pos (by omega)]
  · by_cases hf : BITS name 11 1 = 0
    · simp only [hv, hf, ne_eq, not_true_eq_false, not_false_eq_true, decide_False,
        Bool.false_eq_true, if_false, if_true, Bool.not_false]
    · have ha : BITS name 0 11 * 32 + (7 - paty) * 4 + 3 - d / 2 =
          BITS name 0 11 * 32 + (7 - paty) * 4 + (7 - d) / 2 := by omega
      simp only [hv, hf, ne_eq, not_false_eq_true, decide_True,
        if_false, if_true, Bool.not_true, Bool.false_eq_true, ha]
      by_cases he : d % 2 = 0
      · rw [if_pos he, if_neg (by omega)]
      · rw [if_neg he, if_pos (by omega)]

/-- One cell after `draw_pattern`. -/
theorem draw_pattern_read (v : VDP) (g : Gfx) (x : Int) (name paty : Nat) (y : Int) :
    (draw_pattern v g x name paty).screen.read y =
      if x ≤ y ∧ y < x + 8 ∧ -32 ≤ y ∧ y < 352 then
        (if decoder_index v name paty (y - x).toNat ≠ 0 then
          draw_pixel (g.screen.read y)
            (v.cram (BITS name 13 2 * 16 + decoder_index v name paty (y - x).toNat))
            (BITS name 15 1 : Nat)
         else g.screen.read y)
      else g.screen.read y := by
  unfold draw_pattern draw_pattern_row
  dsimp only
  rw [draw_pattern_loop_read]
  by_cases hin : x ≤ y ∧ y < x + 8 ∧ -32 ≤ y ∧ y < 352
  · rw [if_pos hin, if_pos (show x ≤ y ∧ y < x + 2 * ((4 : Nat) : Int) ∧ -32 ≤ y ∧ y < 352 from
      ⟨hin.1, by push_cast; omega, hin.2.2.1, hin.2.2.2⟩),
      loop_index_eq_decoder v name paty (y - x).toNat (by omega)]
  · rw [if_neg hin, if_neg (fun (h : x ≤ y ∧ y < x + 2 * ((4 : Nat) : Int) ∧ -32 ≤ y ∧
      y < 352) => hin ⟨h.1, by have := h.2.1; push_cast at this; omega, h.2.2.1, h.2.2.2⟩)]

/-- C19: the Pattern Decoder follows its reference behaviour. For a nametable
entry `name`, a sub-row `paty` in `0..7` and a screen position `x` whose eight
cells lie in the buffer, the cell `x + k` (`k` in `0..7`) is drawn through
`draw_pixel` with the colour `CRAM[palette_row*16 + i]` and the priority bit of
the entry when the index `i = decoder_index name paty k` is not zero, and is
left as it was when `i` is zero; every cell outside `x .. x+7` is left as it
was. `decoder_index` is the index of the spec: the `k`-th (or, h-flipped, the
`7-k`-th) nibble, high then low, of the 4-byte row `paty` (or `7 - paty`,
v-flipped) of the tile. -/
theorem pattern_decoder_reference (v : VDP) (g : Gfx) (x : Int) (name paty : Nat)
    (hp : paty < 8) (hx : -32 ≤ x ∧ x + 8 ≤ 352) :
    (∀ k : Nat, k < 8 →
      (draw_pattern v g x name paty).screen.read (x + (k : Int)) =
        if decoder_index v name paty k ≠ 0 then
          draw_pixel (g.screen.read (x + (k : Int)))
            (v.cram (BITS name 13 2 * 16 + decoder_index v name paty k))
            (BITS name 15 1 : Nat)
        else g.screen.read (x + (k : Int))) ∧
    (∀ y : Int, (y < x ∨ x + 8 ≤ y) →
      (draw_pattern v g x name paty).screen.read y = g.screen.read y) := by
  have _ := hp
  constructor
  · intro k hk
    rw [draw_pattern_read, if_pos (by omega)]
    have e : (x + (k : Int) - x).toNat = k := by omega
    rw [e]
  · intro y hy
    rw [draw_pattern_read, if_neg (by omega)]

/-- Witness of C19: the h-flipped entry `0x2801` (tile 1, palette row 1) at
sub-row 2 and `x = 0`: cell 0 takes index 6, cell 4 takes the transparent
index 0, cell 8 is outside. -/
theorem pattern_decoder_reference_witness :
    (2 < 8 ∧ (-32 : Int) ≤ 0 ∧ (0 : Int) + 8 ≤ 352) ∧
    (draw_pattern tile_vdp ⟨Screen.const ⟨9, 9, 9, 0⟩, []⟩ 0 0x2801 2).screen.read
      (0 + ((0 : Nat) : Int)) = ⟨219, 36, 255, 0⟩ ∧
    (draw_pattern tile_vdp ⟨Screen.const ⟨9, 9, 9, 0⟩, []⟩ 0 0x2801 2).screen.read
      (0 + ((4 : Nat) : Int)) = ⟨9, 9, 9, 0⟩ ∧
    (draw_pattern tile_vdp ⟨Screen.const ⟨9, 9, 9, 0⟩, []⟩ 0 0x2801 2).screen.read 8 =
      ⟨9, 9, 9, 0⟩ :=
  have h := pattern_decoder_reference tile_vdp ⟨Screen.const ⟨9, 9, 9, 0⟩, []⟩ 0 0x2801 2
    (by decide) (by decide)
  ⟨by decide, (h.1 0 (by decide)).trans (by decide), (h.1 4 (by decide)).trans (by decide),
   (h.2 8 (by decide)).trans (by decide)⟩


/-! ## C20: sprite multi-cell addressing -/

/-- C20 fails at tile 2047: the sprite of `carry_sprite_vdp` has the pattern
reference `0x07FF` (tile 2047, not flipped), height 1 and width 2. Its second
column is drawn with the reference `0x0800`: the tile index is
`(2047 + 0 + 1*1) mod 2048 = 0`, but the 16-bit addition `name += sh` has
carried into bit 11, so that cell is drawn h-flipped although the sprite is
not. -/
theorem sprite_tile_carry_sets_flip :
    (draw_sprites carry_sprite_vdp ⟨stale_buffer, []⟩ 0).gfx.log =
      [Event.sprite_cell 0 0 0 0, Event.pattern 0 0x07FF 0,
       Event.sprite_cell 0 1 0 8, Event.pattern 8 0x0800 0] ∧
    sprite_h carry_sprite_vdp 0 0 = 1 ∧ sprite_w carry_sprite_vdp 0 0 = 2 ∧
    sprite_name carry_sprite_vdp 0 0 = 0x07FF ∧
    BITS 0x0800 0 11 = (BITS 0x07FF 0 11 + 0 + 1 * 1) % 2048 ∧
    BITS 0x07FF 11 1 = 0 ∧ BITS 0x0800 11 1 = 1 := by
  decide


/-! ## C16: the order in which sprites are drawn -/

/-- The column loop draws a list of columns of its sprite, one after the other. -/
theorem sprite_cells_cols (v : VDP) (paty : Nat) (sx : Int) (sh fliph slot : Nat) :
    ∀ (k p name : Nat) (a : SpriteAcc), ∃ cols : List Column,
      (sprite_cells v paty sx sh fliph slot k p name a).gfx.log =
        a.gfx.log ++ cols.flatMap Column.events ∧
      (sprite_cells v paty sx sh fliph slot k p name a).gfx.screen =
        cols.foldl (Column.draw v) a.gfx.screen ∧
      ∀ c ∈ cols, c.slot = slot ∧ c.x = sx + (c.p : Int) * 8 ∧ c.paty = paty := by
  intro k
  induction k with
  | zero =>
    intro p name a
    exact ⟨[], (List.append_nil _).symm, rfl, fun c hc => absurd hc (List.not_mem_nil c)⟩
  | succ k ih =>
    intro p name a
    have hlog : (draw_pattern v
        (a.gfx.emit (Event.sprite_cell slot p a.num_visible a.num_pixels))
        (sx + (p : Int) * 8) name paty).log =
        a.gfx.log ++ Column.events ⟨slot, p, a.num_visible, a.num_pixels,
          sx + (p : Int) * 8, name, paty⟩ := by
      rw [draw_pattern_log]
      unfold Gfx.emit Column.events
      dsimp only
      rw [List.append_assoc]
      rfl
    have hscr : (draw_pattern v
        (a.gfx.emit (Event.sprite_cell slot p a.num_visible a.num_pixels))
        (sx + (p : Int) * 8) name paty).screen =
        Column.draw v a.gfx.screen ⟨slot, p, a.num_visible, a.num_pixels,
          sx + (p : Int) * 8, name, paty⟩ := rfl
    unfold sprite_cells
    dsimp only
    split
    · refine ⟨[⟨slot, p, a.num_visible, a.num_pixels, sx + (p : Int) * 8, name, paty⟩],
        ?_, hscr, ?_⟩
      · rw [hlog, List.flatMap_cons, List.flatMap_nil, List.append_nil]
      · intro c hc
        rw [List.mem_singleton] at hc
        rw [hc]
        exact ⟨rfl, rfl, rfl⟩
    · obtain ⟨cols, h1, h2, h3⟩ := ih (p + 1)
        (if fliph = 0 then (name + sh) % 65536 else (name + 65536 - sh) % 65536)
        { gfx := draw_pattern v
            (a.gfx.emit (Event.sprite_cell slot p a.num_visible a.num_pixels))
            (sx + (p : Int) * 8) name paty
          num_visible := a.num_visible, num_pixels := a.num_pixels + 8, returned := false }
      refine ⟨⟨slot, p, a.num_visible, a.num_pixels, sx + (p : Int) * 8, name, paty⟩ :: cols,
        ?_, ?_, ?_⟩
      · rw [h1]
        dsimp only
        rw [hlog, List.flatMap_cons, List.append_assoc]
      · rw [h2]
        dsimp only
        rw [hscr, List.foldl_cons]
      · intro c hc
        rcases List.mem_cons.mp hc with hc | hc
        · rw [hc]
          exact ⟨rfl, rfl, rfl⟩
        · exact h3 c hc

/-- One iteration of the sprite loop draws columns of its own sprite only. -/
theorem draw_sprite_cols (v : VDP) (line start_table idx slot : Nat) (a : SpriteAcc) :
    ∃ cols : List Column,
      (draw_sprite v line start_table idx slot a).gfx.log =
        a.gfx.log ++ cols.flatMap Column.events ∧
      (draw_sprite v line start_table idx slot a).gfx.screen =
        cols.foldl (Column.draw v) a.gfx.screen ∧
      ∀ c ∈ cols, c.slot = slot ∧
        c.x = sprite_x v start_table idx + (c.p : Int) * 8 ∧
        c.paty = sprite_paty v line start_table idx := by
  have hnone : ∃ cols : List Column,
      a.gfx.log = a.gfx.log ++ cols.flatMap Column.events ∧
      a.gfx.screen = cols.foldl (Column.draw v) a.gfx.screen ∧
      ∀ c ∈ cols, c.slot = slot ∧
        c.x = sprite_x v start_table idx + (c.p : Int) * 8 ∧
        c.paty = sprite_paty v line start_table idx :=
    ⟨[], (List.append_nil _).symm, rfl, fun c hc => absurd hc (List.not_mem_nil c)⟩
  rw [draw_sprite_eq]
  split
  · rw [sprite_count_gfx]
    split
    · exact sprite_cells_cols v _ _ _ _ slot _ 0 _ a
    · exact hnone
  · exact hnone

/-- The sprite loop draws its columns in decreasing slot order. -/
theorem sprite_loop_cols (v : VDP) (line start_table : Nat) (indices : List Nat) :
    ∀ (i : Nat) (a : SpriteAcc), ∃ cols : List Column,
      (sprite_loop v line start_table indices i a).gfx.log =
        a.gfx.log ++ cols.flatMap Column.events ∧
      (sprite_loop v line start_table indices i a).gfx.screen =
        cols.foldl (Column.draw v) a.gfx.screen ∧
      cols.Pairwise (fun c d => d.slot ≤ c.slot) ∧
      ∀ c ∈ cols, c.slot < i ∧
        c.x = sprite_x v start_table (indices.getD c.slot 0) + (c.p : Int) * 8 ∧
        c.paty = sprite_paty v line start_table (indices.getD c.slot 0) := by
  intro i
  induction i with
  | zero =>
    intro a
    exact ⟨[], (List.append_nil _).symm, rfl, List.Pairwise.nil,
      fun c hc => absurd hc (List.not_mem_nil c)⟩
  | succ i ih =>
    intro a
    obtain ⟨cols1, h1, h2, h3⟩ := draw_sprite_cols v line start_table (indices.getD i 0) i a
    have hp1 : cols1.Pairwise (fun c d => d.slot ≤ c.slot) :=
      List.pairwise_of_forall_mem_list (fun c hc d hd => by
        rw [(h3 c hc).1, (h3 d hd).1])
    have hm1 : ∀ c ∈ cols1, c.slot < i + 1 ∧
        c.x = sprite_x v start_table (indices.getD c.slot 0) + (c.p : Int) * 8 ∧
        c.paty = sprite_paty v line start_table (indices.getD c.slot 0) := by
      intro c hc
      obtain ⟨hs, hx, hy⟩ := h3 c hc
      rw [hs]
      exact ⟨Nat.lt_succ_self i, hx, hy⟩
    unfold sprite_loop
    dsimp only
    split
    · exact ⟨cols1, h1, h2, hp1, hm1⟩
    · obtain ⟨cols2, k1, k2, k3, k4⟩ :=
        ih (draw_sprite v line start_table (indices.getD i 0) i a)
      refine ⟨cols1 ++ cols2, ?_, ?_, ?_, ?_⟩
      · rw [k1, h1, List.flatMap_append, List.append_assoc]
      · rw [k2, h2, List.foldl_append]
      · rw [List.pairwise_append]
        refine ⟨hp1, k3, fun c hc d hd => ?_⟩
        have := (h3 c hc).1
        have := (k4 d hd).1
        omega
      · intro c hc
        rcases List.mem_append.mp hc with hc | hc
        · exact hm1 c hc
        · exact ⟨Nat.lt_succ_of_lt (k4 c hc).1, (k4 c hc).2⟩


/-- What a column does to one cell of the buffer. -/
theorem Column.draw_read (v : VDP) (s : Screen) (c : Column) (y : Int)
    (h0 : -32 ≤ y) (h1 : y < 352) :
    (Column.draw v s c).read y = Column.draw_cell v y (s.read y) c := by
  unfold Column.draw Column.draw_cell Column.opaque_at Column.colour Column.pri
  rw [draw_pattern_read]
  dsimp only
  by_cases hin : c.x ≤ y ∧ y < c.x + 8
  · rw [if_pos ⟨hin.1, hin.2, h0, h1⟩]
    by_cases hz : decoder_index v c.name c.paty (y - c.x).toNat ≠ 0
    · rw [if_pos hz, if_pos ⟨hin.1, hin.2, hz⟩]
    · rw [if_neg hz, if_neg (fun h => hz h.2.2)]
  · rw [if_neg (fun h => hin ⟨h.1, h.2.1⟩), if_neg (fun h => hin ⟨h.1, h.2.1⟩)]

theorem Column.foldl_draw_read (v : VDP) (y : Int) (h0 : -32 ≤ y) (h1 : y < 352) :
    ∀ (cols : List Column) (s : Screen),
      (cols.foldl (Column.draw v) s).read y =
        cols.foldl (Column.draw_cell v y) (s.read y) := by
  intro cols
  induction cols with
  | nil => intro s; rfl
  | cons c cols ih =>
    intro s
    rw [List.foldl_cons, List.foldl_cons, ih, Column.draw_read v s c y h0 h1]

theorem Column.pri_le (c : Column) : c.pri ≤ 1 := by
  have := BITS_lt c.name 15 1
  unfold Column.pri
  omega

/-- A draw of priority `q ≤ 1` through the compositor, spelled out. -/
theorem draw_pixel_bit (cell : Cell) (rgb q : Nat) (hq : q ≤ 1) :
    draw_pixel cell rgb (q : Nat) =
      if cell.pri ≤ q then ⟨CRAM_R rgb % 256, CRAM_G rgb % 256, CRAM_B rgb % 256, q⟩
      else cell := by
  unfold draw_pixel
  by_cases h : cell.pri ≤ q
  · rw [if_pos (by omega), if_pos h]
    have : (((q : Nat) : Int) % 256).toNat = q := by omega
    rw [this]
  · rw [if_neg (by omega), if_neg h]

theorem Column.draw_cell_opaque (v : VDP) (y : Int) (cell : Cell) (c : Column)
    (h : c.opaque_at v y) :
    Column.draw_cell v y cell c =
      if cell.pri ≤ c.pri then
        ⟨CRAM_R (c.colour v y) % 256, CRAM_G (c.colour v y) % 256,
          CRAM_B (c.colour v y) % 256, c.pri⟩
      else cell := by
  unfold Column.draw_cell
  rw [if_pos h, draw_pixel_bit _ _ _ c.pri_le]

/-- Two cells that are equal, or of which the first has priority `p` and the
second at most `p`, stay so under any further column. -/
theorem Column.draw_cell_rel (v : VDP) (y : Int) (p : Nat) (m : Column) (c1 c2 : Cell)
    (h : c1 = c2 ∨ (c1.pri = p ∧ c2.pri ≤ p)) :
    Column.draw_cell v y c1 m = Column.draw_cell v y c2 m ∨
      ((Column.draw_cell v y c1 m).pri = p ∧ (Column.draw_cell v y c2 m).pri ≤ p) := by
  rcases h with h | ⟨h1, h2⟩
  · left; rw [h]
  · unfold Column.draw_cell
    by_cases ho : m.opaque_at v y
    · rw [if_pos ho, if_pos ho, draw_pixel_bit _ _ _ m.pri_le, draw_pixel_bit _ _ _ m.pri_le]
      by_cases hq : p ≤ m.pri
      · left
        rw [if_pos (by omega), if_pos (by omega)]
      · right
        rw [if_neg (by omega)]
        refine ⟨h1, ?_⟩
        split
        · show m.pri ≤ p
          omega
        · exact h2
    · rw [if_neg ho, if_neg ho]
      exact Or.inr ⟨h1, h2⟩

theorem Column.foldl_draw_cell_rel (v : VDP) (y : Int) (p : Nat) :
    ∀ (mid : List Column) (c1 c2 : Cell), (c1 = c2 ∨ (c1.pri = p ∧ c2.pri ≤ p)) →
      (mid.foldl (Column.draw_cell v y) c1 = mid.foldl (Column.draw_cell v y) c2 ∨
        ((mid.foldl (Column.draw_cell v y) c1).pri = p ∧
          (mid.foldl (Column.draw_cell v y) c2).pri ≤ p)) := by
  intro mid
  induction mid with
  | nil => intro c1 c2 h; exact h
  | cons m mid ih =>
    intro c1 c2 h
    rw [List.foldl_cons, List.foldl_cons]
    exact ih _ _ (Column.draw_cell_rel v y p m c1 c2 h)

/-- At a cell where the columns `B` and, later, `A` are both opaque with the
same priority, drawing `B` makes no difference once `A` is drawn. -/
theorem Column.hidden_cell (v : VDP) (y : Int) (B A : Column) (hB : B.opaque_at v y)
    (hA : A.opaque_at v y) (hp : A.pri = B.pri) (mid rest : List Column) (c : Cell) :
    (B :: (mid ++ A :: rest)).foldl (Column.draw_cell v y) c =
      (mid ++ A :: rest).foldl (Column.draw_cell v y) c := by
  rw [List.foldl_cons, List.foldl_append, List.foldl_append, List.foldl_cons, List.foldl_cons]
  refine congrArg (fun z => List.foldl (Column.draw_cell v y) z rest) ?_
  have h0 : Column.draw_cell v y c B = c ∨
      ((Column.draw_cell v y c B).pri = B.pri ∧ c.pri ≤ B.pri) := by
    rw [Column.draw_cell_opaque v y c B hB]
    by_cases h : c.pri ≤ B.pri
    · rw [if_pos h]; exact Or.inr ⟨rfl, h⟩
    · rw [if_neg h]; exact Or.inl rfl
  rcases Column.foldl_draw_cell_rel v y B.pri mid _ _ h0 with h | ⟨h1, h2⟩
  · rw [h]
  · rw [Column.draw_cell_opaque v y _ A hA, Column.draw_cell_opaque v y _ A hA,
      if_pos (by omega), if_pos (by omega)]

/-- C16: sprites are drawn in the reverse of the recorded order, so the sprite
nearer the chain head wins a tie. For every line, `draw_sprites` draws a list
`cols` of sprite columns, one `draw_pattern` call each, in this order; the
slots of the columns never increase along the list (an entry recorded earlier
is drawn later, slot 0 last of all), the column of slot `j` belongs to the
`j`-th entry visited by the traversal (slot 0 to table index 0), and at a cell
where a column `B` and a later column `A` of the same priority are both opaque
the final cell is what it would be had `B` not been drawn. Two such columns
drawn one after the other on a cell of at most their priority leave the colour
of the later one. -/
theorem sprites_drawn_in_reverse :
    (∀ (v : VDP) (g : Gfx) (line : Nat), ∃ cols : List Column,
      (draw_sprites v g line).gfx.log = g.log ++ cols.flatMap Column.events ∧
      (draw_sprites v g line).gfx.screen = cols.foldl (Column.draw v) g.screen ∧
      cols.Pairwise (fun c d => d.slot ≤ c.slot) ∧
      (∀ c ∈ cols, c.slot < (sprite_chain v (sprite_table v)).1 ∧
        (sprite_chain v (sprite_table v)).2.getD c.slot 0 =
          chain_entry v (sprite_table v) c.slot ∧
        c.x = sprite_x v (sprite_table v) (chain_entry v (sprite_table v) c.slot) +
          (c.p : Int) * 8 ∧
        c.paty = sprite_paty v line (sprite_table v)
          (chain_entry v (sprite_table v) c.slot)) ∧
      (∀ (l1 l2 l3 : List Column) (B A : Column) (y : Int),
        cols = l1 ++ B :: (l2 ++ A :: l3) → -32 ≤ y → y < 352 →
        B.opaque_at v y → A.opaque_at v y → A.pri = B.pri →
        (draw_sprites v g line).gfx.screen.read y =
          ((l1 ++ (l2 ++ A :: l3)).foldl (Column.draw v) g.screen).read y)) ∧
    (∀ (v : VDP) (s : Screen) (B A : Column) (y : Int), -32 ≤ y → y < 352 →
      B.opaque_at v y → A.opaque_at v y → A.pri = B.pri → (s.read y).pri ≤ B.pri →
      (Column.draw v (Column.draw v s B) A).read y =
        ⟨CRAM_R (A.colour v y) % 256, CRAM_G (A.colour v y) % 256,
          CRAM_B (A.colour v y) % 256, A.pri⟩) := by
  constructor
  · intro v g line
    obtain ⟨cols, h1, h2, h3, h4⟩ := sprite_loop_cols v line (sprite_table v)
      (sprite_chain v (sprite_table v)).2 (sprite_chain v (sprite_table v)).1
      { gfx := g, num_visible := 0, num_pixels := 0, returned := false }
    have hspec := (sprite_chain_spec v (sprite_table v)).1
    have hget : ∀ j, j < (sprite_chain v (sprite_table v)).1 →
        (sprite_chain v (sprite_table v)).2.getD j 0 = chain_entry v (sprite_table v) j := by
      intro j hj
      rw [hspec, List.getD_eq_getElem?_getD, List.getElem?_map, List.getElem?_range hj]
      rfl
    refine ⟨cols, h1, h2, h3, ?_, ?_⟩
    · intro c hc
      obtain ⟨hs, hx, hy⟩ := h4 c hc
      rw [hget c.slot hs] at hx hy
      exact ⟨hs, hget c.slot hs, hx, hy⟩
    · intro l1 l2 l3 B A y hcols h0 hy1 hB hA hp
      have hscr : (draw_sprites v g line).gfx.screen = cols.foldl (Column.draw v) g.screen := h2
      rw [hscr, hcols, Column.foldl_draw_read v y h0 hy1, Column.foldl_draw_read v y h0 hy1,
        List.foldl_append, List.foldl_append,
        Column.hidden_cell v y B A hB hA hp l2 l3]
  · intro v s B A y h0 h1 hB hA hp hs
    rw [Column.draw_read v _ A y h0 h1, Column.draw_read v s B y h0 h1]
    rw [Column.draw_cell_opaque v y _ B hB, if_pos hs, Column.draw_cell_opaque v y _ A hA,
      if_pos (by show B.pri ≤ A.pri; omega)]

/-- Witness of C16: the two sprites of `overlap_vdp` on line 0. Entry 1 (slot
1, tile 9) is drawn first, entry 0 (slot 0, tile 8) last, and cell 0, where
both are opaque with priority 0, ends with the colour of entry 0. -/
theorem sprites_drawn_in_reverse_witness :
    ((-32 : Int) ≤ 0 ∧ (0 : Int) < 352 ∧
      Column.opaque_at overlap_vdp ⟨1, 0, 0, 0, 0, 9, 0⟩ 0 ∧
      Column.opaque_at overlap_vdp ⟨0, 0, 1, 8, 0, 8, 0⟩ 0 ∧
      Column.pri ⟨0, 0, 1, 8, 0, 8, 0⟩ = Column.pri ⟨1, 0, 0, 0, 0, 9, 0⟩ ∧
      ((Screen.const ⟨9, 9, 9, 0⟩).read 0).pri ≤ Column.pri ⟨1, 0, 0, 0, 0, 9, 0⟩) ∧
    (draw_sprites overlap_vdp ⟨Screen.const ⟨9, 9, 9, 0⟩, []⟩ 0).gfx.log =
      Column.events ⟨1, 0, 0, 0, 0, 9, 0⟩ ++ Column.events ⟨0, 0, 1, 8, 0, 8, 0⟩ ∧
    (Column.draw overlap_vdp
      (Column.draw overlap_vdp (Screen.const ⟨9, 9, 9, 0⟩) ⟨1, 0, 0, 0, 0, 9, 0⟩)
      ⟨0, 0, 1, 8, 0, 8, 0⟩).read 0 = ⟨255, 0, 0, 0⟩ :=
  ⟨by decide, by decide,
   (sprites_drawn_in_reverse.2 overlap_vdp (Screen.const ⟨9, 9, 9, 0⟩) ⟨1, 0, 0, 0, 0, 9, 0⟩
      ⟨0, 0, 1, 8, 0, 8, 0⟩ 0 (by decide) (by decide) (by decide) (by decide) (by decide)
      (by decide)).trans (by decide)⟩


/-! ## C14: the visible row does not depend on the stale buffer

Every renderer acts on each cell of the buffer separately: what it leaves in
cell `y` depends on video memory and on what cell `y` held before. -/

theorem draw_pattern_agree (v : VDP) (y : Int) (x : Int) (name paty : Nat) (g1 g2 : Gfx)
    (h : g1.agree_at y g2) :
    (draw_pattern v g1 x name paty).agree_at y (draw_pattern v g2 x name paty) := by
  constructor
  · rw [draw_pattern_log, draw_pattern_log, h.1]
  · rw [draw_pattern_read, draw_pattern_read, h.2]

theorem emit_agree (y : Int) (e : Event) (g1 g2 : Gfx) (h : g1.agree_at y g2) :
    (g1.emit e).agree_at y (g2.emit e) := by
  constructor
  · show g1.log ++ [e] = g2.log ++ [e]
    rw [h.1]
  · exact h.2

theorem draw_nametable_agree (v : VDP) (y : Int) (paty : Nat) :
    ∀ (n : Nat) (x : Int) (nt : Nat) (g1 g2 : Gfx), g1.agree_at y g2 →
      (draw_nametable v paty n x nt g1).agree_at y (draw_nametable v paty n x nt g2) := by
  intro n
  induction n with
  | zero => intro x nt g1 g2 h; exact h
  | succ n ih =>
    intro x nt g1 g2 h
    exact ih _ _ _ _ (draw_pattern_agree v y x _ paty _ _ (emit_agree y _ g1 g2 h))

theorem draw_plane_w_agree (v : VDP) (y : Int) (line : Nat) (g1 g2 : Gfx)
    (h : g1.agree_at y g2) :
    (draw_plane_w v g1 line).agree_at y (draw_plane_w v g2 line) :=
  draw_nametable_agree v y _ _ _ _ g1 g2 h

theorem draw_plane_ab_agree (v : VDP) (y : Int) (line ntaddr scrollx scrolly : Nat)
    (g1 g2 : Gfx) (h : g1.agree_at y g2) :
    (draw_plane_ab v g1 line ntaddr scrollx scrolly).agree_at y
      (draw_plane_ab v g2 line ntaddr scrollx scrolly) := by
  unfold draw_plane_ab Run.agree_at
  dsimp only
  split_ifs <;> refine ⟨rfl, ?_⟩ <;> dsimp only <;>
    first
    | exact h
    | exact draw_nametable_agree v y _ _ _ _ _ _ h
    | exact draw_nametable_agree v y _ _ _ _ _ _ (draw_nametable_agree v y _ _ _ _ _ _ h)

theorem sprite_cells_agree (v : VDP) (y : Int) (paty : Nat) (sx : Int) (sh fliph slot : Nat) :
    ∀ (k p name : Nat) (a1 a2 : SpriteAcc), a1.agree_at y a2 →
      (sprite_cells v paty sx sh fliph slot k p name a1).agree_at y
        (sprite_cells v paty sx sh fliph slot k p name a2) := by
  intro k
  induction k with
  | zero => intro p name a1 a2 h; exact h
  | succ k ih =>
    intro p name a1 a2 h
    obtain ⟨hv, hp, _, hg⟩ := h
    have hpat := draw_pattern_agree v y (sx + (p : Int) * 8) name paty _ _
      (emit_agree y (Event.sprite_cell slot p a1.num_visible a1.num_pixels) _ _ hg)
    unfold sprite_cells
    dsimp only
    rw [← hv, ← hp]
    split
    · exact ⟨rfl, rfl, rfl, hpat⟩
    · exact ih _ _ _ _ ⟨rfl, rfl, rfl, hpat⟩

theorem sprite_count_agree (y : Int) (a1 a2 : SpriteAcc) (h : a1.agree_at y a2) :
    (sprite_count a1).agree_at y (sprite_count a2) := by
  obtain ⟨hv, hp, hr, hg⟩ := h
  unfold sprite_count
  rw [← hv, ← hr]
  split_ifs
  · exact ⟨hv, hp, hr, hg⟩
  · exact ⟨rfl, hp, rfl, hg⟩
  · exact ⟨rfl, hp, rfl, hg⟩

theorem draw_sprite_agree (v : VDP) (y : Int) (line start_table idx slot : Nat)
    (a1 a2 : SpriteAcc) (h : a1.agree_at y a2) :
    (draw_sprite v line start_table idx slot a1).agree_at y
      (draw_sprite v line start_table idx slot a2) := by
  rw [draw_sprite_eq, draw_sprite_eq]
  split
  · refine sprite_count_agree y _ _ ?_
    split
    · exact sprite_cells_agree v y _ _ _ _ _ _ _ _ a1 a2 h
    · exact h
  · exact h

theorem sprite_loop_agree (v : VDP) (y : Int) (line start_table : Nat) (indices : List Nat) :
    ∀ (i : Nat) (a1 a2 : SpriteAcc), a1.agree_at y a2 →
      (sprite_loop v line start_table indices i a1).agree_at y
        (sprite_loop v line start_table indices i a2) := by
  intro i
  induction i with
  | zero => intro a1 a2 h; exact h
  | succ i ih =>
    intro a1 a2 h
    have h1 := draw_sprite_agree v y line start_table (indices.getD i 0) i a1 a2 h
    unfold sprite_loop
    dsimp only
    rw [← h1.2.2.1]
    split
    · exact h1
    · exact ih _ _ h1

theorem draw_sprites_agree (v : VDP) (y : Int) (line : Nat) (g1 g2 : Gfx)
    (h : g1.agree_at y g2) :
    (draw_sprites v g1 line).agree_at y (draw_sprites v g2 line) := by
  unfold draw_sprites
  exact sprite_loop_agree v y line _ _ _ _ _ ⟨rfl, rfl, rfl, h⟩


theorem window_stage_agree (v : VDP) (y : Int) (line : Nat) (g1 g2 : Gfx)
    (h : g1.agree_at y g2) :
    (window_stage v g1 line).1.agree_at y (window_stage v g2 line).1 ∧
      (window_stage v g1 line).2 = (window_stage v g2 line).2 := by
  unfold window_stage
  split_ifs
  · exact ⟨⟨rfl, h⟩, rfl⟩
  · exact ⟨⟨rfl, draw_plane_w_agree v y line _ _ (emit_agree y _ g1 g2 h)⟩, rfl⟩
  · exact ⟨⟨rfl, h⟩, rfl⟩
  · exact ⟨⟨rfl, h⟩, rfl⟩

/-- The step from a run to the next stage: stop at a fault, else go on. -/
theorem fault_match_agree (y : Int) (k1 k2 : Gfx → Run) (r1 r2 : Run)
    (h : r1.agree_at y r2) (hk : r1.fault = none → (k1 r1.gfx).agree_at y (k2 r2.gfx)) :
    Run.agree_at y
      (match r1.fault with
        | some f => ⟨r1.gfx, some f⟩
        | none => k1 r1.gfx)
      (match r2.fault with
        | some f => ⟨r2.gfx, some f⟩
        | none => k2 r2.gfx) := by
  obtain ⟨g1, f1⟩ := r1
  obtain ⟨g2, f2⟩ := r2
  obtain ⟨hf, hg⟩ := h
  dsimp only at hf hg hk ⊢
  subst hf
  cases f1 with
  | none => exact hk rfl
  | some f => exact ⟨rfl, hg⟩

theorem plane_a_and_sprites_agree (v : VDP) (y : Int) (line hsa vsa : Nat)
    (rw1 rw2 : Run × Bool) (h : rw1.1.agree_at y rw2.1) (hb : rw1.2 = rw2.2) :
    (plane_a_and_sprites v line hsa vsa rw1).agree_at y
      (plane_a_and_sprites v line hsa vsa rw2) := by
  unfold plane_a_and_sprites
  dsimp only
  rw [← hb]
  refine fault_match_agree y
    (fun g => ⟨(draw_sprites v (g.emit (Event.enter Layer.sprites)) line).gfx, none⟩)
    (fun g => ⟨(draw_sprites v (g.emit (Event.enter Layer.sprites)) line).gfx, none⟩)
    _ _ ?_ ?_
  · split
    · exact draw_plane_ab_agree v y line _ _ _ _ _ (emit_agree y _ _ _ h.2)
    · exact h
  · intro _
    refine ⟨rfl, (draw_sprites_agree v y line _ _ (emit_agree y _ _ _ ?_)).2.2.2⟩
    split
    · exact (draw_plane_ab_agree v y line _ _ _ _ _ (emit_agree y _ _ _ h.2)).2
    · exact h.2

theorem planes_stage_agree (v : VDP) (y : Int) (line : Nat) (g1 g2 : Gfx)
    (h : g1.agree_at y g2) :
    (planes_stage v g1 line).agree_at y (planes_stage v g2 line) := by
  have hb := draw_plane_ab_agree v y line v.nametable_B (get_hscroll v line).2
    (v.vsram 1 &&& 0x3FF) _ _ (emit_agree y (Event.enter Layer.plane_b) g1 g2 h)
  unfold planes_stage
  dsimp only
  refine fault_match_agree y
    (fun g => match (window_stage v g line).1.fault with
      | some f => ⟨(window_stage v g line).1.gfx, some f⟩
      | none => plane_a_and_sprites v line (get_hscroll v line).1 (v.vsram 0 &&& 0x3FF)
          (window_stage v g line))
    (fun g => match (window_stage v g line).1.fault with
      | some f => ⟨(window_stage v g line).1.gfx, some f⟩
      | none => plane_a_and_sprites v line (get_hscroll v line).1 (v.vsram 0 &&& 0x3FF)
          (window_stage v g line))
    _ _ hb ?_
  intro _
  have hw := window_stage_agree v y line _ _ hb.2
  exact fault_match_agree y
    (fun _ => plane_a_and_sprites v line (get_hscroll v line).1 (v.vsram 0 &&& 0x3FF)
      (window_stage v (draw_plane_ab v (g1.emit (Event.enter Layer.plane_b)) line
        v.nametable_B (get_hscroll v line).2 (v.vsram 1 &&& 0x3FF)).gfx line))
    (fun _ => plane_a_and_sprites v line (get_hscroll v line).1 (v.vsram 0 &&& 0x3FF)
      (window_stage v (draw_plane_ab v (g2.emit (Event.enter Layer.plane_b)) line
        v.nametable_B (get_hscroll v line).2 (v.vsram 1 &&& 0x3FF)).gfx line))
    _ _ hw.1 (fun _ => plane_a_and_sprites_agree v y line _ _ _ _ hw.1 hw.2)

theorem read_clear_row_agree (b1 b2 : Screen) (y : Int) (h0 : 0 ≤ y) (h1 : y < 320) :
    (clear_row b1).read y = (clear_row b2).read y := by
  rw [read_clear_row, read_clear_row, if_pos ⟨h0, h1⟩, if_pos ⟨h0, h1⟩]

theorem read_fill_backdrop_agree (b1 b2 : Screen) (rgb : Nat) (y : Int) (h0 : 0 ≤ y)
    (h1 : y < 320) :
    (fill_backdrop (clear_row b1) rgb).read y = (fill_backdrop (clear_row b2) rgb).read y := by
  rw [read_fill_backdrop, read_fill_backdrop, read_clear_row_agree b1 b2 y h0 h1]

set_option maxRecDepth 20000 in
/-- After `memset` any two buffers agree at every visible cell, and the
backdrop loop, the planes and the sprites keep them so. -/
theorem draw_scanline_agree (v : VDP) (y : Int) (h0 : 0 ≤ y) (h1 : y < 320) (line : Nat)
    (hline : line < 224) (hint : BITS (v.reg 12) 1 2 = 0) (b1 b2 : Screen) :
    (draw_scanline v ⟨b1, []⟩ line).agree_at y (draw_scanline v ⟨b2, []⟩ line) := by
  have hclear : Gfx.agree_at y ⟨clear_row b1, []⟩ ⟨clear_row b2, []⟩ :=
    ⟨rfl, read_clear_row_agree b1 b2 y h0 h1⟩
  have hfill : Gfx.agree_at y
      ⟨fill_backdrop (clear_row b1) (v.cram (BITS (v.reg 7) 0 6)), []⟩
      ⟨fill_backdrop (clear_row b2) (v.cram (BITS (v.reg 7) 0 6)), []⟩ :=
    ⟨rfl, read_fill_backdrop_agree b1 b2 _ y h0 h1⟩
  have hl : ¬ line ≥ 224 := by omega
  have hi : ¬ BITS (v.reg 12) 1 2 ≠ 0 := fun h => h hint
  rw [draw_scanline_eq, draw_scanline_eq]
  dsimp only
  rw [if_neg hi, if_neg hl, if_neg hi, if_neg hl]
  split_ifs
  · exact ⟨rfl, hclear⟩
  · exact ⟨rfl, hfill⟩
  · exact ⟨rfl, hfill⟩
  · exact planes_stage_agree v y line _ _ hfill

theorem gfx_draw_scanline_interlace (v : VDP) (b : Screen) (line : Nat)
    (hint : BITS (v.reg 12) 1 2 ≠ 0) :
    gfx_draw_scanline v b line = Except.error Fault.interlace_mode := by
  unfold gfx_draw_scanline
  dsimp only
  rw [draw_scanline_eq, if_pos hint]

/-- C14: for every line in `[0, 224)` and every video memory, the outcome of
`gfx_draw_scanline` (the 320 visible cells copied out, or the fault raised)
is the same for any two initial contents of the local buffer, padding and
stale priority bytes included; when no fault is raised the outcome is a row
of 320 cells. -/
theorem visible_row_ignores_stale_buffer (v : VDP) (b1 b2 : Screen) (line : Nat)
    (hline : line < 224) :
    gfx_draw_scanline v b1 line = gfx_draw_scanline v b2 line ∧
    ∀ row, gfx_draw_scanline v b1 line = Except.ok row → row.length = 320 := by
  constructor
  · by_cases hint : BITS (v.reg 12) 1 2 = 0
    · have hf : (draw_scanline v ⟨b1, []⟩ line).fault =
          (draw_scanline v ⟨b2, []⟩ line).fault :=
        (draw_scanline_agree v 0 (by decide) (by decide) line hline hint b1 b2).1
      have hrow : (List.range SCREEN_WIDTH).map
            (fun (x : Nat) => (draw_scanline v ⟨b1, []⟩ line).gfx.screen.read (x : Int)) =
          (List.range SCREEN_WIDTH).map
            (fun (x : Nat) => (draw_scanline v ⟨b2, []⟩ line).gfx.screen.read (x : Int)) := by
        refine List.map_congr_left (fun x hx => ?_)
        rw [List.mem_range] at hx
        unfold SCREEN_WIDTH at hx
        exact (draw_scanline_agree v (x : Int) (by omega) (by omega) line hline hint
          b1 b2).2.2
      unfold gfx_draw_scanline
      dsimp only
      rw [← hf, hrow]
    · rw [gfx_draw_scanline_interlace v b1 line hint, gfx_draw_scanline_interlace v b2 line hint]
  · intro row hrow2
    unfold gfx_draw_scanline at hrow2
    dsimp only at hrow2
    cases hfa : (draw_scanline v ⟨b1, []⟩ line).fault with
    | some f => rw [hfa] at hrow2; cases hrow2
    | none =>
      rw [hfa] at hrow2
      injection hrow2 with hrow3
      rw [← hrow3, List.length_map, List.length_range]
      rfl

/-- Witness of C14: line 10 with planes and sprites enabled, from a buffer of
stale cells of priority 4 and from a buffer of cells of priority 0. -/
theorem visible_row_ignores_stale_buffer_witness :
    10 < 224 ∧
    gfx_draw_scanline wide_plane_vdp stale_buffer 10 =
      gfx_draw_scanline wide_plane_vdp (Screen.const ⟨9, 9, 9, 0⟩) 10 :=
  ⟨by decide,
   (visible_row_ignores_stale_buffer wide_plane_vdp stale_buffer (Screen.const ⟨9, 9, 9, 0⟩) 10
      (by decide)).1⟩


/-! ## C8, C9: what a line with a window threshold renders

The state a renderer leaves is described by the events it logs: the
nametable entries it fetches and the `draw_pattern` calls it makes, replayed
on the buffer. -/

theorem replay_append (v : VDP) :
    ∀ (l1 l2 : List Event) (s : Screen),
      replay v (l1 ++ l2) s = replay v l2 (replay v l1 s) := by
  intro l1
  induction l1 with
  | nil => intro l2 s; rfl
  | cons e l1 ih =>
    intro l2 s
    cases e with
    | pattern x name paty => exact ih l2 _
    | enter l => exact ih l2 s
    | name_fetch a => exact ih l2 s
    | sprite_cell sl p nv np => exact ih l2 s

theorem Gfx.extends_by_trans (v : VDP) (g0 g1 g2 : Gfx) (e1 e2 : List Event)
    (h1 : g0.extends_by v e1 g1) (h2 : g1.extends_by v e2 g2) :
    g0.extends_by v (e1 ++ e2) g2 := by
  constructor
  · rw [h2.1, h1.1, List.append_assoc]
  · rw [h2.2, h1.2, replay_append]

theorem Gfx.extends_by_enter (v : VDP) (g : Gfx) (l : Layer) :
    g.extends_by v [Event.enter l] (g.emit (Event.enter l)) :=
  ⟨rfl, rfl⟩

theorem draw_nametable_extends (v : VDP) (paty : Nat) :
    ∀ (n : Nat) (x : Int) (nt : Nat) (g : Gfx),
      g.extends_by v (nametable_events v paty n x nt) (draw_nametable v paty n x nt g) := by
  intro n
  induction n with
  | zero => intro x nt g; exact ⟨(List.append_nil _).symm, rfl⟩
  | succ n ih =>
    intro x nt g
    refine ⟨draw_nametable_log v paty (n + 1) x nt g, ?_⟩
    exact (ih (x + 8) (nt + 2) _).2

theorem draw_plane_w_extends (v : VDP) (g : Gfx) (line : Nat) :
    g.extends_by v (window_events v line) (draw_plane_w v g line) :=
  draw_nametable_extends v _ _ _ _ g

/-- The state `draw_plane_ab` leaves when no assert fails: both passes, as
logged. -/
theorem draw_plane_ab_extends (v : VDP) (g : Gfx) (line ntaddr scrollx scrolly : Nat)
    (hw : BITS (v.reg 16) 0 2 ≠ 2) (hh : BITS (v.reg 16) 4 2 ≠ 2) :
    g.extends_by v (plane_events v line ntaddr scrollx scrolly)
      (draw_plane_ab v g line ntaddr scrollx scrolly).gfx := by
  refine ⟨draw_plane_ab_log v g line ntaddr scrollx scrolly hw hh, ?_⟩
  have hlt : scrollx % ((BITS (v.reg 16) 0 2 + 1) * 32 * 8) <
      (BITS (v.reg 16) 0 2 + 1) * 32 * 8 := Nat.mod_lt _ (by omega)
  unfold draw_plane_ab plane_events
  dsimp only
  rw [if_neg hw, if_neg hh, replay_append]
  by_cases h1 : scrollx % ((BITS (v.reg 16) 0 2 + 1) * 32 * 8) < SCREEN_WIDTH
  · rw [if_pos h1, if_pos h1]
    by_cases h2 : scrollx % ((BITS (v.reg 16) 0 2 + 1) * 32 * 8) > 0
    · rw [if_pos h2, if_pos h2, if_neg (by omega)]
      dsimp only
      rw [(draw_nametable_extends v _ _ _ _ _).2, (draw_nametable_extends v _ _ _ _ _).2]
    · rw [if_neg h2, if_neg h2]
      dsimp only
      rw [(draw_nametable_extends v _ _ _ _ _).2]
      rfl
  · rw [if_neg h1, if_neg h1]
    by_cases h2 : scrollx % ((BITS (v.reg 16) 0 2 + 1) * 32 * 8) > 0
    · rw [if_pos h2, if_pos h2, if_neg (by omega)]
      dsimp only
      rw [(draw_nametable_extends v _ _ _ _ _).2]
      rfl
    · rw [if_neg h2, if_neg h2]
      rfl

theorem replay_columns (v : VDP) :
    ∀ (cols : List Column) (s : Screen),
      replay v (cols.flatMap Column.events) s = cols.foldl (Column.draw v) s := by
  intro cols
  induction cols with
  | nil => intro s; rfl
  | cons c cols ih =>
    intro s
    rw [List.flatMap_cons, replay_append, List.foldl_cons, ← ih]
    rfl

/-- The state `draw_sprites` leaves: a list of sprite columns, as logged. -/
theorem draw_sprites_extends (v : VDP) (g : Gfx) (line : Nat) :
    ∃ cols : List Column,
      g.extends_by v (cols.flatMap Column.events) (draw_sprites v g line).gfx := by
  obtain ⟨cols, h1, h2, _⟩ := sprite_loop_cols v line (sprite_table v)
    (sprite_chain v (sprite_table v)).2 (sprite_chain v (sprite_table v)).1
    { gfx := g, num_visible := 0, num_pixels := 0, returned := false }
  exact ⟨cols, h1, h2.trans (replay_columns v cols g.screen).symm⟩


theorem Gfx.extends_by_eq (v : VDP) (g0 g1 : Gfx) (evs : List Event)
    (h : g0.extends_by v evs g1) :
    g1 = ⟨replay v evs g0.screen, g0.log ++ evs⟩ := by
  obtain ⟨s1, l1⟩ := g1
  obtain ⟨h1, h2⟩ := h
  dsimp only at h1 h2
  rw [h1, h2]

/-- The planes of a line when no assert fails and the window statement
raises no fault: the state they leave. -/
theorem planes_extend (v : VDP) (g : Gfx) (line : Nat)
    (hw : BITS (v.reg 16) 0 2 ≠ 2) (hh : BITS (v.reg 16) 4 2 ≠ 2) (window : Bool) :
    g.extends_by v (planes_events v line window)
      (if window = true then
        draw_plane_w v ((draw_plane_ab v (g.emit (Event.enter Layer.plane_b)) line
          v.nametable_B (get_hscroll v line).2 (v.vsram 1 &&& 0x3FF)).gfx.emit
          (Event.enter Layer.window)) line
       else
        (draw_plane_ab v ((draw_plane_ab v (g.emit (Event.enter Layer.plane_b)) line
          v.nametable_B (get_hscroll v line).2 (v.vsram 1 &&& 0x3FF)).gfx.emit
          (Event.enter Layer.plane_a)) line v.nametable_A (get_hscroll v line).1
          (v.vsram 0 &&& 0x3FF)).gfx) := by
  have hB := Gfx.extends_by_trans v _ _ _ _ _ (Gfx.extends_by_enter v g Layer.plane_b)
    (draw_plane_ab_extends v (g.emit (Event.enter Layer.plane_b)) line v.nametable_B
      (get_hscroll v line).2 (v.vsram 1 &&& 0x3FF) hw hh)
  cases window with
  | true =>
    rw [if_pos rfl]
    exact Gfx.extends_by_trans v _ _ _ _ _ hB
      (Gfx.extends_by_trans v _ _ _ _ _ (Gfx.extends_by_enter v _ Layer.window)
        (draw_plane_w_extends v _ line))
  | false =>
    rw [if_neg (by decide)]
    exact Gfx.extends_by_trans v _ _ _ _ _ hB
      (Gfx.extends_by_trans v _ _ _ _ _ (Gfx.extends_by_enter v _ Layer.plane_a)
        (draw_plane_ab_extends v _ line v.nametable_A (get_hscroll v line).1
          (v.vsram 0 &&& 0x3FF) hw hh))

/-- The state the planes and sprites leave when the window statement raises
no fault: `draw_sprites` run on the state left by Plane B and then the Window
plane or Plane A. -/
theorem planes_stage_extends (v : VDP) (g : Gfx) (line : Nat)
    (hw : BITS (v.reg 16) 0 2 ≠ 2) (hh : BITS (v.reg 16) 4 2 ≠ 2) (window : Bool)
    (hwin : ∀ g2 : Gfx, window_stage v g2 line =
      if window = true then
        (⟨draw_plane_w v (g2.emit (Event.enter Layer.window)) line, none⟩, true)
      else (⟨g2, none⟩, false)) :
    (planes_stage v g line).fault = none ∧
    (planes_stage v g line).gfx =
      (draw_sprites v
        ⟨replay v (planes_events v line window) g.screen,
          (g.log ++ planes_events v line window) ++ [Event.enter Layer.sprites]⟩ line).gfx := by
  have hfault : ∀ g2 a b c, (draw_plane_ab v g2 line a b c).fault = none := by
    intro g2 a b c
    rw [draw_plane_ab_fault, if_neg hw, if_neg hh]
  have hP := Gfx.extends_by_eq v _ _ _ (planes_extend v g line hw hh window)
  unfold planes_stage
  dsimp only
  split
  · rename_i f hf
    rw [hfault] at hf
    cases hf
  · rw [hwin]
    cases window with
    | true =>
      rw [if_pos rfl] at hP ⊢
      dsimp only
      unfold plane_a_and_sprites
      dsimp only
      rw [if_neg (by decide)]
      dsimp only
      rw [hP]
      exact ⟨rfl, rfl⟩
    | false =>
      rw [if_neg (by decide)] at hP ⊢
      dsimp only
      unfold plane_a_and_sprites
      dsimp only
      rw [if_pos (by decide)]
      split
      · rename_i f hf
        rw [hfault] at hf
        cases hf
      · rw [hP]
        exact ⟨rfl, rfl⟩

/-- The sprite columns drawn on top of the planes. -/
theorem line_extends (v : VDP) (g : Gfx) (line : Nat) (window : Bool) :
    ∃ cols : List Column,
      g.extends_by v (line_events v line window cols)
        (draw_sprites v
          ⟨replay v (planes_events v line window) g.screen,
            (g.log ++ planes_events v line window) ++ [Event.enter Layer.sprites]⟩ line).gfx := by
  obtain ⟨cols, h1, h2⟩ := draw_sprites_extends v
    ⟨replay v (planes_events v line window) g.screen,
      (g.log ++ planes_events v line window) ++ [Event.enter Layer.sprites]⟩ line
  refine ⟨cols, ?_, ?_⟩
  · rw [h1]
    unfold line_events
    dsimp only
    rw [List.append_assoc, List.append_assoc]
    rfl
  · rw [h2]
    unfold line_events
    dsimp only
    rw [replay_append]
    rfl

/-- The state left when the window statement raises a fault: Plane B alone. -/
theorem planes_stage_window_fault (v : VDP) (g : Gfx) (line : Nat)
    (hw : BITS (v.reg 16) 0 2 ≠ 2) (hh : BITS (v.reg 16) 4 2 ≠ 2) (f : Fault)
    (hwin : ∀ g2 : Gfx, window_stage v g2 line = (⟨g2, some f⟩, true)) :
    (planes_stage v g line).fault = some f ∧
    g.extends_by v (Event.enter Layer.plane_b :: plane_b_events v line)
      (planes_stage v g line).gfx := by
  have hfault : (draw_plane_ab v (g.emit (Event.enter Layer.plane_b)) line v.nametable_B
      (get_hscroll v line).2 (v.vsram 1 &&& 0x3FF)).fault = none := by
    rw [draw_plane_ab_fault, if_neg hw, if_neg hh]
  have hB := Gfx.extends_by_trans v _ _ _ _ _ (Gfx.extends_by_enter v g Layer.plane_b)
    (draw_plane_ab_extends v (g.emit (Event.enter Layer.plane_b)) line v.nametable_B
      (get_hscroll v line).2 (v.vsram 1 &&& 0x3FF) hw hh)
  unfold planes_stage
  dsimp only
  split
  · rename_i f2 hf
    rw [hfault] at hf
    cases hf
  · rw [hwin]
    exact ⟨rfl, hB⟩


set_option maxRecDepth 20000 in
/-- C8: with display and planes enabled, no fault configuration, a non-zero
window threshold `t` (register 18 low 5 bits) and up-trigger (register 18 bit
7 clear), every line in `[0, 224)` is rendered without a fault, and what is
rendered is: Plane B, then the Window plane if `line ≤ t*8` and Plane A
otherwise, then the sprites. The planes log exactly `planes_events`: after
the two passes of Plane B, for `line ≤ t*8` the 40 entries of row `line >> 3`
of the window nametable drawn at `x = 0 … 312` and no entry of Plane A,
otherwise the two passes of Plane A and no entry of the Window plane. The
final state is that of `draw_sprites` run on the backdrop row with exactly
these `draw_pattern` calls made on it; so the whole log is `line_events` for
the sprite columns `cols` drawn, and the buffer is the backdrop row with the
`draw_pattern` calls of the log made on it, in this order. -/
theorem window_up_trigger (v : VDP) (g : Gfx) (line : Nat) (hline : line < 224)
    (hinterlace : BITS (v.reg 12) 1 2 = 0) (hdisplay : BIT (v.reg 0) 0 = 0)
    (hplanes : BIT (v.reg 1) 6 ≠ 0) (hvscroll : BIT (v.reg 11) 2 = 0)
    (hwidth : BITS (v.reg 16) 0 2 ≠ 2) (hheight : BITS (v.reg 16) 4 2 ≠ 2)
    (ht : v.reg 18 &&& 0x1F ≠ 0) (hup : BIT (v.reg 18) 7 = 0) :
    (draw_scanline v g line).fault = none ∧
    stages (draw_scanline v g line).gfx.log =
      stages g.log ++
        (if line ≤ (v.reg 18 &&& 0x1F) * 8 then [Layer.plane_b, Layer.window, Layer.sprites]
         else [Layer.plane_b, Layer.plane_a, Layer.sprites]) ∧
    (draw_scanline v g line).gfx =
      (draw_sprites v
        ⟨replay v (planes_events v line (decide (line ≤ (v.reg 18 &&& 0x1F) * 8)))
            (fill_backdrop (clear_row g.screen) (v.cram (BITS (v.reg 7) 0 6))),
          (g.log ++ planes_events v line (decide (line ≤ (v.reg 18 &&& 0x1F) * 8))) ++
            [Event.enter Layer.sprites]⟩ line).gfx ∧
    ∃ cols : List Column,
      (draw_scanline v g line).gfx.log =
        g.log ++ line_events v line (decide (line ≤ (v.reg 18 &&& 0x1F) * 8)) cols ∧
      (draw_scanline v g line).gfx.screen =
        replay v (line_events v line (decide (line ≤ (v.reg 18 &&& 0x1F) * 8)) cols)
          (fill_backdrop (clear_row g.screen) (v.cram (BITS (v.reg 7) 0 6))) := by
  have hst := draw_scanline_up_stages v g line hline hinterlace hdisplay hplanes hvscroll
    hwidth hheight ht hup
  obtain ⟨_, hgfx⟩ := planes_stage_extends v
    ⟨fill_backdrop (clear_row g.screen) (v.cram (BITS (v.reg 7) 0 6)), g.log⟩ line
    hwidth hheight (decide (line ≤ (v.reg 18 &&& 0x1F) * 8))
    (fun g2 => by
      rw [window_stage_up v g2 line ht hup]
      by_cases hle : line ≤ (v.reg 18 &&& 0x1F) * 8
      · rw [if_pos hle, if_pos (decide_eq_true hle)]
      · rw [if_neg hle, if_neg (by rw [decide_eq_false hle]; decide)])
  obtain ⟨cols, h1, h2⟩ := line_extends v
    ⟨fill_backdrop (clear_row g.screen) (v.cram (BITS (v.reg 7) 0 6)), g.log⟩ line
    (decide (line ≤ (v.reg 18 &&& 0x1F) * 8))
  refine ⟨hst.1, hst.2, ?_⟩
  rw [draw_scanline_planes v g line hline hinterlace hdisplay hplanes hvscroll, hgfx]
  exact ⟨rfl, cols, h1, h2⟩

set_option maxRecDepth 100000 in
/-- Witness of C8: threshold 10, up-trigger, the three nametables at
different addresses. After the 40 entries of row 10 of Plane B
(`0xE000 + 10*64 + 2c` at `x = 8c`), line 80 fetches and draws the 40 entries
of row 10 of the window nametable (`0xD000 + 10*80 + 2c`), line 81 those of
row 10 of Plane A (`0xC000 + 10*64 + 2c`); both lines then draw the one
column of the sprite. -/
theorem window_up_trigger_witness :
    (80 < 224 ∧ 81 < 224 ∧ (window_tables_vdp 10).reg 18 &&& 0x1F = 10 ∧
      BIT ((window_tables_vdp 10).reg 18) 7 = 0 ∧
      BIT ((window_tables_vdp 10).reg 0) 0 = 0 ∧ BIT ((window_tables_vdp 10).reg 1) 6 ≠ 0) ∧
    (∃ cols : List Column,
      (draw_scanline (window_tables_vdp 10) ⟨stale_buffer, []⟩ 80).gfx.log =
        line_events (window_tables_vdp 10) 80 true cols) ∧
    (∃ cols : List Column,
      (draw_scanline (window_tables_vdp 10) ⟨stale_buffer, []⟩ 81).gfx.log =
        line_events (window_tables_vdp 10) 81 false cols) ∧
    tile_columns (draw_scanline (window_tables_vdp 10) ⟨stale_buffer, []⟩ 80).gfx.log =
      (List.range 40).map (fun (c : Nat) => (0xE000 + 10 * 64 + 2 * c, 8 * (c : Int))) ++
      (List.range 40).map (fun (c : Nat) => (0xD000 + 10 * 80 + 2 * c, 8 * (c : Int))) ∧
    tile_columns (draw_scanline (window_tables_vdp 10) ⟨stale_buffer, []⟩ 81).gfx.log =
      (List.range 40).map (fun (c : Nat) => (0xE000 + 10 * 64 + 2 * c, 8 * (c : Int))) ++
      (List.range 40).map (fun (c : Nat) => (0xC000 + 10 * 64 + 2 * c, 8 * (c : Int))) ∧
    drawn_cells (draw_scanline (window_tables_vdp 10) ⟨stale_buffer, []⟩ 80).gfx.log =
      [(0, 0)] ∧
    drawn_cells (draw_scanline (window_tables_vdp 10) ⟨stale_buffer, []⟩ 81).gfx.log =
      [(0, 0)] := by
  obtain ⟨_, _, _, cols80, h80, _⟩ := window_up_trigger (window_tables_vdp 10)
    ⟨stale_buffer, []⟩ 80 (by decide) (by decide) (by decide) (by decide) (by decide)
    (by decide) (by decide) (by decide) (by decide)
  obtain ⟨_, _, _, cols81, h81, _⟩ := window_up_trigger (window_tables_vdp 10)
    ⟨stale_buffer, []⟩ 81 (by decide) (by decide) (by decide) (by decide) (by decide)
    (by decide) (by decide) (by decide) (by decide)
  have d80 : decide (80 ≤ ((window_tables_vdp 10).reg 18 &&& 0x1F) * 8) = true := by decide
  have d81 : decide (81 ≤ ((window_tables_vdp 10).reg 18 &&& 0x1F) * 8) = false := by decide
  rw [d80] at h80
  rw [d81] at h81
  exact ⟨by decide, ⟨cols80, h80⟩, ⟨cols81, h81⟩, by decide, by decide, by decide, by decide⟩

set_option maxRecDepth 20000 in
/-- C9 (amended): with display and planes enabled, no other fault
configuration, a non-zero window threshold `t` and down-trigger (register 18
bit 7 set): for every line in `[0, 224)` with `line ≥ t*8` the render raises
the fault `winv down scroll` after Plane B has been rendered and before the
Window plane, Plane A or the sprites are: the log holds the two passes of
Plane B and nothing else, and the buffer is the backdrop row with the
`draw_pattern` calls of Plane B made on it. For `line < t*8` it raises no
fault and renders Plane B, Plane A and the sprites: the planes log the two
passes of Plane B, then those of Plane A, and the final state is that of
`draw_sprites` run on the backdrop row with exactly these `draw_pattern`
calls made on it; so the whole log is `line_events` without the Window plane
for the sprite columns `cols` drawn, and the buffer is the backdrop row with
the `draw_pattern` calls of the log made on it. -/
theorem window_down_trigger (v : VDP) (g : Gfx) (line : Nat) (hline : line < 224)
    (hinterlace : BITS (v.reg 12) 1 2 = 0) (hdisplay : BIT (v.reg 0) 0 = 0)
    (hplanes : BIT (v.reg 1) 6 ≠ 0) (hvscroll : BIT (v.reg 11) 2 = 0)
    (hwidth : BITS (v.reg 16) 0 2 ≠ 2) (hheight : BITS (v.reg 16) 4 2 ≠ 2)
    (ht : v.reg 18 &&& 0x1F ≠ 0) (hdown : BIT (v.reg 18) 7 ≠ 0) :
    (line ≥ (v.reg 18 &&& 0x1F) * 8 →
      (draw_scanline v g line).fault = some Fault.winv_down_scroll ∧
      stages (draw_scanline v g line).gfx.log = stages g.log ++ [Layer.plane_b] ∧
      (draw_scanline v g line).gfx.log =
        g.log ++ Event.enter Layer.plane_b :: plane_b_events v line ∧
      (draw_scanline v g line).gfx.screen =
        replay v (plane_b_events v line)
          (fill_backdrop (clear_row g.screen) (v.cram (BITS (v.reg 7) 0 6)))) ∧
    (line < (v.reg 18 &&& 0x1F) * 8 →
      (draw_scanline v g line).fault = none ∧
      stages (draw_scanline v g line).gfx.log =
        stages g.log ++ [Layer.plane_b, Layer.plane_a, Layer.sprites] ∧
      (draw_scanline v g line).gfx =
        (draw_sprites v
          ⟨replay v (planes_events v line false)
              (fill_backdrop (clear_row g.screen) (v.cram (BITS (v.reg 7) 0 6))),
            (g.log ++ planes_events v line false) ++ [Event.enter Layer.sprites]⟩
          line).gfx ∧
      ∃ cols : List Column,
        (draw_scanline v g line).gfx.log = g.log ++ line_events v line false cols ∧
        (draw_scanline v g line).gfx.screen =
          replay v (line_events v line false cols)
            (fill_backdrop (clear_row g.screen) (v.cram (BITS (v.reg 7) 0 6)))) := by
  have hst := draw_scanline_down_stages v g line hline hinterlace hdisplay hplanes hvscroll
    hwidth hheight ht hdown
  constructor
  · intro hge
    refine ⟨(hst.1 hge).1, (hst.1 hge).2, ?_⟩
    rw [draw_scanline_planes v g line hline hinterlace hdisplay hplanes hvscroll]
    obtain ⟨_, h1, h2⟩ := planes_stage_window_fault v
      ⟨fill_backdrop (clear_row g.screen) (v.cram (BITS (v.reg 7) 0 6)), g.log⟩ line
      hwidth hheight Fault.winv_down_scroll
      (fun g2 => by rw [window_stage_down v g2 line ht hdown, if_pos hge])
    exact ⟨h1, h2⟩
  · intro hlt
    obtain ⟨_, hgfx⟩ := planes_stage_extends v
      ⟨fill_backdrop (clear_row g.screen) (v.cram (BITS (v.reg 7) 0 6)), g.log⟩ line
      hwidth hheight false
      (fun g2 => by
        rw [window_stage_down v g2 line ht hdown, if_neg (by omega), if_neg (by decide)])
    obtain ⟨cols, h1, h2⟩ := line_extends v
      ⟨fill_backdrop (clear_row g.screen) (v.cram (BITS (v.reg 7) 0 6)), g.log⟩ line false
    refine ⟨(hst.2 hlt).1, (hst.2 hlt).2, ?_⟩
    rw [draw_scanline_planes v g line hline hinterlace hdisplay hplanes hvscroll, hgfx]
    exact ⟨rfl, cols, h1, h2⟩

set_option maxRecDepth 100000 in
/-- Witness of C9 (amended): threshold 10, down-trigger, the three nametables
at different addresses. Line 80 faults with the 40 entries of row 10 of
Plane B (`0xE000 + 10*64 + 2c`) fetched and drawn and nothing after them;
line 79 fetches and draws row 9 of Plane B, then row 9 of Plane A
(`0xC000 + 9*64 + 2c`), then the one column of the sprite, which is on line
80 too but is not drawn there. -/
theorem window_down_trigger_witness :
    (80 < 224 ∧ 79 < 224 ∧ (window_tables_vdp 0x8A).reg 18 &&& 0x1F = 10 ∧
      BIT ((window_tables_vdp 0x8A).reg 18) 7 ≠ 0 ∧
      BIT ((window_tables_vdp 0x8A).reg 0) 0 = 0 ∧
      BIT ((window_tables_vdp 0x8A).reg 1) 6 ≠ 0) ∧
    ((draw_scanline (window_tables_vdp 0x8A) ⟨stale_buffer, []⟩ 80).fault =
        some Fault.winv_down_scroll ∧
      (draw_scanline (window_tables_vdp 0x8A) ⟨stale_buffer, []⟩ 80).gfx.log =
        Event.enter Layer.plane_b :: plane_b_events (window_tables_vdp 0x8A) 80) ∧
    ((draw_scanline (window_tables_vdp 0x8A) ⟨stale_buffer, []⟩ 79).fault = none ∧
      ∃ cols : List Column,
        (draw_scanline (window_tables_vdp 0x8A) ⟨stale_buffer, []⟩ 79).gfx.log =
          line_events (window_tables_vdp 0x8A) 79 false cols) ∧
    tile_columns (draw_scanline (window_tables_vdp 0x8A) ⟨stale_buffer, []⟩ 80).gfx.log =
      (List.range 40).map (fun (c : Nat) => (0xE000 + 10 * 64 + 2 * c, 8 * (c : Int))) ∧
    tile_columns (draw_scanline (window_tables_vdp 0x8A) ⟨stale_buffer, []⟩ 79).gfx.log =
      (List.range 40).map (fun (c : Nat) => (0xE000 + 9 * 64 + 2 * c, 8 * (c : Int))) ++
      (List.range 40).map (fun (c : Nat) => (0xC000 + 9 * 64 + 2 * c, 8 * (c : Int))) ∧
    drawn_cells (draw_scanline (window_tables_vdp 0x8A) ⟨stale_buffer, []⟩ 80).gfx.log = [] ∧
    drawn_cells (draw_scanline (window_tables_vdp 0x8A) ⟨stale_buffer, []⟩ 79).gfx.log =
      [(0, 0)] := by
  obtain ⟨hf80, _, h80, _⟩ := (window_down_trigger (window_tables_vdp 0x8A)
    ⟨stale_buffer, []⟩ 80 (by decide) (by decide) (by decide) (by decide) (by decide)
    (by decide) (by decide) (by decide) (by decide)).1 (by decide)
  obtain ⟨hf79, _, _, cols79, h79, _⟩ := (window_down_trigger (window_tables_vdp 0x8A)
    ⟨stale_buffer, []⟩ 79 (by decide) (by decide) (by decide) (by decide) (by decide)
    (by decide) (by decide) (by decide) (by decide)).2 (by decide)
  exact ⟨by decide, ⟨hf80, h80⟩, ⟨hf79, cols79, h79⟩, by decide, by decide, by decide,
    by decide⟩

end Genemu
